import Mathlib

/-!
Shallow embedding of the statement table (`candidate-agreement/src/table.rs`).

Rust `HashMap`s are modelled as association lists with unique keys;
`Vec` as `List`; the two `panic!`/`expect` sites are modelled by returning
`none` from the corresponding operations.  Machine `usize` counts are `Nat`.
-/

/-- Association-list lookup: first binding of the key, if any (models `HashMap::get`). -/
def lookupA {K A : Type} [DecidableEq K] : List (K × A) → K → Option A
  | [], _ => none
  | p :: ps, k => if p.1 = k then some p.2 else lookupA ps k

/-- Association-list insert-or-replace (models `HashMap::insert` / occupied-entry update). -/
def insertA {K A : Type} [DecidableEq K] (k : K) (a : A) : List (K × A) → List (K × A)
  | [] => [(k, a)]
  | p :: ps => if p.1 = k then (k, a) :: ps else p :: insertA k a ps

/-- Insert only when the key is absent (models `HashMap::entry(..).or_insert_with`). -/
def insertIfAbsentA {K A : Type} [DecidableEq K] (k : K) (a : A) (l : List (K × A)) : List (K × A) :=
  match lookupA l k with
  | some _ => l
  | none => l ++ [(k, a)]

/-- Statements circulated among peers (`Statement` in table.rs). -/
inductive Statement (D C : Type) where
  | Candidate : C → Statement D C
  | Valid : D → Statement D C
  | Available : D → Statement D C
  | Invalid : D → Statement D C

deriving instance DecidableEq for Statement

/-- A signed statement (`SignedStatement` in table.rs). -/
structure SignedStatement (D C S : Type) where
  statement : Statement D C
  signature : S

deriving instance DecidableEq for SignedStatement

/-- The environment / `Context` trait of table.rs: an injected capability object. -/
structure Context (V D C G S : Type) where
  candidate_digest : C → D
  candidate_group : C → G
  is_member_of : V → G → Bool
  is_availability_guarantor_of : V → G → Bool
  statement_signer : SignedStatement D C S → Option V
  requisite_votes : G → Nat × Nat

/-- Kinds of votes for validity (`ValidityVote` in table.rs). -/
inductive ValidityVote (S : Type) where
  | Issued : S → ValidityVote S
  | Valid : S → ValidityVote S
  | Invalid : S → ValidityVote S

deriving instance DecidableEq for ValidityVote

/-- Misbehavior: voting more than one way on candidate validity (`ValidityDoubleVote`). -/
inductive ValidityDoubleVote (D C S : Type) where
  | IssuedAndValidity : C × S → D × S → ValidityDoubleVote D C S
  | IssuedAndInvalidity : C × S → D × S → ValidityDoubleVote D C S
  | ValidityAndInvalidity : D → S → S → ValidityDoubleVote D C S

deriving instance DecidableEq for ValidityDoubleVote

/-- Misbehavior: declaring multiple candidates (`MultipleCandidates`). -/
structure MultipleCandidates (C S : Type) where
  first : C × S
  second : C × S

deriving instance DecidableEq for MultipleCandidates

/-- Misbehavior: submitted statement for wrong group (`UnauthorizedStatement`). -/
structure UnauthorizedStatement (D C S : Type) where
  statement : SignedStatement D C S

deriving instance DecidableEq for UnauthorizedStatement

/-- Different kinds of misbehavior (`Misbehavior` in table.rs). -/
inductive Misbehavior (D C S : Type) where
  | ValidityDoubleVote : ValidityDoubleVote D C S → Misbehavior D C S
  | MultipleCandidates : MultipleCandidates C S → Misbehavior D C S
  | UnauthorizedStatement : UnauthorizedStatement D C S → Misbehavior D C S

deriving instance DecidableEq for Misbehavior

/-- Stores votes and data about a candidate (`CandidateData` in table.rs). -/
structure CandidateData (V D C G S : Type) where
  group_id : G
  candidate : C
  validity_votes : List (V × ValidityVote S)
  availability_votes : List (V × S)
  indicated_bad_by : List V

deriving instance DecidableEq for CandidateData

/-- `CandidateData::can_be_included`: enough validity and availability votes,
and no validator has called the candidate bad. -/
def CandidateData.can_be_included {V D C G S : Type} (cd : CandidateData V D C G S)
    (validity_threshold availability_threshold : Nat) : Bool :=
  cd.indicated_bad_by.isEmpty
    && decide (validity_threshold ≤ cd.validity_votes.length)
    && decide (availability_threshold ≤ cd.availability_votes.length)

/-- The statement table (`Table` in table.rs).  The Rust field
`proposed_candidates` is called `proposed` here (as in the spec) to leave the
name `proposed_candidates` for the method of the same name. -/
structure Table (V D C G S : Type) where
  proposed : List (V × (D × S))
  detected_misbehavior : List (V × Misbehavior D C S)
  candidate_votes : List (D × CandidateData V D C G S)

deriving instance DecidableEq for Table

/-- `create`: a new, empty statement table. -/
def create {V D C G S : Type} : Table V D C G S :=
  { proposed := [], detected_misbehavior := [], candidate_votes := [] }

/-- The loop body of `Table::proposed_candidates`: fold one record into the
best-candidate accumulator (the `BTreeMap` of the Rust code). -/
def bestStep {V D C G S : Type} [LinearOrder C] [LinearOrder G] (ctx : Context V D C G S)
    (best : List (G × C)) (p : D × CandidateData V D C G S) : List (G × C) :=
  let cd := p.2
  let rv := ctx.requisite_votes cd.group_id
  if cd.can_be_included rv.1 rv.2 then
    match lookupA best cd.group_id with
    | some c => if c < cd.candidate then insertA cd.group_id cd.candidate best else best
    | none => insertA cd.group_id cd.candidate best
  else best

/-- `Table::proposed_candidates`: the best includable candidate of every group,
emitted in ascending `GroupId` order (the accumulator models the `BTreeMap`). -/
def Table.proposed_candidates {V D C G S : Type} [DecidableEq V] [DecidableEq D]
    [LinearOrder C] [LinearOrder G] (t : Table V D C G S) (ctx : Context V D C G S) : List C :=
  ((t.candidate_votes.foldl (bestStep ctx) []).mergeSort
    (fun a b => decide (a.1 ≤ b.1))).map Prod.snd

/-- `Table::candidates_in_group`: all candidate records with the given group. -/
def Table.candidates_in_group {V D C G S : Type} [DecidableEq G]
    (t : Table V D C G S) (group_id : G) : List (CandidateData V D C G S) :=
  (t.candidate_votes.map Prod.snd).filter (fun c => decide (c.group_id = group_id))

/-- `Table::drain_misbehavior`: take the misbehavior map, leaving it empty. -/
def Table.drain_misbehavior {V D C G S : Type} (t : Table V D C G S) :
    Table V D C G S × List (V × Misbehavior D C S) :=
  ({ t with detected_misbehavior := [] }, t.detected_misbehavior)

/-- `Table::validity_vote`.  Returns `none` exactly when the Rust code panics
(an `Issued` vote whose signer fails the membership check). -/
def Table.validity_vote {V D C G S : Type} [DecidableEq V] [DecidableEq D] [DecidableEq S]
    (t : Table V D C G S) (ctx : Context V D C G S) (vfrom : V) (digest : D)
    (vote : ValidityVote S) :
    Option (Table V D C G S × Option (Misbehavior D C S)) :=
  match lookupA t.candidate_votes digest with
  | none => some (t, none)
  | some votes =>
    if !ctx.is_member_of vfrom votes.group_id then
      match vote with
      | .Valid s =>
        some (t, some (.UnauthorizedStatement ⟨⟨.Valid digest, s⟩⟩))
      | .Invalid s =>
        some (t, some (.UnauthorizedStatement ⟨⟨.Invalid digest, s⟩⟩))
      | .Issued _ => none
    else
      match lookupA votes.validity_votes vfrom with
      | some occ =>
        if occ = vote then some (t, none)
        else
          match occ, vote with
          | .Issued iss, .Valid good =>
            some (t, some (.ValidityDoubleVote
              (.IssuedAndValidity (votes.candidate, iss) (digest, good))))
          | .Valid good, .Issued iss =>
            some (t, some (.ValidityDoubleVote
              (.IssuedAndValidity (votes.candidate, iss) (digest, good))))
          | .Issued iss, .Invalid bad =>
            some (t, some (.ValidityDoubleVote
              (.IssuedAndInvalidity (votes.candidate, iss) (digest, bad))))
          | .Invalid bad, .Issued iss =>
            some (t, some (.ValidityDoubleVote
              (.IssuedAndInvalidity (votes.candidate, iss) (digest, bad))))
          | .Valid good, .Invalid bad =>
            some (t, some (.ValidityDoubleVote
              (.ValidityAndInvalidity digest good bad)))
          | .Invalid bad, .Valid good =>
            some (t, some (.ValidityDoubleVote
              (.ValidityAndInvalidity digest good bad)))
          | _, _ => some (t, none)
      | none =>
        let votes' : CandidateData V D C G S :=
          { votes with
            validity_votes := votes.validity_votes ++ [(vfrom, vote)],
            indicated_bad_by :=
              match vote with
              | .Invalid _ => votes.indicated_bad_by ++ [vfrom]
              | _ => votes.indicated_bad_by }
        some ({ t with candidate_votes := insertA digest votes' t.candidate_votes }, none)

/-- `Table::availability_vote`. -/
def Table.availability_vote {V D C G S : Type} [DecidableEq V] [DecidableEq D]
    (t : Table V D C G S) (ctx : Context V D C G S) (vfrom : V) (digest : D) (signature : S) :
    Table V D C G S × Option (Misbehavior D C S) :=
  match lookupA t.candidate_votes digest with
  | none => (t, none)
  | some votes =>
    if !ctx.is_availability_guarantor_of vfrom votes.group_id then
      (t, some (.UnauthorizedStatement ⟨⟨.Available digest, signature⟩⟩))
    else
      let votes' : CandidateData V D C G S :=
        { votes with availability_votes := insertA vfrom signature votes.availability_votes }
      ({ t with candidate_votes := insertA digest votes' t.candidate_votes }, none)

/-- `Table::import_candidate`.  Returns `none` exactly when the Rust code
panics (the `expect` on the old proposed digest, or through `validity_vote`). -/
def Table.import_candidate {V D C G S : Type} [DecidableEq V] [DecidableEq D] [DecidableEq S]
    (t : Table V D C G S) (ctx : Context V D C G S) (vfrom : V) (candidate : C) (signature : S) :
    Option (Table V D C G S × Option (Misbehavior D C S)) :=
  let group := ctx.candidate_group candidate
  if !ctx.is_member_of vfrom group then
    some (t, some (.UnauthorizedStatement ⟨⟨.Candidate candidate, signature⟩⟩))
  else
    let digest := ctx.candidate_digest candidate
    match lookupA t.proposed vfrom with
    | some old =>
      if old.1 ≠ digest then
        match lookupA t.candidate_votes old.1 with
        | none => none
        | some oldData =>
          some (t, some (.MultipleCandidates
            ⟨(oldData.candidate, old.2), (candidate, signature)⟩))
      else
        t.validity_vote ctx vfrom digest (.Issued signature)
    | none =>
      let newData : CandidateData V D C G S :=
        { group_id := group, candidate := candidate, validity_votes := [],
          availability_votes := [], indicated_bad_by := [] }
      let t' : Table V D C G S :=
        { t with
          proposed := insertA vfrom (digest, signature) t.proposed,
          candidate_votes := insertIfAbsentA digest newData t.candidate_votes }
      t'.validity_vote ctx vfrom digest (.Issued signature)

/-- `Table::import_statement`.  `none` models a panic in a handler. -/
def Table.import_statement {V D C G S : Type} [DecidableEq V] [DecidableEq D] [DecidableEq S]
    (t : Table V D C G S) (ctx : Context V D C G S) (statement : SignedStatement D C S) :
    Option (Table V D C G S) :=
  match ctx.statement_signer statement with
  | none => some t
  | some signer =>
    let res :=
      match statement.statement with
      | .Candidate c => t.import_candidate ctx signer c statement.signature
      | .Valid d => t.validity_vote ctx signer d (.Valid statement.signature)
      | .Invalid d => t.validity_vote ctx signer d (.Invalid statement.signature)
      | .Available d => some (t.availability_vote ctx signer d statement.signature)
    match res with
    | none => none
    | some (t', maybe_misbehavior) =>
      match maybe_misbehavior with
      | none => some t'
      | some m =>
        some { t' with detected_misbehavior := insertA signer m t'.detected_misbehavior }

/-- The inclusion test `proposed_candidates` applies to a record: its group's
thresholds fed to `can_be_included` (the loop body of `Table::proposed_candidates`). -/
def includable {V D C G S : Type} (ctx : Context V D C G S) (cd : CandidateData V D C G S) :
    Bool :=
  cd.can_be_included (ctx.requisite_votes cd.group_id).1 (ctx.requisite_votes cd.group_id).2

/-- Maximum of two optional candidates (absent means no candidate yet). -/
def omax {C : Type} [LinearOrder C] : Option C → Option C → Option C
  | none, o => o
  | some a, none => some a
  | some a, some b => some (max a b)

/-- The maximum candidate among the given records that belong to group `g`. -/
def groupMax {V D C G S : Type} [LinearOrder C] [LinearOrder G]
    (cds : List (CandidateData V D C G S)) (g : G) : Option C :=
  ((cds.filter (fun cd => decide (cd.group_id = g))).map CandidateData.candidate).max?

/-- Modelled from the spec (§4.6): among includable records sharing a group select
the maximum candidate under the candidate order; emit the selected candidates in
ascending `GroupId` order.  Stated independently of the fold in
`Table.proposed_candidates`, for comparison with it. -/
def proposedCandidatesSpec {V D C G S : Type} [LinearOrder C] [LinearOrder G]
    (ctx : Context V D C G S) (t : Table V D C G S) : List C :=
  let incl := (t.candidate_votes.map Prod.snd).filter (fun cd => includable ctx cd)
  let groups := ((incl.map CandidateData.group_id).dedup).mergeSort (fun a b => decide (a ≤ b))
  groups.filterMap (groupMax incl)

/-- Tables reachable from the empty table by successful `import_statement` calls. -/
inductive Reachable {V D C G S : Type} [DecidableEq V] [DecidableEq D] [DecidableEq S]
    (ctx : Context V D C G S) : Table V D C G S → Prop where
  | empty : Reachable ctx create
  | step {t t' : Table V D C G S} {s : SignedStatement D C S} :
      Reachable ctx t → t.import_statement ctx s = some t' → Reachable ctx t'

/-- A small concrete environment over `Nat`, used to instantiate theorems at
concrete inputs: candidate `c` has group `c / 10000` and digest `c % 10000`;
validator `v` is a member of group `v / 100` and an availability guarantor of
group `v % 100`; a statement is signed by the validator named in its signature. -/
def ctxW : Context Nat Nat Nat Nat Nat :=
  { candidate_digest := fun c => c % 10000
    candidate_group := fun c => c / 10000
    is_member_of := fun v g => v / 100 == g
    is_availability_guarantor_of := fun v g => v % 100 == g
    statement_signer := fun ss => some ss.signature
    requisite_votes := fun _ => (2, 1) }

/-- A concrete candidate record: candidate 20100 (group 2, digest 100), with a
`Valid` vote by validator 201. -/
def cdW : CandidateData Nat Nat Nat Nat Nat :=
  { group_id := 2, candidate := 20100, validity_votes := [(201, ValidityVote.Valid 5)],
    availability_votes := [], indicated_bad_by := [] }

/-- A concrete table: validator 201 proposed digest 100 with signature 7,
and the record `cdW` is stored at digest 100. -/
def tW : Table Nat Nat Nat Nat Nat :=
  { proposed := [(201, (100, 7))], detected_misbehavior := [], candidate_votes := [(100, cdW)] }

/-- The structural invariant maintained by `import_statement` (spec §3
invariants 1–4): unique map keys, every proposed digest has a record, records
are keyed by their candidate's digest and carry its group, and
`indicated_bad_by` lists exactly the validators whose stored vote is
`Invalid`, without duplicates. -/
structure TableInv {V D C G S : Type} [DecidableEq V] [DecidableEq D]
    (ctx : Context V D C G S) (t : Table V D C G S) : Prop where
  cv_nodup : (t.candidate_votes.map Prod.fst).Nodup
  proposed_record : ∀ v d s, lookupA t.proposed v = some (d, s) →
    ∃ cd, lookupA t.candidate_votes d = some cd
  record_digest : ∀ d cd, lookupA t.candidate_votes d = some cd →
    ctx.candidate_digest cd.candidate = d
  record_group : ∀ d cd, lookupA t.candidate_votes d = some cd →
    cd.group_id = ctx.candidate_group cd.candidate
  vv_nodup : ∀ d cd, lookupA t.candidate_votes d = some cd →
    (cd.validity_votes.map Prod.fst).Nodup
  av_nodup : ∀ d cd, lookupA t.candidate_votes d = some cd →
    (cd.availability_votes.map Prod.fst).Nodup
  bad_iff : ∀ d cd v, lookupA t.candidate_votes d = some cd →
    (v ∈ cd.indicated_bad_by ↔ ∃ s, lookupA cd.validity_votes v = some (ValidityVote.Invalid s))
  bad_nodup : ∀ d cd, lookupA t.candidate_votes d = some cd → cd.indicated_bad_by.Nodup

/-- A concrete environment with a digest collision: candidates 10007 (group 1)
and 20007 (group 2) share digest 7.  Validator 1 is a member of group 1 only,
validator 2 of group 2 only. -/
def ctxColl : Context Nat Nat Nat Nat Nat :=
  { candidate_digest := fun c => c % 10000
    candidate_group := fun c => c / 10000
    is_member_of := fun v g => v == g
    is_availability_guarantor_of := fun _ _ => false
    statement_signer := fun ss => some ss.signature
    requisite_votes := fun _ => (1, 0) }

/-- The table reached from empty under `ctxColl` by importing candidate 10007
(signed by validator 1). -/
def tColl : Table Nat Nat Nat Nat Nat :=
  { proposed := [(1, (7, 1))]
    detected_misbehavior := []
    candidate_votes := [(7,
      { group_id := 1, candidate := 10007,
        validity_votes := [(1, ValidityVote.Issued 1)],
        availability_votes := [], indicated_bad_by := [] })] }

/-- The candidate record stored at digest 100 after validator 201 proposes
candidate 20100 and validator 202 votes `Invalid` on it. -/
def cdInv : CandidateData Nat Nat Nat Nat Nat :=
  { group_id := 2, candidate := 20100,
    validity_votes := [(201, ValidityVote.Issued 201), (202, ValidityVote.Invalid 202)],
    availability_votes := [], indicated_bad_by := [202] }

/-- The table reached from empty under `ctxW` by importing candidate 20100
(signed by validator 201) and then `Invalid 100` (signed by validator 202). -/
def tInv : Table Nat Nat Nat Nat Nat :=
  { proposed := [(201, (100, 201))]
    detected_misbehavior := []
    candidate_votes := [(100, cdInv)] }

/-- The table reached from empty under `ctxW` by importing candidate 20100
(signed by validator 201) alone; one import before `tInv`. -/
def tMid : Table Nat Nat Nat Nat Nat :=
  { proposed := [(201, (100, 201))]
    detected_misbehavior := []
    candidate_votes := [(100,
      { group_id := 2, candidate := 20100,
        validity_votes := [(201, ValidityVote.Issued 201)],
        availability_votes := [], indicated_bad_by := [] })] }

/-- A concrete environment whose digest function is the identity (hence
injective, as for a content-addressing digest): candidate `c` has digest `c`
and group `c / 10000`; membership as in `ctxW`. -/
def ctxInj : Context Nat Nat Nat Nat Nat :=
  { candidate_digest := fun c => c
    candidate_group := fun c => c / 10000
    is_member_of := fun v g => v / 100 == g
    is_availability_guarantor_of := fun v g => v % 100 == g
    statement_signer := fun ss => some ss.signature
    requisite_votes := fun _ => (2, 1) }

/-- The table reached from empty under `ctxInj` by importing candidate 20100
(signed by validator 201). -/
def tInj : Table Nat Nat Nat Nat Nat :=
  { proposed := [(201, (20100, 201))]
    detected_misbehavior := []
    candidate_votes := [(20100,
      { group_id := 2, candidate := 20100,
        validity_votes := [(201, ValidityVote.Issued 201)],
        availability_votes := [], indicated_bad_by := [] })] }

/-- Import a list of signed statements left to right; `none` propagates a panic. -/
def importAll {V D C G S : Type} [DecidableEq V] [DecidableEq D] [DecidableEq S]
    (ctx : Context V D C G S) (t : Table V D C G S) :
    List (SignedStatement D C S) → Option (Table V D C G S)
  | [] => some t
  | s :: rest =>
    match t.import_statement ctx s with
    | none => none
    | some t' => importAll ctx t' rest

/-- The digest a statement votes on, when it is a vote. -/
def voteDigest {D C : Type} : Statement D C → Option D
  | Statement.Valid d => some d
  | Statement.Invalid d => some d
  | Statement.Available d => some d
  | Statement.Candidate _ => none

/-- The authorized candidate statements of a list, as (digest, candidate) pairs. -/
def candStmts {V D C G S : Type} (ctx : Context V D C G S)
    (L : List (SignedStatement D C S)) : List (D × C) :=
  L.filterMap (fun s =>
    match s.statement with
    | Statement.Candidate c =>
      match ctx.statement_signer s with
      | some v =>
        if ctx.is_member_of v (ctx.candidate_group c) then
          some (ctx.candidate_digest c, c)
        else none
      | none => none
    | _ => none)

/-- The validity vote cast by a signed statement, if any: the signer, the digest
and the vote kind (0 = implicit `Issued` by an authorized candidate statement,
1 = `Valid`, 2 = `Invalid`). -/
def validityKind {V D C G S : Type} (ctx : Context V D C G S)
    (s : SignedStatement D C S) : Option (V × D × Nat) :=
  match ctx.statement_signer s with
  | none => none
  | some v =>
    match s.statement with
    | Statement.Candidate c =>
      if ctx.is_member_of v (ctx.candidate_group c) then
        some (v, ctx.candidate_digest c, 0)
      else none
    | Statement.Valid d => some (v, d, 1)
    | Statement.Invalid d => some (v, d, 2)
    | Statement.Available _ => none

/-- Two statements do not conflict: validity votes by one validator on one
digest all have the same kind, and a validator's authorized candidates all
share one digest. -/
def compatible {V D C G S : Type} [DecidableEq V] [DecidableEq D]
    (ctx : Context V D C G S) (s1 s2 : SignedStatement D C S) : Prop :=
  match validityKind ctx s1, validityKind ctx s2 with
  | some (v1, d1, k1), some (v2, d2, k2) =>
    v1 = v2 → ((k1 = 0 ∧ k2 = 0 → d1 = d2) ∧ (d1 = d2 → k1 = k2))
  | _, _ => True

/-- A non-conflicting statement list: statements are pairwise compatible. -/
def NonConflicting {V D C G S : Type} [DecidableEq V] [DecidableEq D]
    (ctx : Context V D C G S) (L : List (SignedStatement D C S)) : Prop :=
  ∀ s1 ∈ L, ∀ s2 ∈ L, compatible ctx s1 s2

/-- Digests determine candidates within the list's authorized candidates. -/
def DigestDet {V D C G S : Type} [DecidableEq D] (ctx : Context V D C G S)
    (L : List (SignedStatement D C S)) : Prop :=
  ∀ p ∈ candStmts ctx L, ∀ q ∈ candStmts ctx L, p.1 = q.1 → p.2 = q.2

/-- A vote statement is covered by the already-imported statements: some
authorized candidate statement with its digest was imported before it. -/
def Covered {V D C G S : Type} (ctx : Context V D C G S)
    (seen : List (SignedStatement D C S)) (s : SignedStatement D C S) : Prop :=
  match voteDigest s.statement with
  | none => True
  | some d => ∃ p ∈ candStmts ctx seen, p.1 = d

/-- Every vote in the list follows an authorized candidate statement bearing
its digest (`seen` lists the statements already imported). -/
def WellOrderedFrom {V D C G S : Type} (ctx : Context V D C G S) :
    List (SignedStatement D C S) → List (SignedStatement D C S) → Prop
  | _, [] => True
  | seen, s :: rest => Covered ctx seen s ∧ WellOrderedFrom ctx (seen ++ [s]) rest

/-- Validator `v` casts some validity vote on digest `d` in `L` (`g` is the
group of the record at `d`, against which explicit votes are authorized). -/
def castsVoter {V D C G S : Type} [DecidableEq V] [DecidableEq D]
    (ctx : Context V D C G S) (L : List (SignedStatement D C S)) (g : G) (d : D)
    (v : V) : Prop :=
  ∃ s ∈ L, ∃ k, validityKind ctx s = some (v, d, k) ∧
    (k ≠ 0 → ctx.is_member_of v g = true)

/-- Validator `v` casts an authorized `Invalid` vote on digest `d` in `L`. -/
def castsInvalid {V D C G S : Type} [DecidableEq V] [DecidableEq D]
    (ctx : Context V D C G S) (L : List (SignedStatement D C S)) (g : G) (d : D)
    (v : V) : Prop :=
  ∃ s ∈ L, validityKind ctx s = some (v, d, 2) ∧ ctx.is_member_of v g = true

/-- Validator `v` casts an authorized availability vote on digest `d` in `L`. -/
def castsAvail {V D C G S : Type} (ctx : Context V D C G S)
    (L : List (SignedStatement D C S)) (g : G) (d : D) (v : V) : Prop :=
  ∃ s ∈ L, s.statement = Statement.Available d ∧ ctx.statement_signer s = some v ∧
    ctx.is_availability_guarantor_of v g = true

/-- What a table reached by importing the statement list `L` looks like: the
structural invariant holds, records exist exactly for the digests of `L`'s
authorized candidates, record candidates and proposals come from `L`, and the
stored validity, invalidity and availability votes are exactly the votes cast
in `L`. -/
structure ImportModels {V D C G S : Type} [DecidableEq V] [DecidableEq D] [DecidableEq S]
    (ctx : Context V D C G S) (L : List (SignedStatement D C S))
    (t : Table V D C G S) : Prop where
  inv : TableInv ctx t
  keys_iff : ∀ d, (∃ cd, lookupA t.candidate_votes d = some cd) ↔
    ∃ p ∈ candStmts ctx L, p.1 = d
  cand_from : ∀ d cd, lookupA t.candidate_votes d = some cd →
    (d, cd.candidate) ∈ candStmts ctx L
  proposed_from : ∀ v ds, lookupA t.proposed v = some ds →
    ∃ s ∈ L, validityKind ctx s = some (v, ds.1, 0)
  vv_iff : ∀ d cd v, lookupA t.candidate_votes d = some cd →
    ((∃ vote, lookupA cd.validity_votes v = some vote) ↔ castsVoter ctx L cd.group_id d v)
  inval_iff : ∀ d cd v, lookupA t.candidate_votes d = some cd →
    ((∃ s0, lookupA cd.validity_votes v = some (ValidityVote.Invalid s0)) ↔
      castsInvalid ctx L cd.group_id d v)
  av_iff : ∀ d cd v, lookupA t.candidate_votes d = some cd →
    ((lookupA cd.availability_votes v).isSome = true ↔ castsAvail ctx L cd.group_id d v)

/-- A concrete environment for order-dependence: validators 1 and 2 are the
members of group 2, validator 3 its availability guarantor; thresholds are
2 validity votes and 1 availability vote. -/
def ctxC7 : Context Nat Nat Nat Nat Nat :=
  { candidate_digest := fun c => c % 10000
    candidate_group := fun c => c / 10000
    is_member_of := fun v g => (v == 1 || v == 2) && g == 2
    is_availability_guarantor_of := fun v g => v == 3 && g == 2
    statement_signer := fun ss => some ss.signature
    requisite_votes := fun _ => (2, 1) }

/-- Candidate 20100 (group 2, digest 100) proposed by validator 1. -/
def sC7cand : SignedStatement Nat Nat Nat := ⟨Statement.Candidate 20100, 1⟩

/-- `Valid 100` by validator 2. -/
def sC7valid : SignedStatement Nat Nat Nat := ⟨Statement.Valid 100, 2⟩

/-- `Available 100` by validator 3. -/
def sC7avail : SignedStatement Nat Nat Nat := ⟨Statement.Available 100, 3⟩

instance compatible_dec {V D C G S : Type} [DecidableEq V] [DecidableEq D]
    (ctx : Context V D C G S) (s1 s2 : SignedStatement D C S) :
    Decidable (compatible ctx s1 s2) := by
  unfold compatible
  cases validityKind ctx s1 with
  | none => exact isTrue trivial
  | some p1 =>
    cases validityKind ctx s2 with
    | none => exact isTrue trivial
    | some p2 =>
      obtain ⟨v1, d1, k1⟩ := p1
      obtain ⟨v2, d2, k2⟩ := p2
      exact inferInstance

instance covered_dec {V D C G S : Type} [DecidableEq D] (ctx : Context V D C G S)
    (seen : List (SignedStatement D C S)) (s : SignedStatement D C S) :
    Decidable (Covered ctx seen s) := by
  unfold Covered
  cases voteDigest s.statement with
  | none => exact isTrue trivial
  | some d => exact inferInstance

instance wellOrderedFrom_dec {V D C G S : Type} [DecidableEq D] (ctx : Context V D C G S) :
    (seen rest : List (SignedStatement D C S)) → Decidable (WellOrderedFrom ctx seen rest)
  | _, [] => isTrue trivial
  | seen, s :: rest =>
    @instDecidableAnd _ _ (covered_dec ctx seen s) (wellOrderedFrom_dec ctx (seen ++ [s]) rest)

instance nonConflicting_dec {V D C G S : Type} [DecidableEq V] [DecidableEq D]
    (ctx : Context V D C G S) (L : List (SignedStatement D C S)) :
    Decidable (NonConflicting ctx L) := by
  unfold NonConflicting
  infer_instance

instance digestDet_dec {V D C G S : Type} [DecidableEq D] [DecidableEq C]
    (ctx : Context V D C G S) (L : List (SignedStatement D C S)) :
    Decidable (DigestDet ctx L) := by
  unfold DigestDet
  infer_instance

attribute [local semireducible] List.merge List.mergeSort

/-- Every vote in the list has an authorized candidate statement with its
digest somewhere in the list. -/
def VotesCovered {V D C G S : Type} (ctx : Context V D C G S)
    (L : List (SignedStatement D C S)) : Prop :=
  ∀ s ∈ L, ∀ d, voteDigest s.statement = some d → ∃ p ∈ candStmts ctx L, p.1 = d

/-! ### Association-list lemmas -/

theorem lookupA_insertA_self {K A : Type} [DecidableEq K] (k : K) (a : A) :
    ∀ l : List (K × A), lookupA (insertA k a l) k = some a
  | [] => by simp [insertA, lookupA]
  | p :: ps => by
    by_cases h : p.1 = k
    · simp [insertA, h, lookupA]
    · simp [insertA, h, lookupA, lookupA_insertA_self k a ps]

theorem lookupA_insertA_ne {K A : Type} [DecidableEq K] {k k' : K} (a : A) (h : k' ≠ k) :
    ∀ l : List (K × A), lookupA (insertA k a l) k' = lookupA l k'
  | [] => by
    simp only [insertA, lookupA]
    rw [if_neg (fun hh => h (Eq.symm hh))]
  | (k0, a0) :: ps => by
    by_cases hp : k0 = k
    · subst hp
      simp only [insertA, if_pos rfl, lookupA]
      rw [if_neg (fun hh => h (Eq.symm hh)), if_neg (fun hh => h (Eq.symm hh))]
    · simp only [insertA, if_neg hp, lookupA]
      by_cases hp' : k0 = k'
      · simp [hp']
      · simp [hp', lookupA_insertA_ne a h ps]

theorem lookupA_append {K A : Type} [DecidableEq K] (k : K) :
    ∀ l₁ l₂ : List (K × A), lookupA (l₁ ++ l₂) k = (lookupA l₁ k).or (lookupA l₂ k)
  | [], l₂ => by simp [lookupA]
  | p :: ps, l₂ => by
    by_cases h : p.1 = k
    · simp [lookupA, h]
    · simp [lookupA, h, lookupA_append k ps l₂]

theorem lookupA_eq_none_iff {K A : Type} [DecidableEq K] {k : K} :
    ∀ {l : List (K × A)}, lookupA l k = none ↔ k ∉ l.map Prod.fst
  | [] => by simp [lookupA]
  | p :: ps => by
    by_cases h : p.1 = k
    · simp [lookupA, h]
    · simp [lookupA, h, lookupA_eq_none_iff (l := ps), Ne.symm h]

theorem lookupA_isSome_iff {K A : Type} [DecidableEq K] {k : K} :
    ∀ {l : List (K × A)}, (lookupA l k).isSome = true ↔ k ∈ l.map Prod.fst
  | [] => by simp [lookupA]
  | p :: ps => by
    by_cases h : p.1 = k
    · simp [lookupA, h]
    · simp [lookupA, h, Ne.symm h, lookupA_isSome_iff (l := ps)]

theorem lookupA_mem {K A : Type} [DecidableEq K] {k : K} {a : A} :
    ∀ {l : List (K × A)}, lookupA l k = some a → (k, a) ∈ l
  | [] => by simp [lookupA]
  | (k0, a0) :: ps => by
    by_cases h : k0 = k
    · subst h
      intro hm
      have ha : a0 = a := by simpa [lookupA] using hm
      subst ha
      simp
    · simp only [lookupA, if_neg h]
      intro hm
      exact List.mem_cons_of_mem _ (lookupA_mem hm)

theorem mem_lookupA {K A : Type} [DecidableEq K] {k : K} {a : A} :
    ∀ {l : List (K × A)}, (l.map Prod.fst).Nodup → (k, a) ∈ l → lookupA l k = some a
  | [], _, h => by simp at h
  | (k0, a0) :: ps, nd, h => by
    simp only [List.map_cons, List.nodup_cons] at nd
    rcases List.mem_cons.mp h with h | h
    · cases h
      simp [lookupA]
    · have hk : k0 ≠ k := by
        rintro rfl
        exact nd.1 (List.mem_map.mpr ⟨(k0, a), h, rfl⟩)
      simp only [lookupA, if_neg hk]
      exact mem_lookupA nd.2 h

theorem insertA_insertA_same {K A : Type} [DecidableEq K] (k : K) (a : A) :
    ∀ l : List (K × A), insertA k a (insertA k a l) = insertA k a l
  | [] => by simp [insertA]
  | p :: ps => by
    by_cases h : p.1 = k
    · simp [insertA, h]
    · simp [insertA, h, insertA_insertA_same k a ps]

theorem map_fst_insertA {K A : Type} [DecidableEq K] (k : K) (a : A) :
    ∀ l : List (K × A), (insertA k a l).map Prod.fst =
      if k ∈ l.map Prod.fst then l.map Prod.fst else l.map Prod.fst ++ [k]
  | [] => by simp [insertA]
  | p :: ps => by
    by_cases h : p.1 = k
    · simp [insertA, h]
    · have hmem : (k ∈ p.1 :: List.map Prod.fst ps) = (k ∈ List.map Prod.fst ps) := by
        simp [Ne.symm h]
      simp only [insertA, if_neg h, List.map_cons, hmem, map_fst_insertA k a ps]
      by_cases hm : k ∈ List.map Prod.fst ps <;> simp [hm]

theorem nodup_map_fst_insertA {K A : Type} [DecidableEq K] {k : K} {a : A} {l : List (K × A)}
    (nd : (l.map Prod.fst).Nodup) : ((insertA k a l).map Prod.fst).Nodup := by
  rw [map_fst_insertA]
  by_cases hm : k ∈ l.map Prod.fst
  · simpa [hm] using nd
  · rw [if_neg hm]
    refine List.Nodup.append nd (List.nodup_singleton k) ?_
    intro x hx hk
    rw [List.mem_singleton.mp hk] at hx
    exact hm hx

theorem validity_vote_shape {V D C G S : Type} [DecidableEq V] [DecidableEq D] [DecidableEq S]
    {t t' : Table V D C G S} {ctx : Context V D C G S} {v : V} {d : D} {vote : ValidityVote S}
    {out : Option (Misbehavior D C S)}
    (h : t.validity_vote ctx v d vote = some (t', out)) :
    t'.proposed = t.proposed ∧ t'.detected_misbehavior = t.detected_misbehavior ∧
      (∀ m, out = some m → t' = t) := by
  unfold Table.validity_vote at h
  repeat' split at h
  all_goals simp_all
  all_goals (rcases h with ⟨h1, h2⟩; cases h1; cases h2; exact ⟨rfl, rfl, fun m hm => Option.noConfusion hm⟩)

theorem validity_vote_misb {V D C G S : Type} [DecidableEq V] [DecidableEq D] [DecidableEq S]
    (t : Table V D C G S) (ctx : Context V D C G S) (v : V) (d : D) (vote : ValidityVote S)
    (m : List (V × Misbehavior D C S)) :
    (Table.mk t.proposed m t.candidate_votes).validity_vote ctx v d vote =
      (t.validity_vote ctx v d vote).map
        (fun p => (Table.mk p.1.proposed m p.1.candidate_votes, p.2)) := by
  unfold Table.validity_vote
  simp only
  repeat' split
  all_goals simp_all

theorem availability_vote_shape {V D C G S : Type} [DecidableEq V] [DecidableEq D]
    {t t' : Table V D C G S} {ctx : Context V D C G S} {v : V} {d : D} {s : S}
    {out : Option (Misbehavior D C S)}
    (h : t.availability_vote ctx v d s = (t', out)) :
    t'.proposed = t.proposed ∧ t'.detected_misbehavior = t.detected_misbehavior ∧
      (∀ m, out = some m → t' = t) := by
  unfold Table.availability_vote at h
  repeat' split at h
  all_goals simp_all
  all_goals (rcases h with ⟨h1, h2⟩; cases h1; cases h2; exact ⟨rfl, rfl, fun m hm => Option.noConfusion hm⟩)

theorem availability_vote_misb {V D C G S : Type} [DecidableEq V] [DecidableEq D]
    (t : Table V D C G S) (ctx : Context V D C G S) (v : V) (d : D) (s : S)
    (m : List (V × Misbehavior D C S)) :
    (Table.mk t.proposed m t.candidate_votes).availability_vote ctx v d s =
      (Table.mk (t.availability_vote ctx v d s).1.proposed m
        (t.availability_vote ctx v d s).1.candidate_votes,
       (t.availability_vote ctx v d s).2) := by
  unfold Table.availability_vote
  repeat' split
  all_goals simp_all

theorem import_candidate_misb {V D C G S : Type} [DecidableEq V] [DecidableEq D] [DecidableEq S]
    (t : Table V D C G S) (ctx : Context V D C G S) (v : V) (c : C) (s : S)
    (m : List (V × Misbehavior D C S)) :
    (Table.mk t.proposed m t.candidate_votes).import_candidate ctx v c s =
      (t.import_candidate ctx v c s).map
        (fun p => (Table.mk p.1.proposed m p.1.candidate_votes, p.2)) := by
  unfold Table.import_candidate
  simp only
  rw [validity_vote_misb]
  repeat' split
  all_goals simp_all
  all_goals rw [show (Table.mk (insertA v (ctx.candidate_digest c, s) t.proposed) m
      (insertIfAbsentA (ctx.candidate_digest c)
        (CandidateData.mk (ctx.candidate_group c) c [] [] []) t.candidate_votes)) =
    (Table.mk (Table.mk (insertA v (ctx.candidate_digest c, s) t.proposed) t.detected_misbehavior
      (insertIfAbsentA (ctx.candidate_digest c)
        (CandidateData.mk (ctx.candidate_group c) c [] [] []) t.candidate_votes)).proposed m
      (Table.mk (insertA v (ctx.candidate_digest c, s) t.proposed) t.detected_misbehavior
        (insertIfAbsentA (ctx.candidate_digest c)
          (CandidateData.mk (ctx.candidate_group c) c [] [] []) t.candidate_votes)).candidate_votes)
    from rfl, validity_vote_misb]

theorem import_candidate_misb_pres {V D C G S : Type} [DecidableEq V] [DecidableEq D]
    [DecidableEq S] {t t' : Table V D C G S} {ctx : Context V D C G S} {v : V} {c : C} {s : S}
    {out : Option (Misbehavior D C S)}
    (h : t.import_candidate ctx v c s = some (t', out)) :
    t'.detected_misbehavior = t.detected_misbehavior := by
  unfold Table.import_candidate at h
  simp only at h
  repeat' split at h
  all_goals simp_all
  · exact (validity_vote_shape h).2.1
  · exact (validity_vote_shape h).2.1

theorem import_statement_erase_misb {V D C G S : Type} [DecidableEq V] [DecidableEq D]
    [DecidableEq S] (t : Table V D C G S) (ctx : Context V D C G S)
    (s : SignedStatement D C S) (m : List (V × Misbehavior D C S)) :
    ((Table.mk t.proposed m t.candidate_votes).import_statement ctx s).map
        (fun t' => Table.mk t'.proposed [] t'.candidate_votes)
      = (t.import_statement ctx s).map
          (fun t' => Table.mk t'.proposed [] t'.candidate_votes) := by
  unfold Table.import_statement
  cases hs : ctx.statement_signer s with
  | none => rfl
  | some signer =>
    simp only
    cases hst : s.statement with
    | Candidate c =>
      simp only [import_candidate_misb]
      cases hr : t.import_candidate ctx signer c s.signature with
      | none => simp [hr]
      | some p =>
        obtain ⟨t1, out⟩ := p
        cases out <;> simp [hr]
    | Valid d =>
      simp only [validity_vote_misb]
      cases hr : t.validity_vote ctx signer d (ValidityVote.Valid s.signature) with
      | none => simp [hr]
      | some p =>
        obtain ⟨t1, out⟩ := p
        cases out <;> simp [hr]
    | Invalid d =>
      simp only [validity_vote_misb]
      cases hr : t.validity_vote ctx signer d (ValidityVote.Invalid s.signature) with
      | none => simp [hr]
      | some p =>
        obtain ⟨t1, out⟩ := p
        cases out <;> simp [hr]
    | Available d =>
      simp only [availability_vote_misb]
      cases hout : (t.availability_vote ctx signer d s.signature).2 <;> simp [hout]

/-- C10: recorded misbehavior is isolated from vote accounting.
`drain_misbehavior` replaces only the misbehavior map and returns its previous
contents; `proposed_candidates` and `candidates_in_group` depend only on the
records map; and `import_statement` processes a statement the same way whatever
the misbehavior map holds (results agree once the misbehavior field is erased),
so recorded votes stay counted and later statements are handled uniformly. -/
theorem misbehavior_isolated {V D C G S : Type} [DecidableEq V] [DecidableEq D] [DecidableEq S]
    [LinearOrder C] [LinearOrder G]
    (t : Table V D C G S) (ctx : Context V D C G S) (m : List (V × Misbehavior D C S))
    (g : G) (s : SignedStatement D C S) :
    t.drain_misbehavior.1.proposed = t.proposed ∧
    t.drain_misbehavior.1.candidate_votes = t.candidate_votes ∧
    t.drain_misbehavior.1.detected_misbehavior = [] ∧
    t.drain_misbehavior.2 = t.detected_misbehavior ∧
    ({ t with detected_misbehavior := m } : Table V D C G S).proposed_candidates ctx
      = t.proposed_candidates ctx ∧
    ({ t with detected_misbehavior := m } : Table V D C G S).candidates_in_group g
      = t.candidates_in_group g ∧
    (({ t with detected_misbehavior := m } : Table V D C G S).import_statement ctx s).map
        (fun t' => { t' with detected_misbehavior := [] })
      = (t.import_statement ctx s).map (fun t' => { t' with detected_misbehavior := [] }) :=
  ⟨rfl, rfl, rfl, rfl, rfl, rfl, import_statement_erase_misb t ctx s m⟩

/-- C5: a statement whose signer cannot be recovered, or a `Valid`, `Invalid` or
`Available` statement about a digest with no record, is dropped with no change
to the table at all. -/
theorem import_statement_drops_silently {V D C G S : Type} [DecidableEq V] [DecidableEq D]
    [DecidableEq S] (t : Table V D C G S) (ctx : Context V D C G S) (s : SignedStatement D C S)
    (h : ctx.statement_signer s = none ∨
      ∃ d : D, (s.statement = Statement.Valid d ∨ s.statement = Statement.Invalid d ∨
        s.statement = Statement.Available d) ∧ lookupA t.candidate_votes d = none) :
    t.import_statement ctx s = some t := by
  unfold Table.import_statement
  rcases h with h | ⟨d, hst, hl⟩
  · rw [h]
  · cases hsig : ctx.statement_signer s with
    | none => rfl
    | some signer =>
      simp only
      rcases hst with hst | hst | hst <;> rw [hst] <;>
        simp [Table.validity_vote, Table.availability_vote, hl]

/-- C5 witness: a `Valid` vote on the unknown digest 555 leaves `tW` unchanged. -/
theorem import_statement_drops_silently_witness :
    tW.import_statement ctxW ⟨Statement.Valid 555, 201⟩ = some tW :=
  import_statement_drops_silently tW ctxW ⟨Statement.Valid 555, 201⟩
    (Or.inr ⟨555, Or.inl rfl, by decide⟩)

/-- C4: a signed statement whose recovered signer lacks the required authority
records an `UnauthorizedStatement` carrying the offending signed statement
verbatim, under that signer, and changes no vote state: group membership is
required for `Candidate`, `Valid` and `Invalid` (the latter two when the digest
has a record), and availability guarantorship for `Available` (when the digest
has a record). -/
theorem import_statement_unauthorized {V D C G S : Type} [DecidableEq V] [DecidableEq D]
    [DecidableEq S] (t : Table V D C G S) (ctx : Context V D C G S) (s : SignedStatement D C S)
    (v : V) (hsig : ctx.statement_signer s = some v)
    (hu : match s.statement with
      | Statement.Candidate c => ctx.is_member_of v (ctx.candidate_group c) = false
      | Statement.Valid d => ∃ cd, lookupA t.candidate_votes d = some cd ∧
          ctx.is_member_of v cd.group_id = false
      | Statement.Invalid d => ∃ cd, lookupA t.candidate_votes d = some cd ∧
          ctx.is_member_of v cd.group_id = false
      | Statement.Available d => ∃ cd, lookupA t.candidate_votes d = some cd ∧
          ctx.is_availability_guarantor_of v cd.group_id = false) :
    t.import_statement ctx s =
      some { t with detected_misbehavior :=
        (insertA v (Misbehavior.UnauthorizedStatement ⟨s⟩) t.detected_misbehavior) } := by
  obtain ⟨stmt, sig⟩ := s
  unfold Table.import_statement
  rw [hsig]
  simp only at hu ⊢
  cases stmt with
  | Candidate c => simp [Table.import_candidate, hu]
  | Valid d =>
    obtain ⟨cd, hcd, hmem⟩ := hu
    simp [Table.validity_vote, hcd, hmem]
  | Invalid d =>
    obtain ⟨cd, hcd, hmem⟩ := hu
    simp [Table.validity_vote, hcd, hmem]
  | Available d =>
    obtain ⟨cd, hcd, hmem⟩ := hu
    simp [Table.availability_vote, hcd, hmem]

/-- C4 witness: validator 301 (a member of group 3, not of `cdW`'s group 2)
votes `Valid` on digest 100 and is reported for an unauthorized statement. -/
theorem import_statement_unauthorized_witness :
    tW.import_statement ctxW ⟨Statement.Valid 100, 301⟩ =
      some { tW with detected_misbehavior :=
        (insertA 301 (Misbehavior.UnauthorizedStatement ⟨⟨Statement.Valid 100, 301⟩⟩) []) } :=
  import_statement_unauthorized tW ctxW ⟨Statement.Valid 100, 301⟩ 301 rfl
    ⟨cdW, by decide, by decide⟩

/-- C3: a group member proposing a second, different candidate is reported with
`MultipleCandidates` pairing the originally proposed candidate (recovered from
the records) and its original signature with the new candidate and signature;
`proposed`, the records and all vote tables are unchanged. -/
theorem import_statement_multiple_candidates {V D C G S : Type} [DecidableEq V] [DecidableEq D]
    [DecidableEq S] (t : Table V D C G S) (ctx : Context V D C G S) (c : C) (s : S) (v : V)
    (d' : D) (s' : S) (oldData : CandidateData V D C G S)
    (hsig : ctx.statement_signer ⟨Statement.Candidate c, s⟩ = some v)
    (hmem : ctx.is_member_of v (ctx.candidate_group c) = true)
    (hprop : lookupA t.proposed v = some (d', s'))
    (hne : d' ≠ ctx.candidate_digest c)
    (hold : lookupA t.candidate_votes d' = some oldData) :
    t.import_statement ctx ⟨Statement.Candidate c, s⟩ =
      some { t with detected_misbehavior := (insertA v
        (Misbehavior.MultipleCandidates ⟨(oldData.candidate, s'), (c, s)⟩)
        t.detected_misbehavior) } := by
  unfold Table.import_statement
  rw [hsig]
  simp only
  simp [Table.import_candidate, hmem, hprop, hne, hold]

/-- C3 witness: validator 201 already proposed digest 100 with signature 7;
proposing candidate 20999 (digest 999) is reported as `MultipleCandidates`. -/
theorem import_statement_multiple_candidates_witness :
    tW.import_statement ctxW ⟨Statement.Candidate 20999, 201⟩ =
      some { tW with detected_misbehavior := (insertA 201
        (Misbehavior.MultipleCandidates ⟨(20100, 7), (20999, 201)⟩) []) } :=
  import_statement_multiple_candidates tW ctxW 20999 201 201 100 7 cdW rfl
    (by decide) (by decide) (by decide) (by decide)

/-- C2: an authorized second validity vote by the same validator on the same
digest with a different variant leaves the stored vote (and the whole table)
unchanged and yields the `ValidityDoubleVote` proof determined by the unordered
variant pair; a repeated variant with a different signature yields no proof. -/
theorem validity_vote_double_vote {V D C G S : Type} [DecidableEq V] [DecidableEq D]
    [DecidableEq S] (t : Table V D C G S) (ctx : Context V D C G S) (v : V) (d : D)
    (vote : ValidityVote S) (cd : CandidateData V D C G S) (occ : ValidityVote S)
    (hcd : lookupA t.candidate_votes d = some cd)
    (hmem : ctx.is_member_of v cd.group_id = true)
    (hocc : lookupA cd.validity_votes v = some occ)
    (hne : occ ≠ vote) :
    t.validity_vote ctx v d vote = some (t,
      match occ, vote with
      | ValidityVote.Issued iss, ValidityVote.Valid good =>
          some (Misbehavior.ValidityDoubleVote
            (ValidityDoubleVote.IssuedAndValidity (cd.candidate, iss) (d, good)))
      | ValidityVote.Valid good, ValidityVote.Issued iss =>
          some (Misbehavior.ValidityDoubleVote
            (ValidityDoubleVote.IssuedAndValidity (cd.candidate, iss) (d, good)))
      | ValidityVote.Issued iss, ValidityVote.Invalid bad =>
          some (Misbehavior.ValidityDoubleVote
            (ValidityDoubleVote.IssuedAndInvalidity (cd.candidate, iss) (d, bad)))
      | ValidityVote.Invalid bad, ValidityVote.Issued iss =>
          some (Misbehavior.ValidityDoubleVote
            (ValidityDoubleVote.IssuedAndInvalidity (cd.candidate, iss) (d, bad)))
      | ValidityVote.Valid good, ValidityVote.Invalid bad =>
          some (Misbehavior.ValidityDoubleVote
            (ValidityDoubleVote.ValidityAndInvalidity d good bad))
      | ValidityVote.Invalid bad, ValidityVote.Valid good =>
          some (Misbehavior.ValidityDoubleVote
            (ValidityDoubleVote.ValidityAndInvalidity d good bad))
      | _, _ => none) := by
  unfold Table.validity_vote
  rw [hcd]
  simp only [hmem, Bool.not_true, Bool.false_eq_true, if_false, hocc, if_neg hne]
  cases occ <;> cases vote <;> simp_all

/-- C2 witness: validator 201 stored a `Valid` vote with signature 5 on digest
100; an `Invalid` vote with signature 9 yields `ValidityAndInvalidity` and
leaves the table unchanged. -/
theorem validity_vote_double_vote_witness :
    tW.validity_vote ctxW 201 100 (ValidityVote.Invalid 9) =
      some (tW, some (Misbehavior.ValidityDoubleVote
        (ValidityDoubleVote.ValidityAndInvalidity 100 5 9))) :=
  validity_vote_double_vote tW ctxW 201 100 (ValidityVote.Invalid 9) cdW
    (ValidityVote.Valid 5) (by decide) (by decide) (by decide) (by decide)

theorem validity_vote_idem {V D C G S : Type} [DecidableEq V] [DecidableEq D] [DecidableEq S]
    {t t' : Table V D C G S} {ctx : Context V D C G S} {v : V} {d : D} {vote : ValidityVote S}
    {out : Option (Misbehavior D C S)}
    (h : t.validity_vote ctx v d vote = some (t', out)) :
    t'.validity_vote ctx v d vote = some (t', out) := by
  unfold Table.validity_vote at h
  repeat' split at h
  all_goals (try exact Option.noConfusion h)
  all_goals simp only [Option.some.injEq, Prod.mk.injEq] at h
  all_goals obtain ⟨rfl, rfl⟩ := h
  all_goals simp_all [Table.validity_vote, lookupA_insertA_self, lookupA_append, lookupA]

theorem availability_vote_idem {V D C G S : Type} [DecidableEq V] [DecidableEq D]
    {t t' : Table V D C G S} {ctx : Context V D C G S} {v : V} {d : D} {s : S}
    {out : Option (Misbehavior D C S)}
    (h : t.availability_vote ctx v d s = (t', out)) :
    t'.availability_vote ctx v d s = (t', out) := by
  unfold Table.availability_vote at h
  repeat' split at h
  all_goals simp only [Prod.mk.injEq] at h
  all_goals obtain ⟨rfl, rfl⟩ := h
  all_goals simp_all [Table.availability_vote, lookupA_insertA_self, insertA_insertA_same]

theorem import_candidate_idem {V D C G S : Type} [DecidableEq V] [DecidableEq D] [DecidableEq S]
    {t t' : Table V D C G S} {ctx : Context V D C G S} {v : V} {c : C} {s : S}
    {out : Option (Misbehavior D C S)}
    (h : t.import_candidate ctx v c s = some (t', out)) :
    t'.import_candidate ctx v c s = some (t', out) := by
  unfold Table.import_candidate at h
  simp only at h
  split at h
  · rename_i hmem
    simp only [Option.some.injEq, Prod.mk.injEq] at h
    obtain ⟨rfl, rfl⟩ := h
    simp [Table.import_candidate, hmem]
  · rename_i hmem
    split at h
    · rename_i old hold
      split at h
      · rename_i hdiff
        split at h
        · exact Option.noConfusion h
        · rename_i oldData holdData
          simp only [Option.some.injEq, Prod.mk.injEq] at h
          obtain ⟨rfl, rfl⟩ := h
          simp only [Table.import_candidate]
          simp [hmem, hold, hdiff, holdData]
      · rename_i hnodiff
        have hp := (validity_vote_shape h).1
        have hv := validity_vote_idem h
        simp only [Table.import_candidate]
        rw [hp]
        simp [hmem, hold, hnodiff, hv]
    · rename_i hvac
      have hp := (validity_vote_shape h).1
      have hv := validity_vote_idem h
      simp only [Table.import_candidate]
      rw [hp]
      simp only [lookupA_insertA_self]
      simp [hmem, hv]

/-- C8: `import_statement` is idempotent: importing the same signed statement a
second time leaves the table exactly as after the first import (and a panic on
the first import means a panic overall).  In particular re-importing an
already-recorded statement makes no state change, and a repeated `Available`
vote overwrites `availability_votes` with an equal signature. -/
theorem import_statement_idempotent {V D C G S : Type} [DecidableEq V] [DecidableEq D]
    [DecidableEq S] (t : Table V D C G S) (ctx : Context V D C G S)
    (s : SignedStatement D C S) :
    (t.import_statement ctx s).bind (fun t1 => t1.import_statement ctx s) =
      t.import_statement ctx s := by
  cases h : t.import_statement ctx s with
  | none => rfl
  | some t1 =>
    simp only [Option.bind_some, Option.some_bind]
    unfold Table.import_statement at h ⊢
    cases hsig : ctx.statement_signer s with
    | none => rfl
    | some signer =>
      rw [hsig] at h
      simp only at h ⊢
      cases hst : s.statement with
      | Candidate c =>
        rw [hst] at h
        simp only at h
        cases hr : t.import_candidate ctx signer c s.signature with
        | none => rw [hr] at h; exact Option.noConfusion h
        | some p =>
          obtain ⟨t2, mm⟩ := p
          rw [hr] at h
          have hidem := import_candidate_idem hr
          cases mm with
          | none =>
            simp only [Option.some.injEq] at h
            subst h
            simp [hidem]
          | some m =>
            simp only [Option.some.injEq] at h
            have hmisb := import_candidate_misb t2 ctx signer c s.signature
              (insertA signer m t2.detected_misbehavior)
            subst h
            simp only [hidem, Option.map_some] at hmisb
            simp [hmisb, insertA_insertA_same]
      | Valid d =>
        rw [hst] at h
        simp only at h
        cases hr : t.validity_vote ctx signer d (ValidityVote.Valid s.signature) with
        | none => rw [hr] at h; exact Option.noConfusion h
        | some p =>
          obtain ⟨t2, mm⟩ := p
          rw [hr] at h
          have hidem := validity_vote_idem hr
          cases mm with
          | none =>
            simp only [Option.some.injEq] at h
            subst h
            simp [hidem]
          | some m =>
            simp only [Option.some.injEq] at h
            have hmisb := validity_vote_misb t2 ctx signer d (ValidityVote.Valid s.signature)
              (insertA signer m t2.detected_misbehavior)
            subst h
            simp only [hidem, Option.map_some] at hmisb
            simp [hmisb, insertA_insertA_same]
      | Invalid d =>
        rw [hst] at h
        simp only at h
        cases hr : t.validity_vote ctx signer d (ValidityVote.Invalid s.signature) with
        | none => rw [hr] at h; exact Option.noConfusion h
        | some p =>
          obtain ⟨t2, mm⟩ := p
          rw [hr] at h
          have hidem := validity_vote_idem hr
          cases mm with
          | none =>
            simp only [Option.some.injEq] at h
            subst h
            simp [hidem]
          | some m =>
            simp only [Option.some.injEq] at h
            have hmisb := validity_vote_misb t2 ctx signer d (ValidityVote.Invalid s.signature)
              (insertA signer m t2.detected_misbehavior)
            subst h
            simp only [hidem, Option.map_some] at hmisb
            simp [hmisb, insertA_insertA_same]
      | Available d =>
        rw [hst] at h
        simp only at h
        rcases hr : t.availability_vote ctx signer d s.signature with ⟨t2, mm⟩
        rw [hr] at h
        have hidem := availability_vote_idem hr
        cases mm with
        | none =>
          simp only [Option.some.injEq] at h
          subst h
          simp [hidem]
        | some m =>
          simp only [Option.some.injEq] at h
          have hmisb := availability_vote_misb t2 ctx signer d s.signature
            (insertA signer m t2.detected_misbehavior)
          subst h
          simp only [hidem] at hmisb
          simp [hmisb, insertA_insertA_same]

theorem omax_none_right {C : Type} [LinearOrder C] (o : Option C) : omax o none = o := by
  cases o <;> rfl

theorem omax_assoc {C : Type} [LinearOrder C] (a b c : Option C) :
    omax (omax a b) c = omax a (omax b c) := by
  cases a <;> cases b <;> cases c <;> simp [omax, max_assoc]

theorem max?_eq_omax {C : Type} [LinearOrder C] (c : C) (l : List C) :
    (c :: l).max? = omax (some c) l.max? := by
  rw [List.max?_cons]
  cases h : l.max? <;> simp [omax]

theorem groupMax_cons_hit {V D C G S : Type} [LinearOrder C] [LinearOrder G]
    {cd : CandidateData V D C G S} {g : G} (cds : List (CandidateData V D C G S))
    (hg : cd.group_id = g) :
    groupMax (cd :: cds) g = omax (some cd.candidate) (groupMax cds g) := by
  unfold groupMax
  rw [List.filter_cons_of_pos (by simp [hg]), List.map_cons, max?_eq_omax]

theorem groupMax_cons_miss {V D C G S : Type} [LinearOrder C] [LinearOrder G]
    {cd : CandidateData V D C G S} {g : G} (cds : List (CandidateData V D C G S))
    (hg : ¬ cd.group_id = g) :
    groupMax (cd :: cds) g = groupMax cds g := by
  simp [groupMax, hg]

theorem mem_map_fst_insertA {K A : Type} [DecidableEq K] (k g : K) (a : A) (l : List (K × A)) :
    g ∈ (insertA k a l).map Prod.fst ↔ g ∈ l.map Prod.fst ∨ g = k := by
  rw [map_fst_insertA]
  by_cases hm : k ∈ l.map Prod.fst
  · rw [if_pos hm]
    exact ⟨Or.inl, fun h => h.elim id (fun hg => hg ▸ hm)⟩
  · rw [if_neg hm]
    simp

theorem bestStep_not_includable {V D C G S : Type} [LinearOrder C] [LinearOrder G]
    (ctx : Context V D C G S) (acc : List (G × C)) (p : D × CandidateData V D C G S)
    (h : includable ctx p.2 = false) : bestStep ctx acc p = acc := by
  unfold bestStep
  unfold includable at h
  simp [h]

theorem bestStep_lookupA_ne {V D C G S : Type} [LinearOrder C] [LinearOrder G]
    (ctx : Context V D C G S) (acc : List (G × C)) (p : D × CandidateData V D C G S)
    {g : G} (hg : ¬ p.2.group_id = g) :
    lookupA (bestStep ctx acc p) g = lookupA acc g := by
  unfold bestStep
  dsimp only
  repeat' split
  all_goals first
    | rfl
    | exact lookupA_insertA_ne p.2.candidate (fun hh => hg (Eq.symm hh)) acc

theorem bestStep_lookupA_eq {V D C G S : Type} [LinearOrder C] [LinearOrder G]
    (ctx : Context V D C G S) (acc : List (G × C)) (p : D × CandidateData V D C G S)
    (hinc : includable ctx p.2 = true) :
    lookupA (bestStep ctx acc p) p.2.group_id =
      omax (lookupA acc p.2.group_id) (some p.2.candidate) := by
  unfold bestStep
  unfold includable at hinc
  simp only [hinc, if_true]
  cases hl : lookupA acc p.2.group_id with
  | none => simp [lookupA_insertA_self, omax]
  | some c0 =>
    dsimp only
    by_cases hlt : c0 < p.2.candidate
    · rw [if_pos hlt]
      rw [lookupA_insertA_self]
      simp [omax, max_eq_right (le_of_lt hlt)]
    · rw [if_neg hlt]
      rw [hl]
      simp [omax, max_eq_left (not_lt.mp hlt)]

theorem foldl_bestStep_lookupA {V D C G S : Type} [LinearOrder C] [LinearOrder G]
    (ctx : Context V D C G S) (g : G) :
    ∀ (l : List (D × CandidateData V D C G S)) (acc : List (G × C)),
      lookupA (l.foldl (bestStep ctx) acc) g =
        omax (lookupA acc g)
          (groupMax ((l.map Prod.snd).filter (fun cd => includable ctx cd)) g)
  | [], acc => by simp [groupMax, omax_none_right]
  | p :: l, acc => by
    rw [List.foldl_cons, foldl_bestStep_lookupA ctx g l (bestStep ctx acc p)]
    cases hinc : includable ctx p.2 with
    | false =>
      rw [bestStep_not_includable ctx acc p hinc, List.map_cons,
        List.filter_cons_of_neg (by simp [hinc])]
    | true =>
      rw [List.map_cons, List.filter_cons_of_pos (by simp [hinc])]
      by_cases hg : p.2.group_id = g
      · rw [groupMax_cons_hit _ hg, ← hg, bestStep_lookupA_eq ctx acc p hinc, hg, omax_assoc]
      · rw [groupMax_cons_miss _ hg, bestStep_lookupA_ne ctx acc p hg]

theorem foldl_bestStep_keys_nodup {V D C G S : Type} [LinearOrder C] [LinearOrder G]
    (ctx : Context V D C G S) :
    ∀ (l : List (D × CandidateData V D C G S)) (acc : List (G × C)),
      (acc.map Prod.fst).Nodup → ((l.foldl (bestStep ctx) acc).map Prod.fst).Nodup
  | [], _, h => h
  | p :: l, acc, h => by
    rw [List.foldl_cons]
    apply foldl_bestStep_keys_nodup ctx l
    unfold bestStep
    dsimp only
    repeat' split
    all_goals first
      | exact h
      | exact nodup_map_fst_insertA h

theorem bestStep_keys_mem {V D C G S : Type} [LinearOrder C] [LinearOrder G]
    (ctx : Context V D C G S) (acc : List (G × C)) (p : D × CandidateData V D C G S)
    (g : G) (hinc : includable ctx p.2 = true) :
    (g ∈ (bestStep ctx acc p).map Prod.fst ↔
      g ∈ acc.map Prod.fst ∨ g = p.2.group_id) := by
  unfold bestStep
  unfold includable at hinc
  simp only [hinc, if_true]
  cases hl : lookupA acc p.2.group_id with
  | none => exact mem_map_fst_insertA p.2.group_id g p.2.candidate acc
  | some c0 =>
    dsimp only
    by_cases hlt : c0 < p.2.candidate
    · rw [if_pos hlt]
      exact mem_map_fst_insertA p.2.group_id g p.2.candidate acc
    · rw [if_neg hlt]
      constructor
      · exact Or.inl
      · intro h
        rcases h with h | h
        · exact h
        · rw [h]
          exact lookupA_isSome_iff.mp (by rw [hl]; rfl)

theorem foldl_bestStep_keys_mem {V D C G S : Type} [LinearOrder C] [LinearOrder G]
    (ctx : Context V D C G S) (g : G) :
    ∀ (l : List (D × CandidateData V D C G S)) (acc : List (G × C)),
      (g ∈ (l.foldl (bestStep ctx) acc).map Prod.fst ↔
        g ∈ acc.map Prod.fst ∨
          g ∈ ((l.map Prod.snd).filter (fun cd => includable ctx cd)).map
            CandidateData.group_id)
  | [], acc => by simp
  | p :: l, acc => by
    rw [List.foldl_cons, foldl_bestStep_keys_mem ctx g l (bestStep ctx acc p)]
    cases hinc : includable ctx p.2 with
    | false =>
      rw [bestStep_not_includable ctx acc p hinc, List.map_cons,
        List.filter_cons_of_neg (by simp [hinc])]
    | true =>
      rw [List.map_cons, List.filter_cons_of_pos (by simp [hinc]), List.map_cons,
        bestStep_keys_mem ctx acc p g hinc]
      simp only [List.mem_cons]
      tauto

theorem lookupA_perm {K A : Type} [DecidableEq K] {l l' : List (K × A)}
    (hp : l.Perm l') (nd : (l.map Prod.fst).Nodup) (k : K) : lookupA l k = lookupA l' k := by
  have nd' : (l'.map Prod.fst).Nodup := ((hp.map Prod.fst).nodup_iff).mp nd
  cases h : lookupA l k with
  | none =>
    have h1 : k ∉ l.map Prod.fst := lookupA_eq_none_iff.mp h
    have h2 : k ∉ l'.map Prod.fst := fun hm => h1 ((hp.map Prod.fst).mem_iff.mpr hm)
    exact (lookupA_eq_none_iff.mpr h2).symm
  | some a =>
    exact (mem_lookupA nd' (hp.mem_iff.mp (lookupA_mem h))).symm

theorem map_snd_eq_keys_filterMap {K A : Type} [DecidableEq K] :
    ∀ {l : List (K × A)}, (l.map Prod.fst).Nodup →
      (l.map Prod.fst).filterMap (lookupA l) = l.map Prod.snd
  | [], _ => rfl
  | (k, a) :: l, nd => by
    simp only [List.map_cons, List.nodup_cons] at nd
    have hcongr : ∀ x ∈ l.map Prod.fst, lookupA ((k, a) :: l) x = lookupA l x := by
      intro x hx
      have hne : k ≠ x := fun hh => nd.1 (hh ▸ hx)
      simp [lookupA, hne]
    rw [List.map_cons, List.filterMap_cons,
      show lookupA ((k, a) :: l) k = some a from by simp [lookupA],
      List.filterMap_congr hcongr, map_snd_eq_keys_filterMap nd.2, List.map_cons]

theorem sorted_mergeSort_pairs {G C : Type} [LinearOrder G] [LinearOrder C]
    (B : List (G × C)) :
    (B.mergeSort (fun a b => decide (a.1 ≤ b.1))).Pairwise
      (fun a b : G × C => decide (a.1 ≤ b.1) = true) :=
  @List.sorted_mergeSort _ (fun a b => decide (a.1 ≤ b.1))
    (fun a b c hab hbc =>
      decide_eq_true (le_trans (of_decide_eq_true hab) (of_decide_eq_true hbc)))
    (fun a b => by
      rcases le_total a.1 b.1 with h | h <;> simp [h])
    B

theorem sorted_mergeSort_le {G : Type} [LinearOrder G] (l : List G) :
    (l.mergeSort (fun a b => decide (a ≤ b))).Sorted (· ≤ ·) := by
  have h : (l.mergeSort (fun a b => decide (a ≤ b))).Pairwise
      (fun a b : G => decide (a ≤ b) = true) :=
    @List.sorted_mergeSort _ (fun a b => decide (a ≤ b))
      (fun a b c hab hbc =>
        decide_eq_true (le_trans (of_decide_eq_true hab) (of_decide_eq_true hbc)))
      (fun a b => by rcases le_total a b with h | h <;> simp [h])
      l
  exact h.imp (fun hab => of_decide_eq_true hab)

theorem mergeSort_pairs_map_fst {G C : Type} [LinearOrder G] [LinearOrder C]
    (B : List (G × C)) :
    (B.mergeSort (fun a b => decide (a.1 ≤ b.1))).map Prod.fst =
      (B.map Prod.fst).mergeSort (fun a b => decide (a ≤ b)) := by
  have hperm : ((B.mergeSort (fun a b => decide (a.1 ≤ b.1))).map Prod.fst).Perm
      ((B.map Prod.fst).mergeSort (fun a b => decide (a ≤ b))) :=
    ((List.mergeSort_perm B _).map Prod.fst).trans (List.mergeSort_perm _ _).symm
  have hs1 : ((B.mergeSort (fun a b => decide (a.1 ≤ b.1))).map Prod.fst).Sorted (· ≤ ·) :=
    (sorted_mergeSort_pairs B).map Prod.fst (fun a b hab => of_decide_eq_true hab)
  exact List.eq_of_perm_of_sorted hperm hs1 (sorted_mergeSort_le _)

theorem mergeSort_eq_of_perm_le {G : Type} [LinearOrder G] {l l' : List G} (h : l.Perm l') :
    l.mergeSort (fun a b => decide (a ≤ b)) = l'.mergeSort (fun a b => decide (a ≤ b)) :=
  List.eq_of_perm_of_sorted
    ((List.mergeSort_perm l _).trans (h.trans (List.mergeSort_perm l' _).symm))
    (sorted_mergeSort_le l) (sorted_mergeSort_le l')

/-- C1: `proposed_candidates` returns exactly what the spec describes: for each
group with an includable record (empty `indicated_bad_by`, validity-vote count
at least the validity threshold, availability-vote count at least the
availability threshold) the maximum candidate among the group's includable
records, listed in ascending `GroupId` order. -/
theorem proposed_candidates_eq_spec {V D C G S : Type} [DecidableEq V] [DecidableEq D]
    [LinearOrder C] [LinearOrder G] (t : Table V D C G S) (ctx : Context V D C G S) :
    t.proposed_candidates ctx = proposedCandidatesSpec ctx t := by
  unfold Table.proposed_candidates proposedCandidatesSpec
  simp only
  set B := t.candidate_votes.foldl (bestStep ctx) [] with hB
  set incl := (t.candidate_votes.map Prod.snd).filter (fun cd => includable ctx cd) with hincl
  have hnd : (B.map Prod.fst).Nodup := foldl_bestStep_keys_nodup ctx t.candidate_votes [] (by simp)
  have hmem : ∀ g, g ∈ B.map Prod.fst ↔ g ∈ (incl.map CandidateData.group_id).dedup := by
    intro g
    rw [List.mem_dedup, hB, foldl_bestStep_keys_mem ctx g t.candidate_votes []]
    simp [hincl]
  have hlook : ∀ g, lookupA B g = groupMax incl g := by
    intro g
    rw [hB, foldl_bestStep_lookupA ctx g t.candidate_votes []]
    simp [lookupA, omax, hincl]
  have hperm : (B.map Prod.fst).Perm ((incl.map CandidateData.group_id).dedup) :=
    (List.perm_ext_iff_of_nodup hnd (List.nodup_dedup _)).mpr hmem
  have hmsperm : (B.mergeSort (fun a b => decide (a.1 ≤ b.1))).Perm B :=
    List.mergeSort_perm B _
  have hndms : ((B.mergeSort (fun a b => decide (a.1 ≤ b.1))).map Prod.fst).Nodup :=
    ((hmsperm.map Prod.fst).nodup_iff).mpr hnd
  have step1 : (B.mergeSort (fun a b => decide (a.1 ≤ b.1))).map Prod.snd =
      ((B.mergeSort (fun a b => decide (a.1 ≤ b.1))).map Prod.fst).filterMap
        (lookupA (B.mergeSort (fun a b => decide (a.1 ≤ b.1)))) :=
    (map_snd_eq_keys_filterMap hndms).symm
  rw [step1,
    List.filterMap_congr (fun g _ => (lookupA_perm hmsperm hndms g : lookupA _ g = lookupA B g)),
    mergeSort_pairs_map_fst, mergeSort_eq_of_perm_le hperm,
    List.filterMap_congr (fun g _ => hlook g)]

theorem nodup_keys_append_fresh {K A : Type} [DecidableEq K] {l : List (K × A)} {k : K} (a : A)
    (nd : (l.map Prod.fst).Nodup) (h : lookupA l k = none) :
    ((l ++ [(k, a)]).map Prod.fst).Nodup := by
  rw [List.map_append]
  refine List.Nodup.append nd (by simp) ?_
  intro x hx hk
  rw [List.map_singleton, List.mem_singleton] at hk
  subst hk
  exact (lookupA_eq_none_iff.mp h) hx

theorem insertIfAbsentA_of_present {K A : Type} [DecidableEq K] {l : List (K × A)} {k : K}
    {x : A} (a : A) (h : lookupA l k = some x) : insertIfAbsentA k a l = l := by
  unfold insertIfAbsentA
  rw [h]

theorem insertIfAbsentA_of_absent {K A : Type} [DecidableEq K] {l : List (K × A)} {k : K}
    (a : A) (h : lookupA l k = none) : insertIfAbsentA k a l = l ++ [(k, a)] := by
  unfold insertIfAbsentA
  rw [h]

theorem tableInv_update_record {V D C G S : Type} [DecidableEq V] [DecidableEq D]
    {ctx : Context V D C G S} {t : Table V D C G S} {d : D}
    {cd cd' : CandidateData V D C G S}
    (inv : TableInv ctx t)
    (hcd : lookupA t.candidate_votes d = some cd)
    (hcand : cd'.candidate = cd.candidate)
    (hgroup : cd'.group_id = cd.group_id)
    (hvv : (cd'.validity_votes.map Prod.fst).Nodup)
    (hav : (cd'.availability_votes.map Prod.fst).Nodup)
    (hbad : ∀ v, v ∈ cd'.indicated_bad_by ↔
      ∃ s, lookupA cd'.validity_votes v = some (ValidityVote.Invalid s))
    (hbadnd : cd'.indicated_bad_by.Nodup) :
    TableInv ctx { t with candidate_votes := insertA d cd' t.candidate_votes } := by
  have hlook : ∀ d'', lookupA (insertA d cd' t.candidate_votes) d'' =
      if d'' = d then some cd' else lookupA t.candidate_votes d'' := by
    intro d''
    by_cases hd : d'' = d
    · subst hd
      simp [lookupA_insertA_self]
    · simp [lookupA_insertA_ne cd' hd, hd]
  constructor
  · exact nodup_map_fst_insertA inv.cv_nodup
  · intro v d'' s hp
    obtain ⟨cd'', hcd''⟩ := inv.proposed_record v d'' s hp
    rw [hlook]
    by_cases hd : d'' = d
    · exact ⟨cd', by simp [hd]⟩
    · exact ⟨cd'', by simp [hd, hcd'']⟩
  · intro d'' cd'' h
    rw [hlook] at h
    by_cases hd : d'' = d
    · rw [if_pos hd] at h
      cases h
      rw [hcand, hd]
      exact inv.record_digest d cd hcd
    · rw [if_neg hd] at h
      exact inv.record_digest d'' cd'' h
  · intro d'' cd'' h
    rw [hlook] at h
    by_cases hd : d'' = d
    · rw [if_pos hd] at h
      cases h
      rw [hcand, hgroup]
      exact inv.record_group d cd hcd
    · rw [if_neg hd] at h
      exact inv.record_group d'' cd'' h
  · intro d'' cd'' h
    rw [hlook] at h
    by_cases hd : d'' = d
    · rw [if_pos hd] at h
      cases h
      exact hvv
    · rw [if_neg hd] at h
      exact inv.vv_nodup d'' cd'' h
  · intro d'' cd'' h
    rw [hlook] at h
    by_cases hd : d'' = d
    · rw [if_pos hd] at h
      cases h
      exact hav
    · rw [if_neg hd] at h
      exact inv.av_nodup d'' cd'' h
  · intro d'' cd'' v h
    rw [hlook] at h
    by_cases hd : d'' = d
    · rw [if_pos hd] at h
      cases h
      exact hbad v
    · rw [if_neg hd] at h
      exact inv.bad_iff d'' cd'' v h
  · intro d'' cd'' h
    rw [hlook] at h
    by_cases hd : d'' = d
    · rw [if_pos hd] at h
      cases h
      exact hbadnd
    · rw [if_neg hd] at h
      exact inv.bad_nodup d'' cd'' h

theorem availability_vote_inv {V D C G S : Type} [DecidableEq V] [DecidableEq D]
    {ctx : Context V D C G S} {t t2 : Table V D C G S} {v : V} {d : D} {s : S}
    {out : Option (Misbehavior D C S)}
    (inv : TableInv ctx t) (h : t.availability_vote ctx v d s = (t2, out)) :
    TableInv ctx t2 := by
  unfold Table.availability_vote at h
  split at h
  · cases h
    exact inv
  · rename_i votes hcd
    split at h
    · cases h
      exact inv
    · simp only [Prod.mk.injEq] at h
      obtain ⟨rfl, rfl⟩ := h
      exact tableInv_update_record inv hcd rfl rfl (inv.vv_nodup d votes hcd)
        (nodup_map_fst_insertA (inv.av_nodup d votes hcd))
        (fun w => inv.bad_iff d votes w hcd) (inv.bad_nodup d votes hcd)

theorem validity_vote_cases {V D C G S : Type} [DecidableEq V] [DecidableEq D] [DecidableEq S]
    {t t2 : Table V D C G S} {ctx : Context V D C G S} {v : V} {d : D} {vote : ValidityVote S}
    {out : Option (Misbehavior D C S)}
    (h : t.validity_vote ctx v d vote = some (t2, out)) :
    t2 = t ∨
      ∃ votes, lookupA t.candidate_votes d = some votes ∧
        ctx.is_member_of v votes.group_id = true ∧
        lookupA votes.validity_votes v = none ∧
        out = none ∧
        (∀ s0, vote = ValidityVote.Invalid s0 →
          t2 = { t with candidate_votes := (insertA d
            ({ votes with
                validity_votes := votes.validity_votes ++ [(v, vote)],
                indicated_bad_by := votes.indicated_bad_by ++ [v] }) t.candidate_votes) }) ∧
        ((∀ s0, vote ≠ ValidityVote.Invalid s0) →
          t2 = { t with candidate_votes := (insertA d
            ({ votes with
                validity_votes := votes.validity_votes ++ [(v, vote)],
                indicated_bad_by := votes.indicated_bad_by }) t.candidate_votes) }) := by
  unfold Table.validity_vote at h
  cases hcd : lookupA t.candidate_votes d with
  | none =>
    simp only [hcd] at h
    simp only [Option.some.injEq, Prod.mk.injEq] at h
    exact Or.inl h.1.symm
  | some votes =>
    simp only [hcd] at h
    by_cases hmem : ctx.is_member_of v votes.group_id
    · rw [if_neg (by simp [hmem])] at h
      cases hvac : lookupA votes.validity_votes v with
      | some occ =>
        simp only [hvac] at h
        by_cases hocc : occ = vote
        · rw [if_pos hocc] at h
          simp only [Option.some.injEq, Prod.mk.injEq] at h
          exact Or.inl h.1.symm
        · rw [if_neg hocc] at h
          left
          cases occ <;> cases vote <;>
            (simp only [Option.some.injEq, Prod.mk.injEq] at h; exact h.1.symm)
      | none =>
        simp only [hvac] at h
        simp only [Option.some.injEq, Prod.mk.injEq] at h
        right
        cases vote with
        | Issued s0 =>
          exact ⟨votes, rfl, hmem, hvac, h.2.symm,
            fun s1 hs1 => ValidityVote.noConfusion hs1, fun _ => h.1.symm⟩
        | Valid s0 =>
          exact ⟨votes, rfl, hmem, hvac, h.2.symm,
            fun s1 hs1 => ValidityVote.noConfusion hs1, fun _ => h.1.symm⟩
        | Invalid s0 =>
          exact ⟨votes, rfl, hmem, hvac, h.2.symm,
            fun s1 hs1 => h.1.symm, fun hno => absurd rfl (hno s0)⟩
    · rw [if_pos (by simp [Bool.not_eq_true] at hmem; simp [hmem])] at h
      left
      cases vote with
      | Issued s0 => exact Option.noConfusion h
      | Valid s0 =>
        simp only [Option.some.injEq, Prod.mk.injEq] at h
        exact h.1.symm
      | Invalid s0 =>
        simp only [Option.some.injEq, Prod.mk.injEq] at h
        exact h.1.symm

theorem tableInv_vacant_vote {V D C G S : Type} [DecidableEq V] [DecidableEq D] [DecidableEq S]
    {ctx : Context V D C G S} {t : Table V D C G S} {v : V} {d : D}
    {votes : CandidateData V D C G S} (vote : ValidityVote S)
    (inv : TableInv ctx t) (hcd : lookupA t.candidate_votes d = some votes)
    (hvac : lookupA votes.validity_votes v = none)
    (hnoninv : ∀ s0, vote ≠ ValidityVote.Invalid s0) :
    TableInv ctx { t with candidate_votes := (insertA d
      ({ votes with
          validity_votes := votes.validity_votes ++ [(v, vote)],
          indicated_bad_by := votes.indicated_bad_by }) t.candidate_votes) } := by
  refine tableInv_update_record inv hcd rfl rfl ?_ (inv.av_nodup d votes hcd) ?_
    (inv.bad_nodup d votes hcd)
  · exact nodup_keys_append_fresh vote (inv.vv_nodup d votes hcd) hvac
  · intro w
    simp only
    rw [lookupA_append]
    by_cases hw : w = v
    · subst hw
      rw [hvac]
      simp only [Option.none_or]
      constructor
      · intro hmem2
        obtain ⟨s1, hs1⟩ := (inv.bad_iff d votes w hcd).mp hmem2
        rw [hvac] at hs1
        exact Option.noConfusion hs1
      · intro hex
        obtain ⟨s1, hs1⟩ := hex
        simp [lookupA] at hs1
        exact absurd hs1 (hnoninv s1)
    · have hsing : lookupA [(v, vote)] w = none := by
        simp only [lookupA]
        rw [if_neg (fun hh => hw (Eq.symm hh))]
      rw [hsing]
      simp only [Option.or_none]
      exact inv.bad_iff d votes w hcd

theorem tableInv_vacant_invalid {V D C G S : Type} [DecidableEq V] [DecidableEq D] [DecidableEq S]
    {ctx : Context V D C G S} {t : Table V D C G S} {v : V} {d : D}
    {votes : CandidateData V D C G S} (s0 : S)
    (inv : TableInv ctx t) (hcd : lookupA t.candidate_votes d = some votes)
    (hvac : lookupA votes.validity_votes v = none) :
    TableInv ctx { t with candidate_votes := (insertA d
      ({ votes with
          validity_votes := votes.validity_votes ++ [(v, ValidityVote.Invalid s0)],
          indicated_bad_by := votes.indicated_bad_by ++ [v] }) t.candidate_votes) } := by
  refine tableInv_update_record inv hcd rfl rfl ?_ (inv.av_nodup d votes hcd) ?_ ?_
  · exact nodup_keys_append_fresh (ValidityVote.Invalid s0) (inv.vv_nodup d votes hcd) hvac
  · intro w
    simp only
    rw [List.mem_append, List.mem_singleton, lookupA_append]
    by_cases hw : w = v
    · subst hw
      rw [hvac]
      simp [lookupA]
    · have hsing : lookupA [(v, ValidityVote.Invalid s0)] w = none := by
        simp only [lookupA]
        rw [if_neg (fun hh => hw (Eq.symm hh))]
      rw [hsing]
      simp only [Option.or_none, hw, or_false]
      exact inv.bad_iff d votes w hcd
  · refine List.Nodup.append (inv.bad_nodup d votes hcd) (by simp) ?_
    intro x hx hk
    rw [List.mem_singleton] at hk
    subst hk
    obtain ⟨s1, hs1⟩ := (inv.bad_iff d votes x hcd).mp hx
    rw [hvac] at hs1
    exact Option.noConfusion hs1

theorem validity_vote_inv {V D C G S : Type} [DecidableEq V] [DecidableEq D] [DecidableEq S]
    {ctx : Context V D C G S} {t t2 : Table V D C G S} {v : V} {d : D} {vote : ValidityVote S}
    {out : Option (Misbehavior D C S)}
    (inv : TableInv ctx t) (h : t.validity_vote ctx v d vote = some (t2, out)) :
    TableInv ctx t2 := by
  cases vote with
  | Issued s0 =>
    rcases validity_vote_cases h with rfl | ⟨votes, hcd, hmem, hvac, _, _, hother⟩
    · exact inv
    · rw [hother (fun s1 => by simp)]
      exact tableInv_vacant_vote (ValidityVote.Issued s0) inv hcd hvac (fun s1 => by simp)
  | Valid s0 =>
    rcases validity_vote_cases h with rfl | ⟨votes, hcd, hmem, hvac, _, _, hother⟩
    · exact inv
    · rw [hother (fun s1 => by simp)]
      exact tableInv_vacant_vote (ValidityVote.Valid s0) inv hcd hvac (fun s1 => by simp)
  | Invalid s0 =>
    rcases validity_vote_cases h with rfl | ⟨votes, hcd, hmem, hvac, _, hinv, _⟩
    · exact inv
    · rw [hinv s0 rfl]
      exact tableInv_vacant_invalid s0 inv hcd hvac

theorem tableInv_set_misb {V D C G S : Type} [DecidableEq V] [DecidableEq D]
    {ctx : Context V D C G S} {t : Table V D C G S} (inv : TableInv ctx t)
    (m : List (V × Misbehavior D C S)) :
    TableInv ctx (Table.mk t.proposed m t.candidate_votes) :=
  ⟨inv.cv_nodup, inv.proposed_record, inv.record_digest, inv.record_group,
   inv.vv_nodup, inv.av_nodup, inv.bad_iff, inv.bad_nodup⟩

theorem tableInv_new_candidate {V D C G S : Type} [DecidableEq V] [DecidableEq D]
    {ctx : Context V D C G S} {t : Table V D C G S} (v : V) (c : C) (s : S)
    (inv : TableInv ctx t) :
    TableInv ctx { t with
      proposed := (insertA v (ctx.candidate_digest c, s) t.proposed),
      candidate_votes := (insertIfAbsentA (ctx.candidate_digest c)
        ({ group_id := ctx.candidate_group c, candidate := c, validity_votes := [],
           availability_votes := [], indicated_bad_by := [] }) t.candidate_votes) } := by
  cases hdg : lookupA t.candidate_votes (ctx.candidate_digest c) with
  | some cd0 =>
    rw [insertIfAbsentA_of_present _ hdg]
    constructor
    · exact inv.cv_nodup
    · intro w d'' s'' hp
      by_cases hw : w = v
      · subst hw
        rw [lookupA_insertA_self] at hp
        cases hp
        exact ⟨cd0, hdg⟩
      · rw [lookupA_insertA_ne _ hw] at hp
        exact inv.proposed_record w d'' s'' hp
    · exact inv.record_digest
    · exact inv.record_group
    · exact inv.vv_nodup
    · exact inv.av_nodup
    · exact inv.bad_iff
    · exact inv.bad_nodup
  | none =>
    rw [insertIfAbsentA_of_absent _ hdg]
    have hlook : ∀ d'', lookupA (t.candidate_votes ++
        [(ctx.candidate_digest c,
          ({ group_id := ctx.candidate_group c, candidate := c, validity_votes := [],
             availability_votes := [], indicated_bad_by := [] } :
            CandidateData V D C G S))]) d'' =
        (lookupA t.candidate_votes d'').or
          (if ctx.candidate_digest c = d'' then
            some ({ group_id := ctx.candidate_group c, candidate := c, validity_votes := [],
                    availability_votes := [], indicated_bad_by := [] }) else none) := by
      intro d''
      rw [lookupA_append]
      simp [lookupA]
    constructor
    · exact nodup_keys_append_fresh _ inv.cv_nodup hdg
    · intro w d'' s'' hp
      by_cases hw : w = v
      · subst hw
        rw [lookupA_insertA_self] at hp
        cases hp
        rw [hlook, hdg]
        simp only [Option.none_or, if_pos rfl]
        exact ⟨_, rfl⟩
      · rw [lookupA_insertA_ne _ hw] at hp
        obtain ⟨cd, hcd⟩ := inv.proposed_record w d'' s'' hp
        rw [hlook, hcd]
        exact ⟨cd, rfl⟩
    · intro d'' cd'' hp
      rw [hlook] at hp
      cases hcv : lookupA t.candidate_votes d'' with
      | some cd1 =>
        rw [hcv] at hp
        cases hp
        exact inv.record_digest d'' _ hcv
      | none =>
        rw [hcv] at hp
        simp only [Option.none_or] at hp
        by_cases hd : ctx.candidate_digest c = d''
        · rw [if_pos hd] at hp
          cases hp
          exact hd
        · rw [if_neg hd] at hp
          exact Option.noConfusion hp
    · intro d'' cd'' hp
      rw [hlook] at hp
      cases hcv : lookupA t.candidate_votes d'' with
      | some cd1 =>
        rw [hcv] at hp
        cases hp
        exact inv.record_group d'' _ hcv
      | none =>
        rw [hcv] at hp
        simp only [Option.none_or] at hp
        by_cases hd : ctx.candidate_digest c = d''
        · rw [if_pos hd] at hp
          cases hp
          rfl
        · rw [if_neg hd] at hp
          exact Option.noConfusion hp
    · intro d'' cd'' hp
      rw [hlook] at hp
      cases hcv : lookupA t.candidate_votes d'' with
      | some cd1 =>
        rw [hcv] at hp
        cases hp
        exact inv.vv_nodup d'' _ hcv
      | none =>
        rw [hcv] at hp
        simp only [Option.none_or] at hp
        by_cases hd : ctx.candidate_digest c = d''
        · rw [if_pos hd] at hp
          cases hp
          simp
        · rw [if_neg hd] at hp
          exact Option.noConfusion hp
    · intro d'' cd'' hp
      rw [hlook] at hp
      cases hcv : lookupA t.candidate_votes d'' with
      | some cd1 =>
        rw [hcv] at hp
        cases hp
        exact inv.av_nodup d'' _ hcv
      | none =>
        rw [hcv] at hp
        simp only [Option.none_or] at hp
        by_cases hd : ctx.candidate_digest c = d''
        · rw [if_pos hd] at hp
          cases hp
          simp
        · rw [if_neg hd] at hp
          exact Option.noConfusion hp
    · intro d'' cd'' w hp
      rw [hlook] at hp
      cases hcv : lookupA t.candidate_votes d'' with
      | some cd1 =>
        rw [hcv] at hp
        cases hp
        exact inv.bad_iff d'' _ w hcv
      | none =>
        rw [hcv] at hp
        simp only [Option.none_or] at hp
        by_cases hd : ctx.candidate_digest c = d''
        · rw [if_pos hd] at hp
          cases hp
          simp [lookupA]
        · rw [if_neg hd] at hp
          exact Option.noConfusion hp
    · intro d'' cd'' hp
      rw [hlook] at hp
      cases hcv : lookupA t.candidate_votes d'' with
      | some cd1 =>
        rw [hcv] at hp
        cases hp
        exact inv.bad_nodup d'' _ hcv
      | none =>
        rw [hcv] at hp
        simp only [Option.none_or] at hp
        by_cases hd : ctx.candidate_digest c = d''
        · rw [if_pos hd] at hp
          cases hp
          simp
        · rw [if_neg hd] at hp
          exact Option.noConfusion hp

theorem import_candidate_inv {V D C G S : Type} [DecidableEq V] [DecidableEq D] [DecidableEq S]
    {ctx : Context V D C G S} {t t2 : Table V D C G S} {v : V} {c : C} {s : S}
    {out : Option (Misbehavior D C S)}
    (inv : TableInv ctx t) (h : t.import_candidate ctx v c s = some (t2, out)) :
    TableInv ctx t2 := by
  unfold Table.import_candidate at h
  simp only at h
  split at h
  · simp only [Option.some.injEq, Prod.mk.injEq] at h
    obtain ⟨rfl, rfl⟩ := h
    exact inv
  · split at h
    · split at h
      · split at h
        · exact Option.noConfusion h
        · simp only [Option.some.injEq, Prod.mk.injEq] at h
          obtain ⟨rfl, rfl⟩ := h
          exact inv
      · exact validity_vote_inv inv h
    · exact validity_vote_inv (tableInv_new_candidate v c s inv) h

theorem tableInv_create {V D C G S : Type} [DecidableEq V] [DecidableEq D]
    (ctx : Context V D C G S) : TableInv ctx (create : Table V D C G S) := by
  refine ⟨?_, ?_, ?_, ?_, ?_, ?_, ?_, ?_⟩ <;> simp [create, lookupA]

theorem import_statement_inv {V D C G S : Type} [DecidableEq V] [DecidableEq D] [DecidableEq S]
    {ctx : Context V D C G S} {t t2 : Table V D C G S} {s : SignedStatement D C S}
    (inv : TableInv ctx t) (h : t.import_statement ctx s = some t2) :
    TableInv ctx t2 := by
  unfold Table.import_statement at h
  cases hsig : ctx.statement_signer s with
  | none =>
    rw [hsig] at h
    simp only [Option.some.injEq] at h
    subst h
    exact inv
  | some signer =>
    rw [hsig] at h
    simp only at h
    have hfin : ∀ {t3 : Table V D C G S} {mm : Option (Misbehavior D C S)},
        TableInv ctx t3 →
        (match mm with
          | none => some t3
          | some m =>
            some { t3 with detected_misbehavior := insertA signer m t3.detected_misbehavior })
          = some t2 →
        TableInv ctx t2 := by
      intro t3 mm hinv3 hm
      cases mm with
      | none =>
        simp only [Option.some.injEq] at hm
        subst hm
        exact hinv3
      | some m =>
        simp only [Option.some.injEq] at hm
        subst hm
        exact tableInv_set_misb hinv3 _
    cases hst : s.statement with
    | Candidate c =>
      rw [hst] at h
      simp only at h
      cases hr : t.import_candidate ctx signer c s.signature with
      | none =>
        rw [hr] at h
        exact Option.noConfusion h
      | some p =>
        obtain ⟨t3, mm⟩ := p
        rw [hr] at h
        exact hfin (import_candidate_inv inv hr) h
    | Valid d =>
      rw [hst] at h
      simp only at h
      cases hr : t.validity_vote ctx signer d (ValidityVote.Valid s.signature) with
      | none =>
        rw [hr] at h
        exact Option.noConfusion h
      | some p =>
        obtain ⟨t3, mm⟩ := p
        rw [hr] at h
        exact hfin (validity_vote_inv inv hr) h
    | Invalid d =>
      rw [hst] at h
      simp only at h
      cases hr : t.validity_vote ctx signer d (ValidityVote.Invalid s.signature) with
      | none =>
        rw [hr] at h
        exact Option.noConfusion h
      | some p =>
        obtain ⟨t3, mm⟩ := p
        rw [hr] at h
        exact hfin (validity_vote_inv inv hr) h
    | Available d =>
      rw [hst] at h
      simp only at h
      rcases hr : t.availability_vote ctx signer d s.signature with ⟨t3, mm⟩
      rw [hr] at h
      exact hfin (availability_vote_inv inv hr) h

theorem reachable_inv {V D C G S : Type} [DecidableEq V] [DecidableEq D] [DecidableEq S]
    {ctx : Context V D C G S} {t : Table V D C G S} (h : Reachable ctx t) :
    TableInv ctx t := by
  induction h with
  | empty => exact tableInv_create ctx
  | step hr hstep ih => exact import_statement_inv ih hstep

/-- C6: in every table reachable from the empty table by imports, a validator
is in `indicated_bad_by` exactly when its stored validity vote on the digest is
`Invalid`, and it appears there at most once. -/
theorem indicated_bad_iff_invalid {V D C G S : Type} [DecidableEq V] [DecidableEq D]
    [DecidableEq S] {ctx : Context V D C G S} {t : Table V D C G S} (hr : Reachable ctx t)
    (d : D) (cd : CandidateData V D C G S) (v : V)
    (hcd : lookupA t.candidate_votes d = some cd) :
    (v ∈ cd.indicated_bad_by ↔
      ∃ s, lookupA cd.validity_votes v = some (ValidityVote.Invalid s)) ∧
      cd.indicated_bad_by.count v ≤ 1 := by
  have inv := reachable_inv hr
  exact ⟨inv.bad_iff d cd v hcd,
    List.nodup_iff_count_le_one.mp (inv.bad_nodup d cd hcd) v⟩

theorem validity_vote_ne_none_of_member {V D C G S : Type} [DecidableEq V] [DecidableEq D]
    [DecidableEq S] {t : Table V D C G S} {ctx : Context V D C G S} {v : V} {d : D}
    {cd : CandidateData V D C G S} (vote : ValidityVote S)
    (hcd : lookupA t.candidate_votes d = some cd)
    (hmem : ctx.is_member_of v cd.group_id = true) :
    t.validity_vote ctx v d vote ≠ none := by
  unfold Table.validity_vote
  simp only [hcd]
  rw [if_neg (by simp [hmem])]
  repeat' split
  all_goals simp

theorem validity_vote_ne_none_of_not_issued {V D C G S : Type} [DecidableEq V] [DecidableEq D]
    [DecidableEq S] (t : Table V D C G S) (ctx : Context V D C G S) (v : V) (d : D)
    (vote : ValidityVote S) (hni : ∀ s0, vote ≠ ValidityVote.Issued s0) :
    t.validity_vote ctx v d vote ≠ none := by
  unfold Table.validity_vote
  repeat' split
  all_goals simp_all

theorem reachable_tInv : Reachable ctxW tInv := by
  have h1 : (create : Table Nat Nat Nat Nat Nat).import_statement ctxW
      ⟨Statement.Candidate 20100, 201⟩ = some tMid := by decide
  have h2 : tMid.import_statement ctxW ⟨Statement.Invalid 100, 202⟩ = some tInv := by decide
  exact Reachable.step (Reachable.step Reachable.empty h1) h2

/-- C6 witness: in the reachable table `tInv`, validator 202 is listed in
`indicated_bad_by` of the record at digest 100, its stored vote is `Invalid`,
and it is listed exactly once. -/
theorem indicated_bad_iff_invalid_witness :
    (202 ∈ cdInv.indicated_bad_by ↔
      ∃ s, lookupA cdInv.validity_votes 202 = some (ValidityVote.Invalid s)) ∧
      cdInv.indicated_bad_by.count 202 ≤ 1 :=
  indicated_bad_iff_invalid reachable_tInv 100 cdInv 202 (by decide)

theorem import_candidate_ne_none {V D C G S : Type} [DecidableEq V] [DecidableEq D]
    [DecidableEq S] {ctx : Context V D C G S} {t : Table V D C G S} (v : V) (c : C) (s : S)
    (inv : TableInv ctx t) (hinj : Function.Injective ctx.candidate_digest) :
    t.import_candidate ctx v c s ≠ none := by
  unfold Table.import_candidate
  simp only
  split
  · simp
  · rename_i hmem
    have hmem' : ctx.is_member_of v (ctx.candidate_group c) = true := by
      simpa using hmem
    split
    · rename_i old hold
      split
      · rename_i hdiff
        obtain ⟨cd, hcd⟩ := inv.proposed_record v old.1 old.2 (by rw [hold])
        rw [hcd]
        simp
      · rename_i hndiff
        have hdig : old.1 = ctx.candidate_digest c := not_ne_iff.mp hndiff
        obtain ⟨cd, hcd⟩ := inv.proposed_record v old.1 old.2 (by rw [hold])
        rw [hdig] at hcd
        have hc : cd.candidate = c := by
          apply hinj
          rw [inv.record_digest _ cd hcd]
        have hgrp : ctx.is_member_of v cd.group_id = true := by
          rw [inv.record_group _ cd hcd, hc]
          exact hmem'
        exact validity_vote_ne_none_of_member (ValidityVote.Issued s) hcd hgrp
    · rename_i hvac
      cases hdg : lookupA t.candidate_votes (ctx.candidate_digest c) with
      | some cd0 =>
        have hcd1 : lookupA (insertIfAbsentA (ctx.candidate_digest c)
            ({ group_id := ctx.candidate_group c, candidate := c, validity_votes := [],
               availability_votes := [], indicated_bad_by := [] })
            t.candidate_votes) (ctx.candidate_digest c) = some cd0 := by
          rw [insertIfAbsentA_of_present _ hdg]
          exact hdg
        have hc : cd0.candidate = c := by
          apply hinj
          rw [inv.record_digest _ cd0 hdg]
        have hgrp : ctx.is_member_of v cd0.group_id = true := by
          rw [inv.record_group _ cd0 hdg, hc]
          exact hmem'
        exact validity_vote_ne_none_of_member (ValidityVote.Issued s) hcd1 hgrp
      | none =>
        have hcd1 : lookupA (insertIfAbsentA (ctx.candidate_digest c)
            ({ group_id := ctx.candidate_group c, candidate := c, validity_votes := [],
               availability_votes := [], indicated_bad_by := [] })
            t.candidate_votes) (ctx.candidate_digest c) =
            some ({ group_id := ctx.candidate_group c, candidate := c, validity_votes := [],
                    availability_votes := [], indicated_bad_by := [] }) := by
          rw [insertIfAbsentA_of_absent _ hdg, lookupA_append, hdg]
          simp [lookupA]
        exact validity_vote_ne_none_of_member (ValidityVote.Issued s) hcd1 hmem'

/-- C9 (amended): under an injective digest function, no `import_statement` on
a reachable table can hit either panic site (the `Issued`-arm panic in
`validity_vote` and the `expect` in `import_candidate`), modelled here as
`none`. -/
theorem import_statement_no_panic {V D C G S : Type} [DecidableEq V] [DecidableEq D]
    [DecidableEq S] {ctx : Context V D C G S} {t : Table V D C G S} (hr : Reachable ctx t)
    (hinj : Function.Injective ctx.candidate_digest) (s : SignedStatement D C S) :
    t.import_statement ctx s ≠ none := by
  have inv := reachable_inv hr
  unfold Table.import_statement
  cases hsig : ctx.statement_signer s with
  | none => simp
  | some signer =>
    simp only
    cases hst : s.statement with
    | Candidate c =>
      cases hr2 : t.import_candidate ctx signer c s.signature with
      | none => exact absurd hr2 (import_candidate_ne_none signer c s.signature inv hinj)
      | some p =>
        obtain ⟨t3, mm⟩ := p
        cases mm <;> simp [hr2]
    | Valid d =>
      cases hr2 : t.validity_vote ctx signer d (ValidityVote.Valid s.signature) with
      | none =>
        exact absurd hr2 (validity_vote_ne_none_of_not_issued t ctx signer d _
          (fun s0 => by simp))
      | some p =>
        obtain ⟨t3, mm⟩ := p
        cases mm <;> simp [hr2]
    | Invalid d =>
      cases hr2 : t.validity_vote ctx signer d (ValidityVote.Invalid s.signature) with
      | none =>
        exact absurd hr2 (validity_vote_ne_none_of_not_issued t ctx signer d _
          (fun s0 => by simp))
      | some p =>
        obtain ⟨t3, mm⟩ := p
        cases mm <;> simp [hr2]
    | Available d =>
      rcases hr2 : t.availability_vote ctx signer d s.signature with ⟨t3, mm⟩
      cases mm <;> simp [hr2]

/-- C9 witness: under the injective-digest environment `ctxInj`, re-importing
the candidate statement into the reachable table `tInj` cannot panic. -/
theorem import_statement_no_panic_witness :
    tInj.import_statement ctxInj ⟨Statement.Candidate 20100, 201⟩ ≠ none := by
  have h1 : (create : Table Nat Nat Nat Nat Nat).import_statement ctxInj
      ⟨Statement.Candidate 20100, 201⟩ = some tInj := by decide
  exact import_statement_no_panic (Reachable.step Reachable.empty h1)
    (fun a b h => h) ⟨Statement.Candidate 20100, 201⟩

/-- C9 counterexample: with a digest collision in the environment (`ctxColl`:
candidates 10007 and 20007 share digest 7), the table `tColl` reached from the
empty table by one import panics (hits the `Issued` arm of the membership
check in `validity_vote`, modelled as `none`) on importing the second
candidate. -/
theorem import_statement_panic_reachable :
    Reachable ctxColl tColl ∧
      tColl.import_statement ctxColl ⟨Statement.Candidate 20007, 2⟩ = none := by
  have h1 : (create : Table Nat Nat Nat Nat Nat).import_statement ctxColl
      ⟨Statement.Candidate 10007, 1⟩ = some tColl := by decide
  exact ⟨Reachable.step Reachable.empty h1, by decide⟩

/-- C7 counterexample: the set {Candidate 20100 by 1, Valid 100 by 2,
Available 100 by 3} is pairwise non-conflicting with digest-determined
candidates, yet importing it in an order that places the vote before the
candidate drops that vote: one order proposes candidate 20100, the other
proposes nothing. -/
theorem proposed_candidates_order_dependent :
    ([sC7cand, sC7valid, sC7avail] : List (SignedStatement Nat Nat Nat)).Perm
      [sC7valid, sC7cand, sC7avail] ∧
    NonConflicting ctxC7 [sC7cand, sC7valid, sC7avail] ∧
    DigestDet ctxC7 [sC7cand, sC7valid, sC7avail] ∧
    (importAll ctxC7 create [sC7cand, sC7valid, sC7avail]).map
      (fun t => t.proposed_candidates ctxC7) = some [20100] ∧
    (importAll ctxC7 create [sC7valid, sC7cand, sC7avail]).map
      (fun t => t.proposed_candidates ctxC7) = some [] := by
  refine ⟨?_, ?_, ?_, ?_, ?_⟩ <;> decide

theorem candStmts_append {V D C G S : Type} (ctx : Context V D C G S)
    (L1 L2 : List (SignedStatement D C S)) :
    candStmts ctx (L1 ++ L2) = candStmts ctx L1 ++ candStmts ctx L2 :=
  List.filterMap_append L1 L2 _

theorem candStmts_vote {V D C G S : Type} (ctx : Context V D C G S)
    {s : SignedStatement D C S} {d : D} (h : voteDigest s.statement = some d) :
    candStmts ctx [s] = [] := by
  unfold candStmts voteDigest at *
  cases hst : s.statement <;> rw [hst] at h <;> simp_all [List.filterMap]

theorem mem_candStmts_singleton {V D C G S : Type} {ctx : Context V D C G S}
    {s : SignedStatement D C S} {pc : D × C} :
    pc ∈ candStmts ctx [s] ↔
      ∃ c v, s.statement = Statement.Candidate c ∧ ctx.statement_signer s = some v ∧
        ctx.is_member_of v (ctx.candidate_group c) = true ∧
        pc = (ctx.candidate_digest c, c) := by
  unfold candStmts
  simp only [List.filterMap_cons, List.filterMap_nil]
  cases hst : s.statement with
  | Candidate c =>
    cases hsig : ctx.statement_signer s with
    | none => simp [hst, hsig]
    | some v =>
      by_cases hmem : ctx.is_member_of v (ctx.candidate_group c)
      · simp [hst, hsig, hmem]
      · simp only [hst, hsig, Bool.not_eq_true] at hmem ⊢
        rw [if_neg (by simp [hmem])]
        simp only [List.not_mem_nil, false_iff]
        rintro ⟨c', v', hc', hv', hmem', hpc⟩
        cases hc'
        cases hv'
        rw [hmem] at hmem'
        exact Bool.noConfusion hmem'
  | Valid d => simp [hst]
  | Invalid d => simp [hst]
  | Available d => simp [hst]

theorem castsVoter_append {V D C G S : Type} [DecidableEq V] [DecidableEq D]
    {ctx : Context V D C G S} {L1 L2 : List (SignedStatement D C S)} {g : G} {d : D} {v : V} :
    castsVoter ctx (L1 ++ L2) g d v ↔ castsVoter ctx L1 g d v ∨ castsVoter ctx L2 g d v := by
  unfold castsVoter
  constructor
  · rintro ⟨s, hs, k, hk, hmem⟩
    rcases List.mem_append.mp hs with h | h
    · exact Or.inl ⟨s, h, k, hk, hmem⟩
    · exact Or.inr ⟨s, h, k, hk, hmem⟩
  · rintro (⟨s, hs, k, hk, hmem⟩ | ⟨s, hs, k, hk, hmem⟩)
    · exact ⟨s, List.mem_append_left _ hs, k, hk, hmem⟩
    · exact ⟨s, List.mem_append_right _ hs, k, hk, hmem⟩

theorem castsVoter_singleton {V D C G S : Type} [DecidableEq V] [DecidableEq D]
    {ctx : Context V D C G S} {s : SignedStatement D C S} {g : G} {d : D} {v : V} :
    castsVoter ctx [s] g d v ↔
      ∃ k, validityKind ctx s = some (v, d, k) ∧ (k ≠ 0 → ctx.is_member_of v g = true) := by
  unfold castsVoter
  simp

theorem castsInvalid_append {V D C G S : Type} [DecidableEq V] [DecidableEq D]
    {ctx : Context V D C G S} {L1 L2 : List (SignedStatement D C S)} {g : G} {d : D} {v : V} :
    castsInvalid ctx (L1 ++ L2) g d v ↔ castsInvalid ctx L1 g d v ∨ castsInvalid ctx L2 g d v := by
  unfold castsInvalid
  constructor
  · rintro ⟨s, hs, hk, hmem⟩
    rcases List.mem_append.mp hs with h | h
    · exact Or.inl ⟨s, h, hk, hmem⟩
    · exact Or.inr ⟨s, h, hk, hmem⟩
  · rintro (⟨s, hs, hk, hmem⟩ | ⟨s, hs, hk, hmem⟩)
    · exact ⟨s, List.mem_append_left _ hs, hk, hmem⟩
    · exact ⟨s, List.mem_append_right _ hs, hk, hmem⟩

theorem castsInvalid_singleton {V D C G S : Type} [DecidableEq V] [DecidableEq D]
    {ctx : Context V D C G S} {s : SignedStatement D C S} {g : G} {d : D} {v : V} :
    castsInvalid ctx [s] g d v ↔
      validityKind ctx s = some (v, d, 2) ∧ ctx.is_member_of v g = true := by
  unfold castsInvalid
  simp

theorem castsAvail_append {V D C G S : Type} {ctx : Context V D C G S}
    {L1 L2 : List (SignedStatement D C S)} {g : G} {d : D} {v : V} :
    castsAvail ctx (L1 ++ L2) g d v ↔ castsAvail ctx L1 g d v ∨ castsAvail ctx L2 g d v := by
  unfold castsAvail
  constructor
  · rintro ⟨s, hs, h1, h2, h3⟩
    rcases List.mem_append.mp hs with h | h
    · exact Or.inl ⟨s, h, h1, h2, h3⟩
    · exact Or.inr ⟨s, h, h1, h2, h3⟩
  · rintro (⟨s, hs, h1, h2, h3⟩ | ⟨s, hs, h1, h2, h3⟩)
    · exact ⟨s, List.mem_append_left _ hs, h1, h2, h3⟩
    · exact ⟨s, List.mem_append_right _ hs, h1, h2, h3⟩

theorem castsAvail_singleton {V D C G S : Type} {ctx : Context V D C G S}
    {s : SignedStatement D C S} {g : G} {d : D} {v : V} :
    castsAvail ctx [s] g d v ↔
      s.statement = Statement.Available d ∧ ctx.statement_signer s = some v ∧
        ctx.is_availability_guarantor_of v g = true := by
  unfold castsAvail
  simp

theorem nonConflicting_spec {V D C G S : Type} [DecidableEq V] [DecidableEq D]
    {ctx : Context V D C G S} {L : List (SignedStatement D C S)}
    (hnc : NonConflicting ctx L) {s1 s2 : SignedStatement D C S}
    (h1 : s1 ∈ L) (h2 : s2 ∈ L) {v : V} {d1 d2 : D} {k1 k2 : Nat}
    (hk1 : validityKind ctx s1 = some (v, d1, k1))
    (hk2 : validityKind ctx s2 = some (v, d2, k2)) :
    (k1 = 0 ∧ k2 = 0 → d1 = d2) ∧ (d1 = d2 → k1 = k2) := by
  have h := hnc s1 h1 s2 h2
  unfold compatible at h
  rw [hk1, hk2] at h
  exact h rfl

theorem nonConflicting_mono {V D C G S : Type} [DecidableEq V] [DecidableEq D]
    {ctx : Context V D C G S} {L : List (SignedStatement D C S)}
    {s : SignedStatement D C S} (hnc : NonConflicting ctx (L ++ [s])) :
    NonConflicting ctx L :=
  fun s1 h1 s2 h2 => hnc s1 (List.mem_append_left _ h1) s2 (List.mem_append_left _ h2)

theorem digestDet_mono {V D C G S : Type} [DecidableEq D]
    {ctx : Context V D C G S} {L : List (SignedStatement D C S)}
    {s : SignedStatement D C S} (hdd : DigestDet ctx (L ++ [s])) :
    DigestDet ctx L := by
  intro p hp q hq
  exact hdd p (by rw [candStmts_append]; exact List.mem_append_left _ hp)
    q (by rw [candStmts_append]; exact List.mem_append_left _ hq)

theorem insertA_self_of_lookup {K A : Type} [DecidableEq K] {k : K} {a : A} :
    ∀ {l : List (K × A)}, lookupA l k = some a → insertA k a l = l
  | [], h => by simp [lookupA] at h
  | (k0, a0) :: l, h => by
    by_cases hk : k0 = k
    · subst hk
      have ha : a0 = a := by simpa [lookupA] using h
      subst ha
      simp [insertA]
    · simp only [lookupA, if_neg hk] at h
      simp [insertA, hk, insertA_self_of_lookup h]

theorem votesCovered_append {V D C G S : Type} {ctx : Context V D C G S}
    {L : List (SignedStatement D C S)} {s : SignedStatement D C S}
    (hvc : VotesCovered ctx L) (hcov : Covered ctx L s) :
    VotesCovered ctx (L ++ [s]) := by
  intro s1 hs1 d hd
  rcases List.mem_append.mp hs1 with h | h
  · obtain ⟨p, hp, hp1⟩ := hvc s1 h d hd
    exact ⟨p, by rw [candStmts_append]; exact List.mem_append_left _ hp, hp1⟩
  · rw [List.mem_singleton] at h
    subst h
    unfold Covered at hcov
    rw [hd] at hcov
    obtain ⟨p, hp, hp1⟩ := hcov
    exact ⟨p, by rw [candStmts_append]; exact List.mem_append_left _ hp, hp1⟩

theorem importModels_set_misb {V D C G S : Type} [DecidableEq V] [DecidableEq D] [DecidableEq S]
    {ctx : Context V D C G S} {L : List (SignedStatement D C S)} {t : Table V D C G S}
    (hm : ImportModels ctx L t) (m : List (V × Misbehavior D C S)) :
    ImportModels ctx L (Table.mk t.proposed m t.candidate_votes) :=
  ⟨tableInv_set_misb hm.inv m, hm.keys_iff, hm.cand_from, hm.proposed_from,
   hm.vv_iff, hm.inval_iff, hm.av_iff⟩

theorem importModels_extend_at {V D C G S : Type} [DecidableEq V] [DecidableEq D] [DecidableEq S]
    {ctx : Context V D C G S} {L : List (SignedStatement D C S)} {t t' : Table V D C G S}
    (s : SignedStatement D C S) {d : D} {cd cd' : CandidateData V D C G S}
    (hm : ImportModels ctx L t)
    (hinv' : TableInv ctx t')
    (hprop' : ∀ v ds, lookupA t'.proposed v = some ds →
      ∃ s1 ∈ L ++ [s], validityKind ctx s1 = some (v, ds.1, 0))
    (hcd : lookupA t.candidate_votes d = some cd)
    (hcv' : t'.candidate_votes = insertA d cd' t.candidate_votes)
    (hcand : cd'.candidate = cd.candidate)
    (hgroup : cd'.group_id = cd.group_id)
    (hkeys : ∀ p ∈ candStmts ctx [s], p.1 = d)
    (hvv' : ∀ w, (∃ vote, lookupA cd'.validity_votes w = some vote) ↔
      castsVoter ctx (L ++ [s]) cd.group_id d w)
    (hinval' : ∀ w, (∃ s0, lookupA cd'.validity_votes w = some (ValidityVote.Invalid s0)) ↔
      castsInvalid ctx (L ++ [s]) cd.group_id d w)
    (hav' : ∀ w, (lookupA cd'.availability_votes w).isSome = true ↔
      castsAvail ctx (L ++ [s]) cd.group_id d w)
    (hother_vv : ∀ (d0 : D) (w : V) (g0 : G), d0 ≠ d → ¬ castsVoter ctx [s] g0 d0 w)
    (hother_inval : ∀ (d0 : D) (w : V) (g0 : G), d0 ≠ d → ¬ castsInvalid ctx [s] g0 d0 w)
    (hother_av : ∀ (d0 : D) (w : V) (g0 : G), d0 ≠ d → ¬ castsAvail ctx [s] g0 d0 w) :
    ImportModels ctx (L ++ [s]) t' := by
  have hcs : candStmts ctx (L ++ [s]) = candStmts ctx L ++ candStmts ctx [s] :=
    candStmts_append ctx L [s]
  have hlook : ∀ d0, lookupA t'.candidate_votes d0 =
      if d0 = d then some cd' else lookupA t.candidate_votes d0 := by
    intro d0
    rw [hcv']
    by_cases hd : d0 = d
    · subst hd
      simp [lookupA_insertA_self]
    · simp [lookupA_insertA_ne cd' hd, hd]
  constructor
  · exact hinv'
  · intro d0
    rw [hcs, hlook]
    by_cases hd : d0 = d
    · subst hd
      simp only [if_pos rfl]
      constructor
      · intro _
        obtain ⟨p, hp, hp1⟩ := (hm.keys_iff d0).mp ⟨cd, hcd⟩
        exact ⟨p, List.mem_append_left _ hp, hp1⟩
      · intro _
        exact ⟨cd', rfl⟩
    · rw [if_neg hd]
      constructor
      · intro h
        obtain ⟨p, hp, hp1⟩ := (hm.keys_iff d0).mp h
        exact ⟨p, List.mem_append_left _ hp, hp1⟩
      · rintro ⟨p, hp, hp1⟩
        rcases List.mem_append.mp hp with hp2 | hp2
        · exact (hm.keys_iff d0).mpr ⟨p, hp2, hp1⟩
        · exact absurd (hp1.symm.trans (hkeys p hp2)) hd
  · intro d0 cd0 h
    rw [hlook] at h
    rw [hcs]
    by_cases hd : d0 = d
    · rw [if_pos hd] at h
      cases h
      rw [hcand, hd]
      exact List.mem_append_left _ (hm.cand_from d cd hcd)
    · rw [if_neg hd] at h
      exact List.mem_append_left _ (hm.cand_from d0 cd0 h)
  · intro v ds h
    exact hprop' v ds h
  · intro d0 cd0 w h
    rw [hlook] at h
    by_cases hd : d0 = d
    · subst hd
      rw [if_pos rfl] at h
      cases h
      rw [hgroup]
      exact hvv' w
    · rw [if_neg hd] at h
      rw [castsVoter_append]
      constructor
      · intro hst
        exact Or.inl ((hm.vv_iff d0 cd0 w h).mp hst)
      · rintro (hc | hc)
        · exact (hm.vv_iff d0 cd0 w h).mpr hc
        · exact absurd hc (hother_vv d0 w cd0.group_id hd)
  · intro d0 cd0 w h
    rw [hlook] at h
    by_cases hd : d0 = d
    · subst hd
      rw [if_pos rfl] at h
      cases h
      rw [hgroup]
      exact hinval' w
    · rw [if_neg hd] at h
      rw [castsInvalid_append]
      constructor
      · intro hst
        exact Or.inl ((hm.inval_iff d0 cd0 w h).mp hst)
      · rintro (hc | hc)
        · exact (hm.inval_iff d0 cd0 w h).mpr hc
        · exact absurd hc (hother_inval d0 w cd0.group_id hd)
  · intro d0 cd0 w h
    rw [hlook] at h
    by_cases hd : d0 = d
    · subst hd
      rw [if_pos rfl] at h
      cases h
      rw [hgroup]
      exact hav' w
    · rw [if_neg hd] at h
      rw [castsAvail_append]
      constructor
      · intro hst
        exact Or.inl ((hm.av_iff d0 cd0 w h).mp hst)
      · rintro (hc | hc)
        · exact (hm.av_iff d0 cd0 w h).mpr hc
        · exact absurd hc (hother_av d0 w cd0.group_id hd)

theorem proposed_from_append {V D C G S : Type} [DecidableEq V] [DecidableEq D] [DecidableEq S]
    {ctx : Context V D C G S} {L : List (SignedStatement D C S)} {t : Table V D C G S}
    (hm : ImportModels ctx L t) (s : SignedStatement D C S) :
    ∀ v ds, lookupA t.proposed v = some ds →
      ∃ s1 ∈ L ++ [s], validityKind ctx s1 = some (v, ds.1, 0) := by
  intro v ds h
  obtain ⟨s1, hs1, hk⟩ := hm.proposed_from v ds h
  exact ⟨s1, List.mem_append_left _ hs1, hk⟩

theorem candStmts_mem_of_mem {V D C G S : Type} {ctx : Context V D C G S}
    {L : List (SignedStatement D C S)} {s2 : SignedStatement D C S} {p : D × C}
    (hs : s2 ∈ L) (hp : p ∈ candStmts ctx [s2]) : p ∈ candStmts ctx L := by
  unfold candStmts at *
  rcases List.mem_filterMap.mp hp with ⟨a, ha, hfa⟩
  rcases List.mem_singleton.mp ha with rfl
  exact List.mem_filterMap.mpr ⟨a, hs, hfa⟩

theorem kind_record_source {V D C G S : Type} [DecidableEq V] [DecidableEq D]
    {ctx : Context V D C G S} {s2 : SignedStatement D C S} {w : V} {d : D} {k : Nat}
    (hk : validityKind ctx s2 = some (w, d, k)) :
    (∃ c, (d, c) ∈ candStmts ctx [s2]) ∨ voteDigest s2.statement = some d := by
  unfold validityKind at hk
  cases hsig : ctx.statement_signer s2 with
  | none =>
    simp [hsig] at hk
  | some v =>
    cases hst : s2.statement with
    | Candidate c =>
      simp only [hsig, hst] at hk
      by_cases hmem : ctx.is_member_of v (ctx.candidate_group c) = true
      · rw [if_pos hmem] at hk
        simp only [Option.some.injEq, Prod.mk.injEq] at hk
        refine Or.inl ⟨c, ?_⟩
        unfold candStmts
        simp [hst, hsig, hmem, hk.2.1]
      · rw [if_neg hmem] at hk
        exact Option.noConfusion hk
    | Valid d0 =>
      simp only [hsig, hst, Option.some.injEq, Prod.mk.injEq] at hk
      refine Or.inr ?_
      rw [hk.2.1]
      rfl
    | Invalid d0 =>
      simp only [hsig, hst, Option.some.injEq, Prod.mk.injEq] at hk
      refine Or.inr ?_
      rw [hk.2.1]
      rfl
    | Available d0 =>
      simp [hsig, hst] at hk

theorem kind0_candStmt {V D C G S : Type} [DecidableEq V] [DecidableEq D]
    {ctx : Context V D C G S} {s2 : SignedStatement D C S} {w : V} {d : D}
    (hk : validityKind ctx s2 = some (w, d, 0)) :
    ∃ c, (d, c) ∈ candStmts ctx [s2] := by
  unfold validityKind at hk
  cases hsig : ctx.statement_signer s2 with
  | none =>
    simp [hsig] at hk
  | some v =>
    cases hst : s2.statement with
    | Candidate c =>
      simp only [hsig, hst] at hk
      by_cases hmem : ctx.is_member_of v (ctx.candidate_group c) = true
      · rw [if_pos hmem] at hk
        simp only [Option.some.injEq, Prod.mk.injEq] at hk
        refine ⟨c, ?_⟩
        unfold candStmts
        simp [hst, hsig, hmem, hk.2.1]
      · rw [if_neg hmem] at hk
        exact Option.noConfusion hk
    | Valid d0 =>
      simp [hsig, hst] at hk
    | Invalid d0 =>
      simp [hsig, hst] at hk
    | Available d0 =>
      simp [hsig, hst] at hk

theorem no_votes_absent {V D C G S : Type} [DecidableEq V] [DecidableEq D] [DecidableEq S]
    {ctx : Context V D C G S} {L : List (SignedStatement D C S)} {t : Table V D C G S}
    (hm : ImportModels ctx L t) (hvc : VotesCovered ctx L) {d : D}
    (habs : lookupA t.candidate_votes d = none) :
    (∀ g w, ¬ castsVoter ctx L g d w) ∧ (∀ (g : G) w, ¬ castsAvail ctx L g d w) := by
  have hno : ¬ ∃ p ∈ candStmts ctx L, p.1 = d := by
    intro h
    obtain ⟨cd, hcd⟩ := (hm.keys_iff d).mpr h
    rw [habs] at hcd
    exact Option.noConfusion hcd
  constructor
  · intro g w hc
    obtain ⟨s2, hs2, k, hk, _⟩ := hc
    rcases kind_record_source hk with ⟨c, hcmem⟩ | hvd
    · exact hno ⟨(d, c), candStmts_mem_of_mem hs2 hcmem, rfl⟩
    · exact hno (hvc s2 hs2 d hvd)
  · intro g w hc
    obtain ⟨hst, _, _⟩ := hc.choose_spec.2
    exact hno (hvc hc.choose hc.choose_spec.1 d (by rw [hst]; rfl))

theorem import_step_models_available {V D C G S : Type} [DecidableEq V] [DecidableEq D]
    [DecidableEq S] {ctx : Context V D C G S} {L : List (SignedStatement D C S)}
    {t : Table V D C G S} {dg : D} {v : V} (s : SignedStatement D C S)
    (hst : s.statement = Statement.Available dg)
    (hsig : ctx.statement_signer s = some v)
    (hm : ImportModels ctx L t)
    (hcov : Covered ctx L s) :
    ∃ t', t.import_statement ctx s = some t' ∧ ImportModels ctx (L ++ [s]) t' := by
  have hvd : voteDigest s.statement = some dg := by rw [hst]; rfl
  have hkind : validityKind ctx s = none := by
    unfold validityKind
    rw [hsig, hst]
  have hnocand : candStmts ctx [s] = [] := candStmts_vote ctx hvd
  obtain ⟨cd, hcd⟩ : ∃ cd, lookupA t.candidate_votes dg = some cd := by
    apply (hm.keys_iff dg).mpr
    unfold Covered at hcov
    rw [hvd] at hcov
    exact hcov
  have hkeys : ∀ p ∈ candStmts ctx [s], p.1 = dg := by
    intro p hp
    rw [hnocand] at hp
    exact absurd hp (List.not_mem_nil p)
  have hother_vv : ∀ (d0 : D) (w : V) (g0 : G), d0 ≠ dg → ¬ castsVoter ctx [s] g0 d0 w := by
    intro d0 w g0 _ hc
    obtain ⟨k, hk, _⟩ := castsVoter_singleton.mp hc
    rw [hkind] at hk
    exact Option.noConfusion hk
  have hother_inval : ∀ (d0 : D) (w : V) (g0 : G), d0 ≠ dg → ¬ castsInvalid ctx [s] g0 d0 w := by
    intro d0 w g0 _ hc
    obtain ⟨hk, _⟩ := castsInvalid_singleton.mp hc
    rw [hkind] at hk
    exact Option.noConfusion hk
  have hother_av : ∀ (d0 : D) (w : V) (g0 : G), d0 ≠ dg → ¬ castsAvail ctx [s] g0 d0 w := by
    intro d0 w g0 hne hc
    obtain ⟨hs0, _, _⟩ := castsAvail_singleton.mp hc
    rw [hst] at hs0
    cases hs0
    exact hne rfl
  have hvv' : ∀ w, (∃ vote, lookupA cd.validity_votes w = some vote) ↔
      castsVoter ctx (L ++ [s]) cd.group_id dg w := by
    intro w
    rw [castsVoter_append]
    constructor
    · intro h
      exact Or.inl ((hm.vv_iff dg cd w hcd).mp h)
    · rintro (h | h)
      · exact (hm.vv_iff dg cd w hcd).mpr h
      · obtain ⟨k, hk, _⟩ := castsVoter_singleton.mp h
        rw [hkind] at hk
        exact Option.noConfusion hk
  have hinval' : ∀ w, (∃ s0, lookupA cd.validity_votes w = some (ValidityVote.Invalid s0)) ↔
      castsInvalid ctx (L ++ [s]) cd.group_id dg w := by
    intro w
    rw [castsInvalid_append]
    constructor
    · intro h
      exact Or.inl ((hm.inval_iff dg cd w hcd).mp h)
    · rintro (h | h)
      · exact (hm.inval_iff dg cd w hcd).mpr h
      · obtain ⟨hk, _⟩ := castsInvalid_singleton.mp h
        rw [hkind] at hk
        exact Option.noConfusion hk
  cases hguar : ctx.is_availability_guarantor_of v cd.group_id with
  | true =>
    have himp : t.import_statement ctx s = some { t with candidate_votes := (insertA dg
        ({ cd with availability_votes := insertA v s.signature cd.availability_votes })
        t.candidate_votes) } := by
      unfold Table.import_statement
      rw [hsig]
      simp only
      rw [hst]
      simp only
      unfold Table.availability_vote
      simp [hcd, hguar]
    refine ⟨_, himp, ?_⟩
    refine importModels_extend_at s hm (import_statement_inv hm.inv himp)
      (proposed_from_append hm s) hcd rfl rfl rfl hkeys hvv' hinval' ?_
      hother_vv hother_inval hother_av
    intro w
    rw [castsAvail_append]
    by_cases hw : w = v
    · subst hw
      constructor
      · intro _
        exact Or.inr (castsAvail_singleton.mpr ⟨hst, hsig, hguar⟩)
      · intro _
        rw [lookupA_insertA_self]
        rfl
    · rw [show lookupA (insertA v s.signature cd.availability_votes) w =
        lookupA cd.availability_votes w from lookupA_insertA_ne _ hw _]
      constructor
      · intro h
        exact Or.inl ((hm.av_iff dg cd w hcd).mp h)
      · rintro (h | h)
        · exact (hm.av_iff dg cd w hcd).mpr h
        · obtain ⟨_, hsg, _⟩ := castsAvail_singleton.mp h
          exact absurd (Option.some.inj (hsig.symm.trans hsg)).symm hw
  | false =>
    have hmodel : ImportModels ctx (L ++ [s]) t := by
      refine importModels_extend_at s hm hm.inv (proposed_from_append hm s) hcd
        (insertA_self_of_lookup hcd).symm rfl rfl hkeys hvv' hinval' ?_
        hother_vv hother_inval hother_av
      intro w
      rw [castsAvail_append]
      constructor
      · intro h
        exact Or.inl ((hm.av_iff dg cd w hcd).mp h)
      · rintro (h | h)
        · exact (hm.av_iff dg cd w hcd).mpr h
        · obtain ⟨_, hsg, hg⟩ := castsAvail_singleton.mp h
          have hwv : w = v := Option.some.inj (hsg.symm.trans hsig)
          rw [hwv, hguar] at hg
          exact Bool.noConfusion hg
    have himp : t.import_statement ctx s = some (Table.mk t.proposed
        (insertA v (Misbehavior.UnauthorizedStatement ⟨⟨Statement.Available dg, s.signature⟩⟩)
          t.detected_misbehavior) t.candidate_votes) := by
      unfold Table.import_statement
      rw [hsig]
      simp only
      rw [hst]
      simp only
      unfold Table.availability_vote
      simp [hcd, hguar]
    exact ⟨_, himp, importModels_set_misb hmodel _⟩

theorem validity_vote_occupied {V D C G S : Type} [DecidableEq V] [DecidableEq D] [DecidableEq S]
    {t : Table V D C G S} {ctx : Context V D C G S} {v : V} {d : D} {votes : CandidateData V D C G S}
    {occ : ValidityVote S} (vote : ValidityVote S)
    (hcd : lookupA t.candidate_votes d = some votes)
    (hmem : ctx.is_member_of v votes.group_id = true)
    (hocc : lookupA votes.validity_votes v = some occ) :
    ∃ out, t.validity_vote ctx v d vote = some (t, out) := by
  unfold Table.validity_vote
  simp only [hcd, hmem, Bool.not_true, Bool.false_eq_true, if_false, hocc]
  by_cases heq : occ = vote
  · rw [if_pos heq]
    exact ⟨none, rfl⟩
  · rw [if_neg heq]
    cases occ <;> cases vote <;> exact ⟨_, rfl⟩

theorem import_step_models_valid {V D C G S : Type} [DecidableEq V] [DecidableEq D]
    [DecidableEq S] {ctx : Context V D C G S} {L : List (SignedStatement D C S)}
    {t : Table V D C G S} {dg : D} {v : V} (s : SignedStatement D C S)
    (hst : s.statement = Statement.Valid dg)
    (hsig : ctx.statement_signer s = some v)
    (hm : ImportModels ctx L t)
    (hcov : Covered ctx L s) :
    ∃ t', t.import_statement ctx s = some t' ∧ ImportModels ctx (L ++ [s]) t' := by
  have hvd : voteDigest s.statement = some dg := by rw [hst]; rfl
  have hkind : validityKind ctx s = some (v, dg, 1) := by
    unfold validityKind
    rw [hsig, hst]
  have hnocand : candStmts ctx [s] = [] := candStmts_vote ctx hvd
  obtain ⟨cd, hcd⟩ : ∃ cd, lookupA t.candidate_votes dg = some cd := by
    apply (hm.keys_iff dg).mpr
    unfold Covered at hcov
    rw [hvd] at hcov
    exact hcov
  have hkeys : ∀ p ∈ candStmts ctx [s], p.1 = dg := by
    intro p hp
    rw [hnocand] at hp
    exact absurd hp (List.not_mem_nil p)
  have hsmem : s ∈ L ++ [s] := List.mem_append_right _ (List.mem_singleton.mpr rfl)
  have hother_vv : ∀ (d0 : D) (w : V) (g0 : G), d0 ≠ dg → ¬ castsVoter ctx [s] g0 d0 w := by
    intro d0 w g0 hne hc
    obtain ⟨k, hk, _⟩ := castsVoter_singleton.mp hc
    rw [hkind] at hk
    simp only [Option.some.injEq, Prod.mk.injEq] at hk
    exact hne hk.2.1.symm
  have hother_inval : ∀ (d0 : D) (w : V) (g0 : G), d0 ≠ dg → ¬ castsInvalid ctx [s] g0 d0 w := by
    intro d0 w g0 _ hc
    obtain ⟨hk, _⟩ := castsInvalid_singleton.mp hc
    rw [hkind] at hk
    simp only [Option.some.injEq, Prod.mk.injEq] at hk
    exact absurd hk.2.2 (by decide)
  have hother_av : ∀ (d0 : D) (w : V) (g0 : G), d0 ≠ dg → ¬ castsAvail ctx [s] g0 d0 w := by
    intro d0 w g0 _ hc
    obtain ⟨hs0, _, _⟩ := castsAvail_singleton.mp hc
    rw [hst] at hs0
    exact Statement.noConfusion hs0
  have hav' : ∀ w, (lookupA cd.availability_votes w).isSome = true ↔
      castsAvail ctx (L ++ [s]) cd.group_id dg w := by
    intro w
    rw [castsAvail_append]
    constructor
    · intro h
      exact Or.inl ((hm.av_iff dg cd w hcd).mp h)
    · rintro (h | h)
      · exact (hm.av_iff dg cd w hcd).mpr h
      · obtain ⟨hs0, _, _⟩ := castsAvail_singleton.mp h
        rw [hst] at hs0
        exact Statement.noConfusion hs0
  cases hmem : ctx.is_member_of v cd.group_id with
  | false =>
    have hvv' : ∀ w, (∃ vote, lookupA cd.validity_votes w = some vote) ↔
        castsVoter ctx (L ++ [s]) cd.group_id dg w := by
      intro w
      rw [castsVoter_append]
      constructor
      · intro h
        exact Or.inl ((hm.vv_iff dg cd w hcd).mp h)
      · rintro (h | h)
        · exact (hm.vv_iff dg cd w hcd).mpr h
        · obtain ⟨k, hk, hki⟩ := castsVoter_singleton.mp h
          rw [hkind] at hk
          simp only [Option.some.injEq, Prod.mk.injEq] at hk
          obtain ⟨hvw, -, hk1⟩ := hk
          have hmm := hki (by rw [← hk1]; decide)
          rw [← hvw, hmem] at hmm
          exact Bool.noConfusion hmm
    have hinval' : ∀ w, (∃ s0, lookupA cd.validity_votes w = some (ValidityVote.Invalid s0)) ↔
        castsInvalid ctx (L ++ [s]) cd.group_id dg w := by
      intro w
      rw [castsInvalid_append]
      constructor
      · intro h
        exact Or.inl ((hm.inval_iff dg cd w hcd).mp h)
      · rintro (h | h)
        · exact (hm.inval_iff dg cd w hcd).mpr h
        · obtain ⟨hk, _⟩ := castsInvalid_singleton.mp h
          rw [hkind] at hk
          simp only [Option.some.injEq, Prod.mk.injEq] at hk
          exact absurd hk.2.2 (by decide)
    have hmodel : ImportModels ctx (L ++ [s]) t :=
      importModels_extend_at s hm hm.inv (proposed_from_append hm s) hcd
        (insertA_self_of_lookup hcd).symm rfl rfl hkeys hvv' hinval' hav'
        hother_vv hother_inval hother_av
    have himp : t.import_statement ctx s = some (Table.mk t.proposed
        (insertA v (Misbehavior.UnauthorizedStatement ⟨⟨Statement.Valid dg, s.signature⟩⟩)
          t.detected_misbehavior) t.candidate_votes) := by
      unfold Table.import_statement
      rw [hsig]
      simp only
      rw [hst]
      simp only
      unfold Table.validity_vote
      simp [hcd, hmem]
    exact ⟨_, himp, importModels_set_misb hmodel _⟩
  | true =>
    cases hocc : lookupA cd.validity_votes v with
    | some occ =>
      have hvv' : ∀ w, (∃ vote, lookupA cd.validity_votes w = some vote) ↔
          castsVoter ctx (L ++ [s]) cd.group_id dg w := by
        intro w
        rw [castsVoter_append]
        constructor
        · intro h
          exact Or.inl ((hm.vv_iff dg cd w hcd).mp h)
        · rintro (h | h)
          · exact (hm.vv_iff dg cd w hcd).mpr h
          · obtain ⟨k, hk, _⟩ := castsVoter_singleton.mp h
            rw [hkind] at hk
            simp only [Option.some.injEq, Prod.mk.injEq] at hk
            rw [← hk.1]
            exact ⟨occ, hocc⟩
      have hinval' : ∀ w, (∃ s0, lookupA cd.validity_votes w = some (ValidityVote.Invalid s0)) ↔
          castsInvalid ctx (L ++ [s]) cd.group_id dg w := by
        intro w
        rw [castsInvalid_append]
        constructor
        · intro h
          exact Or.inl ((hm.inval_iff dg cd w hcd).mp h)
        · rintro (h | h)
          · exact (hm.inval_iff dg cd w hcd).mpr h
          · obtain ⟨hk, _⟩ := castsInvalid_singleton.mp h
            rw [hkind] at hk
            simp only [Option.some.injEq, Prod.mk.injEq] at hk
            exact absurd hk.2.2 (by decide)
      have hmodel : ImportModels ctx (L ++ [s]) t :=
        importModels_extend_at s hm hm.inv (proposed_from_append hm s) hcd
          (insertA_self_of_lookup hcd).symm rfl rfl hkeys hvv' hinval' hav'
          hother_vv hother_inval hother_av
      obtain ⟨out, hvres⟩ := validity_vote_occupied (ValidityVote.Valid s.signature) hcd hmem hocc
      cases out with
      | none =>
        have himp : t.import_statement ctx s = some t := by
          unfold Table.import_statement
          rw [hsig]
          simp only
          rw [hst]
          simp only
          rw [hvres]
        exact ⟨t, himp, hmodel⟩
      | some m =>
        have himp : t.import_statement ctx s = some (Table.mk t.proposed
            (insertA v m t.detected_misbehavior) t.candidate_votes) := by
          unfold Table.import_statement
          rw [hsig]
          simp only
          rw [hst]
          simp only
          rw [hvres]
        exact ⟨_, himp, importModels_set_misb hmodel _⟩
    | none =>
      have himp : t.import_statement ctx s = some { t with candidate_votes := (insertA dg
          ({ cd with validity_votes :=
              cd.validity_votes ++ [(v, ValidityVote.Valid s.signature)] })
          t.candidate_votes) } := by
        unfold Table.import_statement
        rw [hsig]
        simp only
        rw [hst]
        simp only
        unfold Table.validity_vote
        simp [hcd, hmem, hocc]
      refine ⟨_, himp, ?_⟩
      refine importModels_extend_at s hm (import_statement_inv hm.inv himp)
        (proposed_from_append hm s) hcd rfl rfl rfl hkeys ?_ ?_ hav'
        hother_vv hother_inval hother_av
      · intro w
        rw [castsVoter_append]
        rw [lookupA_append]
        by_cases hw : w = v
        · subst hw
          rw [hocc]
          simp only [Option.none_or]
          constructor
          · intro _
            exact Or.inr (castsVoter_singleton.mpr ⟨1, hkind, fun _ => hmem⟩)
          · intro _
            refine ⟨ValidityVote.Valid s.signature, ?_⟩
            simp [lookupA]
        · rw [show lookupA [(v, ValidityVote.Valid s.signature)] w = none by simp [lookupA]; exact fun h => hw h.symm]
          simp only [Option.or_none]
          constructor
          · intro h
            exact Or.inl ((hm.vv_iff dg cd w hcd).mp h)
          · rintro (h | h)
            · exact (hm.vv_iff dg cd w hcd).mpr h
            · obtain ⟨k, hk, _⟩ := castsVoter_singleton.mp h
              rw [hkind] at hk
              simp only [Option.some.injEq, Prod.mk.injEq] at hk
              exact absurd hk.1.symm hw
      · intro w
        rw [castsInvalid_append]
        rw [lookupA_append]
        by_cases hw : w = v
        · subst hw
          rw [hocc]
          simp only [Option.none_or]
          constructor
          · rintro ⟨s0, h0⟩
            rw [show lookupA [(w, ValidityVote.Valid s.signature)] w =
              some (ValidityVote.Valid s.signature) by simp [lookupA]] at h0
            exact ValidityVote.noConfusion (Option.some.inj h0)
          · rintro (h | h)
            · obtain ⟨s0, h0⟩ := (hm.inval_iff dg cd w hcd).mpr h
              rw [hocc] at h0
              exact Option.noConfusion h0
            · obtain ⟨hk, _⟩ := castsInvalid_singleton.mp h
              rw [hkind] at hk
              simp only [Option.some.injEq, Prod.mk.injEq] at hk
              exact absurd hk.2.2 (by decide)
        · rw [show lookupA [(v, ValidityVote.Valid s.signature)] w = none by simp [lookupA]; exact fun h => hw h.symm]
          simp only [Option.or_none]
          constructor
          · intro h
            exact Or.inl ((hm.inval_iff dg cd w hcd).mp h)
          · rintro (h | h)
            · exact (hm.inval_iff dg cd w hcd).mpr h
            · obtain ⟨hk, _⟩ := castsInvalid_singleton.mp h
              rw [hkind] at hk
              simp only [Option.some.injEq, Prod.mk.injEq] at hk
              exact absurd hk.2.2 (by decide)

theorem import_step_models_invalid {V D C G S : Type} [DecidableEq V] [DecidableEq D]
    [DecidableEq S] {ctx : Context V D C G S} {L : List (SignedStatement D C S)}
    {t : Table V D C G S} {dg : D} {v : V} (s : SignedStatement D C S)
    (hst : s.statement = Statement.Invalid dg)
    (hsig : ctx.statement_signer s = some v)
    (hm : ImportModels ctx L t)
    (hnc : NonConflicting ctx (L ++ [s]))
    (hcov : Covered ctx L s) :
    ∃ t', t.import_statement ctx s = some t' ∧ ImportModels ctx (L ++ [s]) t' := by
  have hvd : voteDigest s.statement = some dg := by rw [hst]; rfl
  have hkind : validityKind ctx s = some (v, dg, 2) := by
    unfold validityKind
    rw [hsig, hst]
  have hnocand : candStmts ctx [s] = [] := candStmts_vote ctx hvd
  obtain ⟨cd, hcd⟩ : ∃ cd, lookupA t.candidate_votes dg = some cd := by
    apply (hm.keys_iff dg).mpr
    unfold Covered at hcov
    rw [hvd] at hcov
    exact hcov
  have hkeys : ∀ p ∈ candStmts ctx [s], p.1 = dg := by
    intro p hp
    rw [hnocand] at hp
    exact absurd hp (List.not_mem_nil p)
  have hsmem : s ∈ L ++ [s] := List.mem_append_right _ (List.mem_singleton.mpr rfl)
  have hother_vv : ∀ (d0 : D) (w : V) (g0 : G), d0 ≠ dg → ¬ castsVoter ctx [s] g0 d0 w := by
    intro d0 w g0 hne hc
    obtain ⟨k, hk, _⟩ := castsVoter_singleton.mp hc
    rw [hkind] at hk
    simp only [Option.some.injEq, Prod.mk.injEq] at hk
    exact hne hk.2.1.symm
  have hother_inval : ∀ (d0 : D) (w : V) (g0 : G), d0 ≠ dg → ¬ castsInvalid ctx [s] g0 d0 w := by
    intro d0 w g0 hne hc
    obtain ⟨hk, _⟩ := castsInvalid_singleton.mp hc
    rw [hkind] at hk
    simp only [Option.some.injEq, Prod.mk.injEq] at hk
    exact hne hk.2.1.symm
  have hother_av : ∀ (d0 : D) (w : V) (g0 : G), d0 ≠ dg → ¬ castsAvail ctx [s] g0 d0 w := by
    intro d0 w g0 _ hc
    obtain ⟨hs0, _, _⟩ := castsAvail_singleton.mp hc
    rw [hst] at hs0
    exact Statement.noConfusion hs0
  have hav' : ∀ w, (lookupA cd.availability_votes w).isSome = true ↔
      castsAvail ctx (L ++ [s]) cd.group_id dg w := by
    intro w
    rw [castsAvail_append]
    constructor
    · intro h
      exact Or.inl ((hm.av_iff dg cd w hcd).mp h)
    · rintro (h | h)
      · exact (hm.av_iff dg cd w hcd).mpr h
      · obtain ⟨hs0, _, _⟩ := castsAvail_singleton.mp h
        rw [hst] at hs0
        exact Statement.noConfusion hs0
  cases hmem : ctx.is_member_of v cd.group_id with
  | false =>
    have hvv' : ∀ w, (∃ vote, lookupA cd.validity_votes w = some vote) ↔
        castsVoter ctx (L ++ [s]) cd.group_id dg w := by
      intro w
      rw [castsVoter_append]
      constructor
      · intro h
        exact Or.inl ((hm.vv_iff dg cd w hcd).mp h)
      · rintro (h | h)
        · exact (hm.vv_iff dg cd w hcd).mpr h
        · obtain ⟨k, hk, hki⟩ := castsVoter_singleton.mp h
          rw [hkind] at hk
          simp only [Option.some.injEq, Prod.mk.injEq] at hk
          obtain ⟨hvw, -, hk1⟩ := hk
          have hmm := hki (by rw [← hk1]; decide)
          rw [← hvw, hmem] at hmm
          exact Bool.noConfusion hmm
    have hinval' : ∀ w, (∃ s0, lookupA cd.validity_votes w = some (ValidityVote.Invalid s0)) ↔
        castsInvalid ctx (L ++ [s]) cd.group_id dg w := by
      intro w
      rw [castsInvalid_append]
      constructor
      · intro h
        exact Or.inl ((hm.inval_iff dg cd w hcd).mp h)
      · rintro (h | h)
        · exact (hm.inval_iff dg cd w hcd).mpr h
        · obtain ⟨hk, hmemw⟩ := castsInvalid_singleton.mp h
          rw [hkind] at hk
          simp only [Option.some.injEq, Prod.mk.injEq] at hk
          rw [← hk.1, hmem] at hmemw
          exact Bool.noConfusion hmemw
    have hmodel : ImportModels ctx (L ++ [s]) t :=
      importModels_extend_at s hm hm.inv (proposed_from_append hm s) hcd
        (insertA_self_of_lookup hcd).symm rfl rfl hkeys hvv' hinval' hav'
        hother_vv hother_inval hother_av
    have himp : t.import_statement ctx s = some (Table.mk t.proposed
        (insertA v (Misbehavior.UnauthorizedStatement ⟨⟨Statement.Invalid dg, s.signature⟩⟩)
          t.detected_misbehavior) t.candidate_votes) := by
      unfold Table.import_statement
      rw [hsig]
      simp only
      rw [hst]
      simp only
      unfold Table.validity_vote
      simp [hcd, hmem]
    exact ⟨_, himp, importModels_set_misb hmodel _⟩
  | true =>
    cases hocc : lookupA cd.validity_votes v with
    | some occ =>
      have hvv' : ∀ w, (∃ vote, lookupA cd.validity_votes w = some vote) ↔
          castsVoter ctx (L ++ [s]) cd.group_id dg w := by
        intro w
        rw [castsVoter_append]
        constructor
        · intro h
          exact Or.inl ((hm.vv_iff dg cd w hcd).mp h)
        · rintro (h | h)
          · exact (hm.vv_iff dg cd w hcd).mpr h
          · obtain ⟨k, hk, _⟩ := castsVoter_singleton.mp h
            rw [hkind] at hk
            simp only [Option.some.injEq, Prod.mk.injEq] at hk
            rw [← hk.1]
            exact ⟨occ, hocc⟩
      have hinval' : ∀ w, (∃ s0, lookupA cd.validity_votes w = some (ValidityVote.Invalid s0)) ↔
          castsInvalid ctx (L ++ [s]) cd.group_id dg w := by
        intro w
        rw [castsInvalid_append]
        constructor
        · intro h
          exact Or.inl ((hm.inval_iff dg cd w hcd).mp h)
        · rintro (h | h)
          · exact (hm.inval_iff dg cd w hcd).mpr h
          · obtain ⟨hk, hmemw⟩ := castsInvalid_singleton.mp h
            rw [hkind] at hk
            simp only [Option.some.injEq, Prod.mk.injEq] at hk
            obtain ⟨hvw, -, -⟩ := hk
            obtain ⟨s2, hs2, k2, hk2, -⟩ := (hm.vv_iff dg cd v hcd).mp ⟨occ, hocc⟩
            have hcomp := nonConflicting_spec hnc (List.mem_append_left _ hs2) hsmem hk2 hkind
            have hk22 : k2 = 2 := hcomp.2 rfl
            subst hk22
            have hinv2 : castsInvalid ctx L cd.group_id dg v := ⟨s2, hs2, hk2, hmem⟩
            obtain ⟨s0, h0⟩ := (hm.inval_iff dg cd v hcd).mpr hinv2
            rw [← hvw]
            exact ⟨s0, h0⟩
      have hmodel : ImportModels ctx (L ++ [s]) t :=
        importModels_extend_at s hm hm.inv (proposed_from_append hm s) hcd
          (insertA_self_of_lookup hcd).symm rfl rfl hkeys hvv' hinval' hav'
          hother_vv hother_inval hother_av
      obtain ⟨out, hvres⟩ := validity_vote_occupied (ValidityVote.Invalid s.signature) hcd hmem hocc
      cases out with
      | none =>
        have himp : t.import_statement ctx s = some t := by
          unfold Table.import_statement
          rw [hsig]
          simp only
          rw [hst]
          simp only
          rw [hvres]
        exact ⟨t, himp, hmodel⟩
      | some m =>
        have himp : t.import_statement ctx s = some (Table.mk t.proposed
            (insertA v m t.detected_misbehavior) t.candidate_votes) := by
          unfold Table.import_statement
          rw [hsig]
          simp only
          rw [hst]
          simp only
          rw [hvres]
        exact ⟨_, himp, importModels_set_misb hmodel _⟩
    | none =>
      have himp : t.import_statement ctx s = some { t with candidate_votes := (insertA dg
          ({ cd with
              validity_votes := cd.validity_votes ++ [(v, ValidityVote.Invalid s.signature)],
              indicated_bad_by := cd.indicated_bad_by ++ [v] })
          t.candidate_votes) } := by
        unfold Table.import_statement
        rw [hsig]
        simp only
        rw [hst]
        simp only
        unfold Table.validity_vote
        simp [hcd, hmem, hocc]
      refine ⟨_, himp, ?_⟩
      refine importModels_extend_at s hm (import_statement_inv hm.inv himp)
        (proposed_from_append hm s) hcd rfl rfl rfl hkeys ?_ ?_ hav'
        hother_vv hother_inval hother_av
      · intro w
        rw [castsVoter_append]
        rw [lookupA_append]
        by_cases hw : w = v
        · subst hw
          rw [hocc]
          simp only [Option.none_or]
          constructor
          · intro _
            exact Or.inr (castsVoter_singleton.mpr ⟨2, hkind, fun _ => hmem⟩)
          · intro _
            refine ⟨ValidityVote.Invalid s.signature, ?_⟩
            simp [lookupA]
        · rw [show lookupA [(v, ValidityVote.Invalid s.signature)] w = none by
            simp [lookupA]; exact fun h => hw h.symm]
          simp only [Option.or_none]
          constructor
          · intro h
            exact Or.inl ((hm.vv_iff dg cd w hcd).mp h)
          · rintro (h | h)
            · exact (hm.vv_iff dg cd w hcd).mpr h
            · obtain ⟨k, hk, _⟩ := castsVoter_singleton.mp h
              rw [hkind] at hk
              simp only [Option.some.injEq, Prod.mk.injEq] at hk
              exact absurd hk.1.symm hw
      · intro w
        rw [castsInvalid_append]
        rw [lookupA_append]
        by_cases hw : w = v
        · subst hw
          rw [hocc]
          simp only [Option.none_or]
          constructor
          · intro _
            exact Or.inr (castsInvalid_singleton.mpr ⟨hkind, hmem⟩)
          · intro _
            refine ⟨s.signature, ?_⟩
            simp [lookupA]
        · rw [show lookupA [(v, ValidityVote.Invalid s.signature)] w = none by
            simp [lookupA]; exact fun h => hw h.symm]
          simp only [Option.or_none]
          constructor
          · intro h
            exact Or.inl ((hm.inval_iff dg cd w hcd).mp h)
          · rintro (h | h)
            · exact (hm.inval_iff dg cd w hcd).mpr h
            · obtain ⟨hk, _⟩ := castsInvalid_singleton.mp h
              rw [hkind] at hk
              simp only [Option.some.injEq, Prod.mk.injEq] at hk
              exact absurd hk.1.symm hw

theorem importModels_extend_nil {V D C G S : Type} [DecidableEq V] [DecidableEq D] [DecidableEq S]
    {ctx : Context V D C G S} {L : List (SignedStatement D C S)} {t : Table V D C G S}
    (s : SignedStatement D C S) (hm : ImportModels ctx L t)
    (hnocand : candStmts ctx [s] = [])
    (hkind : validityKind ctx s = none)
    (hnoav : ∀ (g : G) (d : D) (w : V), ¬ castsAvail ctx [s] g d w) :
    ImportModels ctx (L ++ [s]) t := by
  have hcs : candStmts ctx (L ++ [s]) = candStmts ctx L := by
    rw [candStmts_append, hnocand, List.append_nil]
  constructor
  · exact hm.inv
  · intro d
    rw [hcs]
    exact hm.keys_iff d
  · intro d cd h
    rw [hcs]
    exact hm.cand_from d cd h
  · exact proposed_from_append hm s
  · intro d cd w h
    rw [castsVoter_append]
    constructor
    · intro hx
      exact Or.inl ((hm.vv_iff d cd w h).mp hx)
    · rintro (hx | hx)
      · exact (hm.vv_iff d cd w h).mpr hx
      · obtain ⟨k, hk, -⟩ := castsVoter_singleton.mp hx
        rw [hkind] at hk
        exact Option.noConfusion hk
  · intro d cd w h
    rw [castsInvalid_append]
    constructor
    · intro hx
      exact Or.inl ((hm.inval_iff d cd w h).mp hx)
    · rintro (hx | hx)
      · exact (hm.inval_iff d cd w h).mpr hx
      · obtain ⟨hk, -⟩ := castsInvalid_singleton.mp hx
        rw [hkind] at hk
        exact Option.noConfusion hk
  · intro d cd w h
    rw [castsAvail_append]
    constructor
    · intro hx
      exact Or.inl ((hm.av_iff d cd w h).mp hx)
    · rintro (hx | hx)
      · exact (hm.av_iff d cd w h).mpr hx
      · exact absurd hx (hnoav _ _ _)

theorem importModels_new_record {V D C G S : Type} [DecidableEq V] [DecidableEq D] [DecidableEq S]
    {ctx : Context V D C G S} {L : List (SignedStatement D C S)} {t t' : Table V D C G S}
    (s : SignedStatement D C S) {c : C} {v : V}
    (hm : ImportModels ctx L t) (hvc : VotesCovered ctx L)
    (hst : s.statement = Statement.Candidate c)
    (hsig : ctx.statement_signer s = some v)
    (hmem : ctx.is_member_of v (ctx.candidate_group c) = true)
    (hcv : lookupA t.candidate_votes (ctx.candidate_digest c) = none)
    (hinv' : TableInv ctx t')
    (hprop' : ∀ w ds, lookupA t'.proposed w = some ds →
      ∃ s1 ∈ L ++ [s], validityKind ctx s1 = some (w, ds.1, 0))
    (hcv' : ∀ d0, lookupA t'.candidate_votes d0 =
      if d0 = ctx.candidate_digest c then
        some ⟨ctx.candidate_group c, c, [(v, ValidityVote.Issued s.signature)], [], []⟩
      else lookupA t.candidate_votes d0) :
    ImportModels ctx (L ++ [s]) t' := by
  have hkind : validityKind ctx s = some (v, ctx.candidate_digest c, 0) := by
    unfold validityKind
    rw [hsig, hst]
    simp [hmem]
  have hcands : candStmts ctx [s] = [(ctx.candidate_digest c, c)] := by
    unfold candStmts
    simp [hst, hsig, hmem]
  have hcs : candStmts ctx (L ++ [s]) = candStmts ctx L ++ [(ctx.candidate_digest c, c)] := by
    rw [candStmts_append, hcands]
  have habs := no_votes_absent hm hvc hcv
  have hnoinval : ∀ (g : G) w, ¬ castsInvalid ctx L g (ctx.candidate_digest c) w := by
    intro g w hx
    obtain ⟨s2, hs2, hk2, hm2⟩ := hx
    exact habs.1 g w ⟨s2, hs2, 2, hk2, fun _ => hm2⟩
  constructor
  · exact hinv'
  · intro d0
    rw [hcv' d0, hcs]
    by_cases hd : d0 = ctx.candidate_digest c
    · rw [if_pos hd]
      constructor
      · intro _
        exact ⟨(ctx.candidate_digest c, c),
          List.mem_append_right _ (List.mem_singleton.mpr rfl), hd.symm⟩
      · intro _
        exact ⟨_, rfl⟩
    · rw [if_neg hd]
      constructor
      · intro h
        obtain ⟨p, hp, hp1⟩ := (hm.keys_iff d0).mp h
        exact ⟨p, List.mem_append_left _ hp, hp1⟩
      · rintro ⟨p, hp, hp1⟩
        rcases List.mem_append.mp hp with hp2 | hp2
        · exact (hm.keys_iff d0).mpr ⟨p, hp2, hp1⟩
        · rcases List.mem_singleton.mp hp2 with rfl
          exact absurd hp1.symm hd
  · intro d0 cd0 h
    rw [hcv' d0] at h
    rw [hcs]
    by_cases hd : d0 = ctx.candidate_digest c
    · rw [if_pos hd] at h
      cases h
      rw [hd]
      exact List.mem_append_right _ (List.mem_singleton.mpr rfl)
    · rw [if_neg hd] at h
      exact List.mem_append_left _ (hm.cand_from d0 cd0 h)
  · exact hprop'
  · intro d0 cd0 w h
    rw [hcv' d0] at h
    by_cases hd : d0 = ctx.candidate_digest c
    · subst hd
      rw [if_pos rfl] at h
      cases h
      rw [castsVoter_append]
      by_cases hw : w = v
      · subst hw
        constructor
        · intro _
          exact Or.inr (castsVoter_singleton.mpr ⟨0, hkind, fun h0 => absurd rfl h0⟩)
        · intro _
          refine ⟨ValidityVote.Issued s.signature, ?_⟩
          simp [lookupA]
      · constructor
        · rintro ⟨vote, hv0⟩
          rw [show lookupA [(v, ValidityVote.Issued s.signature)] w = none by
            simp [lookupA]; exact fun hx => hw hx.symm] at hv0
          exact Option.noConfusion hv0
        · rintro (hx | hx)
          · exact absurd hx (habs.1 _ w)
          · obtain ⟨k, hk, -⟩ := castsVoter_singleton.mp hx
            rw [hkind] at hk
            simp only [Option.some.injEq, Prod.mk.injEq] at hk
            exact absurd hk.1.symm hw
    · rw [if_neg hd] at h
      rw [castsVoter_append]
      constructor
      · intro hx
        exact Or.inl ((hm.vv_iff d0 cd0 w h).mp hx)
      · rintro (hx | hx)
        · exact (hm.vv_iff d0 cd0 w h).mpr hx
        · obtain ⟨k, hk, -⟩ := castsVoter_singleton.mp hx
          rw [hkind] at hk
          simp only [Option.some.injEq, Prod.mk.injEq] at hk
          exact absurd hk.2.1.symm hd
  · intro d0 cd0 w h
    rw [hcv' d0] at h
    by_cases hd : d0 = ctx.candidate_digest c
    · subst hd
      rw [if_pos rfl] at h
      cases h
      rw [castsInvalid_append]
      constructor
      · rintro ⟨s0, hv0⟩
        by_cases hw : w = v
        · subst hw
          rw [show lookupA [(w, ValidityVote.Issued s.signature)] w =
            some (ValidityVote.Issued s.signature) by simp [lookupA]] at hv0
          exact ValidityVote.noConfusion (Option.some.inj hv0)
        · rw [show lookupA [(v, ValidityVote.Issued s.signature)] w = none by
            simp [lookupA]; exact fun hx => hw hx.symm] at hv0
          exact Option.noConfusion hv0
      · rintro (hx | hx)
        · exact absurd hx (hnoinval _ w)
        · obtain ⟨hk, -⟩ := castsInvalid_singleton.mp hx
          rw [hkind] at hk
          simp only [Option.some.injEq, Prod.mk.injEq] at hk
          exact absurd hk.2.2 (by decide)
    · rw [if_neg hd] at h
      rw [castsInvalid_append]
      constructor
      · intro hx
        exact Or.inl ((hm.inval_iff d0 cd0 w h).mp hx)
      · rintro (hx | hx)
        · exact (hm.inval_iff d0 cd0 w h).mpr hx
        · obtain ⟨hk, -⟩ := castsInvalid_singleton.mp hx
          rw [hkind] at hk
          simp only [Option.some.injEq, Prod.mk.injEq] at hk
          exact absurd hk.2.1.symm hd
  · intro d0 cd0 w h
    rw [hcv' d0] at h
    by_cases hd : d0 = ctx.candidate_digest c
    · subst hd
      rw [if_pos rfl] at h
      cases h
      rw [castsAvail_append]
      constructor
      · intro hv0
        rw [show lookupA ([] : List (V × S)) w = none from rfl] at hv0
        exact Bool.noConfusion hv0
      · rintro (hx | hx)
        · exact absurd hx (habs.2 _ w)
        · obtain ⟨hs0, -, -⟩ := castsAvail_singleton.mp hx
          rw [hst] at hs0
          exact Statement.noConfusion hs0
    · rw [if_neg hd] at h
      rw [castsAvail_append]
      constructor
      · intro hx
        exact Or.inl ((hm.av_iff d0 cd0 w h).mp hx)
      · rintro (hx | hx)
        · exact (hm.av_iff d0 cd0 w h).mpr hx
        · obtain ⟨hs0, -, -⟩ := castsAvail_singleton.mp hx
          rw [hst] at hs0
          exact Statement.noConfusion hs0

theorem import_step_models_candidate {V D C G S : Type} [DecidableEq V] [DecidableEq D]
    [DecidableEq S] {ctx : Context V D C G S} {L : List (SignedStatement D C S)}
    {t : Table V D C G S} {c : C} {v : V} (s : SignedStatement D C S)
    (hst : s.statement = Statement.Candidate c)
    (hsig : ctx.statement_signer s = some v)
    (hm : ImportModels ctx L t)
    (hvc : VotesCovered ctx L)
    (hnc : NonConflicting ctx (L ++ [s]))
    (hdd : DigestDet ctx (L ++ [s])) :
    ∃ t', t.import_statement ctx s = some t' ∧ ImportModels ctx (L ++ [s]) t' := by
  have hsmem : s ∈ L ++ [s] := List.mem_append_right _ (List.mem_singleton.mpr rfl)
  cases hmem : ctx.is_member_of v (ctx.candidate_group c) with
  | false =>
    have hkind : validityKind ctx s = none := by
      unfold validityKind
      rw [hsig, hst]
      simp [hmem]
    have hnocand : candStmts ctx [s] = [] := by
      unfold candStmts
      simp [hst, hsig, hmem]
    have hnoav : ∀ (g : G) (d : D) (w : V), ¬ castsAvail ctx [s] g d w := by
      intro g d w hx
      obtain ⟨hs0, -, -⟩ := castsAvail_singleton.mp hx
      rw [hst] at hs0
      exact Statement.noConfusion hs0
    have hmodel := importModels_extend_nil s hm hnocand hkind hnoav
    have himp : t.import_statement ctx s = some (Table.mk t.proposed
        (insertA v (Misbehavior.UnauthorizedStatement ⟨⟨Statement.Candidate c, s.signature⟩⟩)
          t.detected_misbehavior) t.candidate_votes) := by
      unfold Table.import_statement
      rw [hsig]
      simp only
      rw [hst]
      simp only
      unfold Table.import_candidate
      simp [hmem]
    exact ⟨_, himp, importModels_set_misb hmodel _⟩
  | true =>
    have hkind : validityKind ctx s = some (v, ctx.candidate_digest c, 0) := by
      unfold validityKind
      rw [hsig, hst]
      simp [hmem]
    have hcands : candStmts ctx [s] = [(ctx.candidate_digest c, c)] := by
      unfold candStmts
      simp [hst, hsig, hmem]
    have hkeys : ∀ p ∈ candStmts ctx [s], p.1 = ctx.candidate_digest c := by
      intro p hp
      rw [hcands] at hp
      rcases List.mem_singleton.mp hp with rfl
      rfl
    have hscand : (ctx.candidate_digest c, c) ∈ candStmts ctx (L ++ [s]) := by
      rw [candStmts_append, hcands]
      exact List.mem_append_right _ (List.mem_singleton.mpr rfl)
    have hother_vv : ∀ (d0 : D) (w : V) (g0 : G), d0 ≠ ctx.candidate_digest c →
        ¬ castsVoter ctx [s] g0 d0 w := by
      intro d0 w g0 hne hc
      obtain ⟨k, hk, -⟩ := castsVoter_singleton.mp hc
      rw [hkind] at hk
      simp only [Option.some.injEq, Prod.mk.injEq] at hk
      exact hne hk.2.1.symm
    have hother_inval : ∀ (d0 : D) (w : V) (g0 : G), d0 ≠ ctx.candidate_digest c →
        ¬ castsInvalid ctx [s] g0 d0 w := by
      intro d0 w g0 _ hc
      obtain ⟨hk, -⟩ := castsInvalid_singleton.mp hc
      rw [hkind] at hk
      simp only [Option.some.injEq, Prod.mk.injEq] at hk
      exact absurd hk.2.2 (by decide)
    have hother_av : ∀ (d0 : D) (w : V) (g0 : G), d0 ≠ ctx.candidate_digest c →
        ¬ castsAvail ctx [s] g0 d0 w := by
      intro d0 w g0 _ hc
      obtain ⟨hs0, -, -⟩ := castsAvail_singleton.mp hc
      rw [hst] at hs0
      exact Statement.noConfusion hs0
    have hrec : ∀ cd, lookupA t.candidate_votes (ctx.candidate_digest c) = some cd →
        cd.candidate = c ∧ ctx.is_member_of v cd.group_id = true := by
      intro cd hcd
      have h1 : (ctx.candidate_digest c, cd.candidate) ∈ candStmts ctx (L ++ [s]) := by
        rw [candStmts_append]
        exact List.mem_append_left _ (hm.cand_from _ cd hcd)
      have hceq : cd.candidate = c := hdd _ h1 _ hscand rfl
      refine ⟨hceq, ?_⟩
      have hg := hm.inv.record_group _ cd hcd
      rw [hg, hceq]
      exact hmem
    have hvv_occ : ∀ cd, lookupA t.candidate_votes (ctx.candidate_digest c) = some cd →
        ∀ occ, lookupA cd.validity_votes v = some occ →
        ∀ w, (∃ vote, lookupA cd.validity_votes w = some vote) ↔
          castsVoter ctx (L ++ [s]) cd.group_id (ctx.candidate_digest c) w := by
      intro cd hcd occ hocc w
      rw [castsVoter_append]
      constructor
      · intro h
        exact Or.inl ((hm.vv_iff _ cd w hcd).mp h)
      · rintro (h | h)
        · exact (hm.vv_iff _ cd w hcd).mpr h
        · obtain ⟨k, hk, -⟩ := castsVoter_singleton.mp h
          rw [hkind] at hk
          simp only [Option.some.injEq, Prod.mk.injEq] at hk
          rw [← hk.1]
          exact ⟨occ, hocc⟩
    have hinval_id : ∀ cd, lookupA t.candidate_votes (ctx.candidate_digest c) = some cd →
        ∀ w, (∃ s0, lookupA cd.validity_votes w = some (ValidityVote.Invalid s0)) ↔
          castsInvalid ctx (L ++ [s]) cd.group_id (ctx.candidate_digest c) w := by
      intro cd hcd w
      rw [castsInvalid_append]
      constructor
      · intro h
        exact Or.inl ((hm.inval_iff _ cd w hcd).mp h)
      · rintro (h | h)
        · exact (hm.inval_iff _ cd w hcd).mpr h
        · obtain ⟨hk, -⟩ := castsInvalid_singleton.mp h
          rw [hkind] at hk
          simp only [Option.some.injEq, Prod.mk.injEq] at hk
          exact absurd hk.2.2 (by decide)
    have hav_id : ∀ cd, lookupA t.candidate_votes (ctx.candidate_digest c) = some cd →
        ∀ w, (lookupA cd.availability_votes w).isSome = true ↔
          castsAvail ctx (L ++ [s]) cd.group_id (ctx.candidate_digest c) w := by
      intro cd hcd w
      rw [castsAvail_append]
      constructor
      · intro h
        exact Or.inl ((hm.av_iff _ cd w hcd).mp h)
      · rintro (h | h)
        · exact (hm.av_iff _ cd w hcd).mpr h
        · obtain ⟨hs0, -, -⟩ := castsAvail_singleton.mp h
          rw [hst] at hs0
          exact Statement.noConfusion hs0
    have hvv_store : ∀ cd, lookupA t.candidate_votes (ctx.candidate_digest c) = some cd →
        lookupA cd.validity_votes v = none →
        ∀ w, (∃ vote, lookupA (cd.validity_votes ++ [(v, ValidityVote.Issued s.signature)]) w =
            some vote) ↔
          castsVoter ctx (L ++ [s]) cd.group_id (ctx.candidate_digest c) w := by
      intro cd hcd hocc w
      rw [castsVoter_append, lookupA_append]
      by_cases hw : w = v
      · subst hw
        rw [hocc]
        simp only [Option.none_or]
        constructor
        · intro _
          exact Or.inr (castsVoter_singleton.mpr ⟨0, hkind, fun h0 => absurd rfl h0⟩)
        · intro _
          refine ⟨ValidityVote.Issued s.signature, ?_⟩
          simp [lookupA]
      · rw [show lookupA [(v, ValidityVote.Issued s.signature)] w = none by
          simp [lookupA]; exact fun h => hw h.symm]
        simp only [Option.or_none]
        constructor
        · intro h
          exact Or.inl ((hm.vv_iff _ cd w hcd).mp h)
        · rintro (h | h)
          · exact (hm.vv_iff _ cd w hcd).mpr h
          · obtain ⟨k, hk, -⟩ := castsVoter_singleton.mp h
            rw [hkind] at hk
            simp only [Option.some.injEq, Prod.mk.injEq] at hk
            exact absurd hk.1.symm hw
    have hinval_store : ∀ cd, lookupA t.candidate_votes (ctx.candidate_digest c) = some cd →
        lookupA cd.validity_votes v = none →
        ∀ w, (∃ s0, lookupA (cd.validity_votes ++ [(v, ValidityVote.Issued s.signature)]) w =
            some (ValidityVote.Invalid s0)) ↔
          castsInvalid ctx (L ++ [s]) cd.group_id (ctx.candidate_digest c) w := by
      intro cd hcd hocc w
      rw [castsInvalid_append, lookupA_append]
      by_cases hw : w = v
      · subst hw
        rw [hocc]
        simp only [Option.none_or]
        constructor
        · rintro ⟨s0, h0⟩
          rw [show lookupA [(w, ValidityVote.Issued s.signature)] w =
            some (ValidityVote.Issued s.signature) by simp [lookupA]] at h0
          exact ValidityVote.noConfusion (Option.some.inj h0)
        · rintro (h | h)
          · obtain ⟨s0, h0⟩ := (hm.inval_iff _ cd w hcd).mpr h
            rw [hocc] at h0
            exact Option.noConfusion h0
          · obtain ⟨hk, -⟩ := castsInvalid_singleton.mp h
            rw [hkind] at hk
            simp only [Option.some.injEq, Prod.mk.injEq] at hk
            exact absurd hk.2.2 (by decide)
      · rw [show lookupA [(v, ValidityVote.Issued s.signature)] w = none by
          simp [lookupA]; exact fun h => hw h.symm]
        simp only [Option.or_none]
        constructor
        · intro h
          exact Or.inl ((hm.inval_iff _ cd w hcd).mp h)
        · rintro (h | h)
          · exact (hm.inval_iff _ cd w hcd).mpr h
          · obtain ⟨hk, -⟩ := castsInvalid_singleton.mp h
            rw [hkind] at hk
            simp only [Option.some.injEq, Prod.mk.injEq] at hk
            exact absurd hk.1.symm hw
    cases hprop : lookupA t.proposed v with
    | some old =>
      obtain ⟨s1, hs1, hk1⟩ := hm.proposed_from v old hprop
      have hd_eq : old.1 = ctx.candidate_digest c :=
        (nonConflicting_spec hnc (List.mem_append_left _ hs1) hsmem hk1 hkind).1 ⟨rfl, rfl⟩
      obtain ⟨c1, hc1⟩ := kind0_candStmt hk1
      obtain ⟨cd, hcd⟩ : ∃ cd, lookupA t.candidate_votes (ctx.candidate_digest c) = some cd := by
        apply (hm.keys_iff _).mpr
        exact ⟨(old.1, c1), candStmts_mem_of_mem hs1 hc1, hd_eq⟩
      obtain ⟨hceq, hgmem⟩ := hrec cd hcd
      cases hocc : lookupA cd.validity_votes v with
      | some occ =>
        obtain ⟨out, hvres⟩ :=
          validity_vote_occupied (ValidityVote.Issued s.signature) hcd hgmem hocc
        have hmodel : ImportModels ctx (L ++ [s]) t :=
          importModels_extend_at s hm hm.inv (proposed_from_append hm s) hcd
            (insertA_self_of_lookup hcd).symm rfl rfl hkeys (hvv_occ cd hcd occ hocc)
            (hinval_id cd hcd) (hav_id cd hcd) hother_vv hother_inval hother_av
        cases out with
        | none =>
          have himp : t.import_statement ctx s = some t := by
            unfold Table.import_statement
            rw [hsig]
            simp only
            rw [hst]
            simp only
            unfold Table.import_candidate
            simp [hmem, hprop, hd_eq, hvres]
          exact ⟨t, himp, hmodel⟩
        | some m =>
          have himp : t.import_statement ctx s = some (Table.mk t.proposed
              (insertA v m t.detected_misbehavior) t.candidate_votes) := by
            unfold Table.import_statement
            rw [hsig]
            simp only
            rw [hst]
            simp only
            unfold Table.import_candidate
            simp [hmem, hprop, hd_eq, hvres]
          exact ⟨_, himp, importModels_set_misb hmodel _⟩
      | none =>
        have himp : t.import_statement ctx s = some { t with candidate_votes := (insertA
            (ctx.candidate_digest c)
            ({ cd with validity_votes :=
                cd.validity_votes ++ [(v, ValidityVote.Issued s.signature)] })
            t.candidate_votes) } := by
          unfold Table.import_statement
          rw [hsig]
          simp only
          rw [hst]
          simp only
          unfold Table.import_candidate
          simp only [hmem, hprop, hd_eq]
          unfold Table.validity_vote
          simp [hcd, hgmem, hocc]
        refine ⟨_, himp, ?_⟩
        exact importModels_extend_at s hm (import_statement_inv hm.inv himp)
          (proposed_from_append hm s) hcd rfl rfl rfl hkeys (hvv_store cd hcd hocc)
          (hinval_store cd hcd hocc) (hav_id cd hcd) hother_vv hother_inval hother_av
    | none =>
      have hpropnew : ∀ w ds,
          lookupA (insertA v (ctx.candidate_digest c, s.signature) t.proposed) w = some ds →
          ∃ s1 ∈ L ++ [s], validityKind ctx s1 = some (w, ds.1, 0) := by
        intro w ds h
        by_cases hw : w = v
        · subst hw
          rw [lookupA_insertA_self] at h
          cases Option.some.inj h
          exact ⟨s, hsmem, hkind⟩
        · rw [lookupA_insertA_ne _ hw _] at h
          obtain ⟨s1, hs1, hk1⟩ := hm.proposed_from w ds h
          exact ⟨s1, List.mem_append_left _ hs1, hk1⟩
      cases hcv : lookupA t.candidate_votes (ctx.candidate_digest c) with
      | some cd =>
        have ht1cv : insertIfAbsentA (ctx.candidate_digest c)
            (CandidateData.mk (ctx.candidate_group c) c [] [] []) t.candidate_votes =
            t.candidate_votes := by
          unfold insertIfAbsentA
          simp [hcv]
        obtain ⟨hceq, hgmem⟩ := hrec cd hcv
        cases hocc : lookupA cd.validity_votes v with
        | some occ =>
          obtain ⟨out, hvres⟩ := validity_vote_occupied (t := Table.mk
              (insertA v (ctx.candidate_digest c, s.signature) t.proposed)
              t.detected_misbehavior t.candidate_votes)
            (ValidityVote.Issued s.signature) hcv hgmem hocc
          cases out with
          | none =>
            have himp : t.import_statement ctx s = some (Table.mk
                (insertA v (ctx.candidate_digest c, s.signature) t.proposed)
                t.detected_misbehavior t.candidate_votes) := by
              unfold Table.import_statement
              rw [hsig]
              simp only
              rw [hst]
              simp only
              unfold Table.import_candidate
              simp [hmem, hprop, ht1cv, hvres]
            refine ⟨_, himp, ?_⟩
            exact importModels_extend_at s hm (import_statement_inv hm.inv himp)
              hpropnew hcv (insertA_self_of_lookup hcv).symm rfl rfl hkeys
              (hvv_occ cd hcv occ hocc) (hinval_id cd hcv) (hav_id cd hcv)
              hother_vv hother_inval hother_av
          | some m =>
            have himp : t.import_statement ctx s = some (Table.mk
                (insertA v (ctx.candidate_digest c, s.signature) t.proposed)
                (insertA v m t.detected_misbehavior) t.candidate_votes) := by
              unfold Table.import_statement
              rw [hsig]
              simp only
              rw [hst]
              simp only
              unfold Table.import_candidate
              simp [hmem, hprop, ht1cv, hvres]
            refine ⟨_, himp, ?_⟩
            exact importModels_extend_at s hm (import_statement_inv hm.inv himp)
              hpropnew hcv (insertA_self_of_lookup hcv).symm rfl rfl hkeys
              (hvv_occ cd hcv occ hocc) (hinval_id cd hcv) (hav_id cd hcv)
              hother_vv hother_inval hother_av
        | none =>
          have himp : t.import_statement ctx s = some (Table.mk
              (insertA v (ctx.candidate_digest c, s.signature) t.proposed)
              t.detected_misbehavior
              (insertA (ctx.candidate_digest c)
                ({ cd with validity_votes :=
                    cd.validity_votes ++ [(v, ValidityVote.Issued s.signature)] })
                t.candidate_votes)) := by
            unfold Table.import_statement
            rw [hsig]
            simp only
            rw [hst]
            simp only
            unfold Table.import_candidate
            simp only [hmem, hprop, Bool.not_true, Bool.false_eq_true, if_false, ht1cv]
            unfold Table.validity_vote
            simp [hcv, hgmem, hocc]
          refine ⟨_, himp, ?_⟩
          exact importModels_extend_at s hm (import_statement_inv hm.inv himp)
            hpropnew hcv rfl rfl rfl hkeys (hvv_store cd hcv hocc)
            (hinval_store cd hcv hocc) (hav_id cd hcv) hother_vv hother_inval hother_av
      | none =>
        have ht1cv : insertIfAbsentA (ctx.candidate_digest c)
            (CandidateData.mk (ctx.candidate_group c) c [] [] []) t.candidate_votes =
            t.candidate_votes ++
              [(ctx.candidate_digest c, CandidateData.mk (ctx.candidate_group c) c [] [] [])] := by
          unfold insertIfAbsentA
          simp [hcv]
        have hl1 : lookupA (t.candidate_votes ++
            [(ctx.candidate_digest c, CandidateData.mk (ctx.candidate_group c) c [] [] [])])
            (ctx.candidate_digest c) = some (CandidateData.mk (ctx.candidate_group c) c [] [] []) := by
          rw [lookupA_append, hcv]
          simp [lookupA]
        have himp : t.import_statement ctx s = some (Table.mk
            (insertA v (ctx.candidate_digest c, s.signature) t.proposed)
            t.detected_misbehavior
            (insertA (ctx.candidate_digest c)
              (CandidateData.mk (ctx.candidate_group c) c
                [(v, ValidityVote.Issued s.signature)] [] [])
              (t.candidate_votes ++
                [(ctx.candidate_digest c, CandidateData.mk (ctx.candidate_group c) c [] [] [])]))) := by
          unfold Table.import_statement
          rw [hsig]
          simp only
          rw [hst]
          simp only
          unfold Table.import_candidate
          simp only [hmem, hprop, Bool.not_true, Bool.false_eq_true, if_false, ht1cv]
          unfold Table.validity_vote
          simp [hl1, hmem, lookupA]
        refine ⟨_, himp, ?_⟩
        refine importModels_new_record s hm hvc hst hsig hmem hcv
          (import_statement_inv hm.inv himp) hpropnew ?_
        intro d0
        by_cases hd : d0 = ctx.candidate_digest c
        · subst hd
          rw [if_pos rfl]
          exact lookupA_insertA_self _ _ _
        · rw [if_neg hd]
          rw [show (Table.mk
              (insertA v (ctx.candidate_digest c, s.signature) t.proposed)
              t.detected_misbehavior
              (insertA (ctx.candidate_digest c)
                (CandidateData.mk (ctx.candidate_group c) c
                  [(v, ValidityVote.Issued s.signature)] [] [])
                (t.candidate_votes ++
                  [(ctx.candidate_digest c,
                    CandidateData.mk (ctx.candidate_group c) c [] [] [])]))).candidate_votes =
            insertA (ctx.candidate_digest c)
              (CandidateData.mk (ctx.candidate_group c) c
                [(v, ValidityVote.Issued s.signature)] [] [])
              (t.candidate_votes ++
                [(ctx.candidate_digest c,
                  CandidateData.mk (ctx.candidate_group c) c [] [] [])]) from rfl]
          rw [lookupA_insertA_ne _ hd _, lookupA_append]
          rw [show lookupA [(ctx.candidate_digest c,
              CandidateData.mk (ctx.candidate_group c) c [] [] [])] d0 = none by
            simp [lookupA]; exact fun h => hd h.symm]
          exact Option.or_none

theorem import_step_models {V D C G S : Type} [DecidableEq V] [DecidableEq D] [DecidableEq S]
    {ctx : Context V D C G S} {L : List (SignedStatement D C S)} {t : Table V D C G S}
    (s : SignedStatement D C S) (hm : ImportModels ctx L t) (hvc : VotesCovered ctx L)
    (hnc : NonConflicting ctx (L ++ [s])) (hdd : DigestDet ctx (L ++ [s]))
    (hcov : Covered ctx L s) :
    ∃ t', t.import_statement ctx s = some t' ∧ ImportModels ctx (L ++ [s]) t' := by
  cases hsig : ctx.statement_signer s with
  | none =>
    have hkind : validityKind ctx s = none := by
      unfold validityKind
      rw [hsig]
    have hnocand : candStmts ctx [s] = [] := by
      unfold candStmts
      cases hst : s.statement <;> simp [List.filterMap, hst, hsig]
    have hnoav : ∀ (g : G) (d : D) (w : V), ¬ castsAvail ctx [s] g d w := by
      intro g d w hx
      obtain ⟨-, hsg, -⟩ := castsAvail_singleton.mp hx
      rw [hsig] at hsg
      exact Option.noConfusion hsg
    have himp : t.import_statement ctx s = some t := by
      unfold Table.import_statement
      rw [hsig]
    exact ⟨t, himp, importModels_extend_nil s hm hnocand hkind hnoav⟩
  | some v =>
    cases hst : s.statement with
    | Candidate c => exact import_step_models_candidate s hst hsig hm hvc hnc hdd
    | Valid d => exact import_step_models_valid s hst hsig hm hcov
    | Invalid d => exact import_step_models_invalid s hst hsig hm hnc hcov
    | Available d => exact import_step_models_available s hst hsig hm hcov

theorem nonConflicting_left {V D C G S : Type} [DecidableEq V] [DecidableEq D]
    {ctx : Context V D C G S} {L1 L2 : List (SignedStatement D C S)}
    (hnc : NonConflicting ctx (L1 ++ L2)) : NonConflicting ctx L1 :=
  fun s1 h1 s2 h2 => hnc s1 (List.mem_append_left _ h1) s2 (List.mem_append_left _ h2)

theorem digestDet_left {V D C G S : Type} [DecidableEq D]
    {ctx : Context V D C G S} {L1 L2 : List (SignedStatement D C S)}
    (hdd : DigestDet ctx (L1 ++ L2)) : DigestDet ctx L1 := by
  intro p hp q hq
  exact hdd p (by rw [candStmts_append]; exact List.mem_append_left _ hp)
    q (by rw [candStmts_append]; exact List.mem_append_left _ hq)

theorem importModels_create {V D C G S : Type} [DecidableEq V] [DecidableEq D] [DecidableEq S]
    (ctx : Context V D C G S) : ImportModels ctx [] (create : Table V D C G S) := by
  constructor
  · exact tableInv_create ctx
  · intro d
    constructor
    · rintro ⟨cd, hcd⟩
      exact Option.noConfusion hcd
    · rintro ⟨p, hp, -⟩
      exact absurd hp (List.not_mem_nil p)
  · intro d cd h
    exact Option.noConfusion h
  · intro v ds h
    exact Option.noConfusion h
  · intro d cd w h
    exact Option.noConfusion h
  · intro d cd w h
    exact Option.noConfusion h
  · intro d cd w h
    exact Option.noConfusion h

theorem importAll_models {V D C G S : Type} [DecidableEq V] [DecidableEq D] [DecidableEq S]
    {ctx : Context V D C G S} :
    ∀ (rest seen : List (SignedStatement D C S)) (t : Table V D C G S),
      ImportModels ctx seen t → VotesCovered ctx seen →
      NonConflicting ctx (seen ++ rest) → DigestDet ctx (seen ++ rest) →
      WellOrderedFrom ctx seen rest →
      ∃ t', importAll ctx t rest = some t' ∧ ImportModels ctx (seen ++ rest) t'
  | [], seen, t, hm, _, _, _, _ => by
    refine ⟨t, rfl, ?_⟩
    rw [List.append_nil]
    exact hm
  | s :: rest, seen, t, hm, hvc, hnc, hdd, hwo => by
    obtain ⟨hcov, hwo'⟩ := hwo
    have hassoc : seen ++ s :: rest = (seen ++ [s]) ++ rest := by simp
    rw [hassoc] at hnc hdd
    obtain ⟨t1, himp, hm1⟩ :=
      import_step_models s hm hvc (nonConflicting_left hnc) (digestDet_left hdd) hcov
    have hvc1 : VotesCovered ctx (seen ++ [s]) := votesCovered_append hvc hcov
    obtain ⟨t2, himp2, hm2⟩ := importAll_models rest (seen ++ [s]) t1 hm1 hvc1 hnc hdd hwo'
    refine ⟨t2, ?_, by rw [hassoc]; exact hm2⟩
    unfold importAll
    simp only [himp]
    exact himp2

theorem max?_eq_of_mem_iff {C : Type} [LinearOrder C] {l1 l2 : List C}
    (h : ∀ a, a ∈ l1 ↔ a ∈ l2) : l1.max? = l2.max? := by
  haveI : Std.Antisymm (fun (x1 x2 : C) => x1 ≤ x2) := ⟨fun h1 h2 => le_antisymm h1 h2⟩
  have hiff : ∀ a, l1.max? = some a ↔ l2.max? = some a := by
    intro a
    rw [List.max?_eq_some_iff le_refl max_choice (fun a b c => max_le_iff),
        List.max?_eq_some_iff le_refl max_choice (fun a b c => max_le_iff)]
    constructor
    · rintro ⟨hmem, hb⟩
      exact ⟨(h a).mp hmem, fun b hb2 => hb b ((h b).mpr hb2)⟩
    · rintro ⟨hmem, hb⟩
      exact ⟨(h a).mpr hmem, fun b hb2 => hb b ((h b).mp hb2)⟩
  cases h1 : l1.max? with
  | some a =>
    exact ((hiff a).mp h1).symm
  | none =>
    cases h2 : l2.max? with
    | none => rfl
    | some a =>
      have := (hiff a).mpr h2
      rw [h1] at this
      exact Option.noConfusion this

theorem perm_of_nodup_mem_iff {α : Type} [DecidableEq α] {l1 l2 : List α}
    (h1 : l1.Nodup) (h2 : l2.Nodup) (h : ∀ a, a ∈ l1 ↔ a ∈ l2) : l1.Perm l2 :=
  List.perm_of_nodup_nodup_toFinset_eq h1 h2 (Finset.ext (fun a => by
    rw [List.mem_toFinset, List.mem_toFinset]
    exact h a))

theorem selIncl_eq {V D C G S : Type} [LinearOrder C] [LinearOrder G]
    (ctx : Context V D C G S) :
    ∀ l : List (D × CandidateData V D C G S),
      ((l.map Prod.snd).filter (fun cd => includable ctx cd)).map
          (fun cd => (cd.group_id, cd.candidate)) =
        ((l.map (fun p => (p.1, (p.2.group_id, p.2.candidate, includable ctx p.2)))).map
          Prod.snd).filterMap
          (fun x => if x.2.2 = true then some (x.1, x.2.1) else none)
  | [] => rfl
  | p :: ps => by
    by_cases h : includable ctx p.2 = true <;>
      simp [h, selIncl_eq ctx ps]

theorem filter_map_sel_eq {V D C G S : Type} [LinearOrder C] [LinearOrder G] (g : G) :
    ∀ l : List (CandidateData V D C G S),
      (l.filter (fun cd => decide (cd.group_id = g))).map CandidateData.candidate =
        ((l.map (fun cd => (cd.group_id, cd.candidate))).filter
          (fun p => decide (p.1 = g))).map Prod.snd
  | [] => rfl
  | cd :: ls => by
    by_cases h : cd.group_id = g <;>
      simp [h, filter_map_sel_eq g ls]

theorem proposedSpec_eq_of_models {V D C G S : Type} [DecidableEq V] [DecidableEq D]
    [DecidableEq S] [LinearOrder C] [LinearOrder G]
    {ctx : Context V D C G S} {L1 L2 : List (SignedStatement D C S)} {t1 t2 : Table V D C G S}
    (hperm : L1.Perm L2) (hdd : DigestDet ctx L1)
    (hm1 : ImportModels ctx L1 t1) (hm2 : ImportModels ctx L2 t2) :
    proposedCandidatesSpec ctx t1 = proposedCandidatesSpec ctx t2 := by
  have hcmem : ∀ p, p ∈ candStmts ctx L1 ↔ p ∈ candStmts ctx L2 := by
    intro p
    exact (hperm.filterMap _).mem_iff
  have hvmem : ∀ s2 : SignedStatement D C S, s2 ∈ L1 ↔ s2 ∈ L2 := fun s2 => hperm.mem_iff
  have hdata : ∀ d cd1 cd2, lookupA t1.candidate_votes d = some cd1 →
      lookupA t2.candidate_votes d = some cd2 →
      cd1.group_id = cd2.group_id ∧ cd1.candidate = cd2.candidate ∧
        includable ctx cd1 = includable ctx cd2 := by
    intro d cd1 cd2 hcd1 hcd2
    have hc1 := hm1.cand_from d cd1 hcd1
    have hc2 := (hcmem _).mpr (hm2.cand_from d cd2 hcd2)
    have hcand : cd1.candidate = cd2.candidate := hdd _ hc1 _ hc2 rfl
    have hgroup : cd1.group_id = cd2.group_id := by
      rw [hm1.inv.record_group d cd1 hcd1, hm2.inv.record_group d cd2 hcd2, hcand]
    refine ⟨hgroup, hcand, ?_⟩
    have hcV : ∀ w, castsVoter ctx L1 cd1.group_id d w ↔ castsVoter ctx L2 cd2.group_id d w := by
      intro w
      rw [← hgroup]
      unfold castsVoter
      constructor
      · rintro ⟨s2, hs2, hk⟩
        exact ⟨s2, (hvmem s2).mp hs2, hk⟩
      · rintro ⟨s2, hs2, hk⟩
        exact ⟨s2, (hvmem s2).mpr hs2, hk⟩
    have hcI : ∀ w, castsInvalid ctx L1 cd1.group_id d w ↔
        castsInvalid ctx L2 cd2.group_id d w := by
      intro w
      rw [← hgroup]
      unfold castsInvalid
      constructor
      · rintro ⟨s2, hs2, hk⟩
        exact ⟨s2, (hvmem s2).mp hs2, hk⟩
      · rintro ⟨s2, hs2, hk⟩
        exact ⟨s2, (hvmem s2).mpr hs2, hk⟩
    have hcA : ∀ w, castsAvail ctx L1 cd1.group_id d w ↔ castsAvail ctx L2 cd2.group_id d w := by
      intro w
      rw [← hgroup]
      unfold castsAvail
      constructor
      · rintro ⟨s2, hs2, hk⟩
        exact ⟨s2, (hvmem s2).mp hs2, hk⟩
      · rintro ⟨s2, hs2, hk⟩
        exact ⟨s2, (hvmem s2).mpr hs2, hk⟩
    have hvvmem : ∀ w, w ∈ cd1.validity_votes.map Prod.fst ↔
        w ∈ cd2.validity_votes.map Prod.fst := by
      intro w
      constructor
      · intro hw
        have h1 := (hm1.vv_iff d cd1 w hcd1).mp
          (Option.isSome_iff_exists.mp (lookupA_isSome_iff.mpr hw))
        have h2 := (hm2.vv_iff d cd2 w hcd2).mpr ((hcV w).mp h1)
        exact lookupA_isSome_iff.mp (Option.isSome_iff_exists.mpr h2)
      · intro hw
        have h1 := (hm2.vv_iff d cd2 w hcd2).mp
          (Option.isSome_iff_exists.mp (lookupA_isSome_iff.mpr hw))
        have h2 := (hm1.vv_iff d cd1 w hcd1).mpr ((hcV w).mpr h1)
        exact lookupA_isSome_iff.mp (Option.isSome_iff_exists.mpr h2)
    have havmem : ∀ w, w ∈ cd1.availability_votes.map Prod.fst ↔
        w ∈ cd2.availability_votes.map Prod.fst := by
      intro w
      constructor
      · intro hw
        have h1 := (hm1.av_iff d cd1 w hcd1).mp (lookupA_isSome_iff.mpr hw)
        have h2 := (hm2.av_iff d cd2 w hcd2).mpr ((hcA w).mp h1)
        exact lookupA_isSome_iff.mp h2
      · intro hw
        have h1 := (hm2.av_iff d cd2 w hcd2).mp (lookupA_isSome_iff.mpr hw)
        have h2 := (hm1.av_iff d cd1 w hcd1).mpr ((hcA w).mpr h1)
        exact lookupA_isSome_iff.mp h2
    have hvvlen : cd1.validity_votes.length = cd2.validity_votes.length := by
      have := (perm_of_nodup_mem_iff (hm1.inv.vv_nodup d cd1 hcd1)
        (hm2.inv.vv_nodup d cd2 hcd2) hvvmem).length_eq
      simpa using this
    have havlen : cd1.availability_votes.length = cd2.availability_votes.length := by
      have := (perm_of_nodup_mem_iff (hm1.inv.av_nodup d cd1 hcd1)
        (hm2.inv.av_nodup d cd2 hcd2) havmem).length_eq
      simpa using this
    have hbadE : cd1.indicated_bad_by.isEmpty = cd2.indicated_bad_by.isEmpty := by
      apply Bool.eq_iff_iff.mpr
      rw [List.isEmpty_iff, List.isEmpty_iff, List.eq_nil_iff_forall_not_mem,
        List.eq_nil_iff_forall_not_mem]
      have hbadmem : ∀ w, w ∈ cd1.indicated_bad_by ↔ w ∈ cd2.indicated_bad_by := by
        intro w
        rw [hm1.inv.bad_iff d cd1 w hcd1, hm2.inv.bad_iff d cd2 w hcd2,
          hm1.inval_iff d cd1 w hcd1, hm2.inval_iff d cd2 w hcd2]
        exact hcI w
      constructor
      · intro h w hw
        exact h w ((hbadmem w).mpr hw)
      · intro h w hw
        exact h w ((hbadmem w).mp hw)
    unfold includable CandidateData.can_be_included
    rw [hbadE, hvvlen, havlen, hgroup]
  have hkeys : ∀ d, (∃ cd, lookupA t1.candidate_votes d = some cd) ↔
      (∃ cd, lookupA t2.candidate_votes d = some cd) := by
    intro d
    rw [hm1.keys_iff d, hm2.keys_iff d]
    constructor
    · rintro ⟨p, hp, hp1⟩
      exact ⟨p, (hcmem p).mp hp, hp1⟩
    · rintro ⟨p, hp, hp1⟩
      exact ⟨p, (hcmem p).mpr hp, hp1⟩
  have hinfoperm : (t1.candidate_votes.map
      (fun p => (p.1, (p.2.group_id, p.2.candidate, includable ctx p.2)))).Perm
      (t2.candidate_votes.map
      (fun p => (p.1, (p.2.group_id, p.2.candidate, includable ctx p.2)))) := by
    apply perm_of_nodup_mem_iff
    · apply List.Nodup.of_map Prod.fst
      rw [List.map_map]
      exact hm1.inv.cv_nodup
    · apply List.Nodup.of_map Prod.fst
      rw [List.map_map]
      exact hm2.inv.cv_nodup
    · intro x
      constructor
      · intro hx
        obtain ⟨p, hp, hF⟩ := List.mem_map.mp hx
        have hlook : lookupA t1.candidate_votes p.1 = some p.2 :=
          mem_lookupA hm1.inv.cv_nodup hp
        obtain ⟨cd2, hcd2⟩ := (hkeys p.1).mp ⟨p.2, hlook⟩
        have hd := hdata p.1 p.2 cd2 hlook hcd2
        refine List.mem_map.mpr ⟨(p.1, cd2), lookupA_mem hcd2, ?_⟩
        rw [← hF]
        simp only
        rw [← hd.1, ← hd.2.1, ← hd.2.2]
      · intro hx
        obtain ⟨p, hp, hF⟩ := List.mem_map.mp hx
        have hlook : lookupA t2.candidate_votes p.1 = some p.2 :=
          mem_lookupA hm2.inv.cv_nodup hp
        obtain ⟨cd1, hcd1⟩ := (hkeys p.1).mpr ⟨p.2, hlook⟩
        have hd := hdata p.1 cd1 p.2 hcd1 hlook
        refine List.mem_map.mpr ⟨(p.1, cd1), lookupA_mem hcd1, ?_⟩
        rw [← hF]
        simp only
        rw [hd.1, hd.2.1, hd.2.2]
  have hselperm : (((t1.candidate_votes.map Prod.snd).filter
      (fun cd => includable ctx cd)).map (fun cd => (cd.group_id, cd.candidate))).Perm
      (((t2.candidate_votes.map Prod.snd).filter
      (fun cd => includable ctx cd)).map (fun cd => (cd.group_id, cd.candidate))) := by
    rw [selIncl_eq ctx t1.candidate_votes, selIncl_eq ctx t2.candidate_votes]
    exact (hinfoperm.map Prod.snd).filterMap _
  have hgm : ∀ g, groupMax ((t1.candidate_votes.map Prod.snd).filter
      (fun cd => includable ctx cd)) g =
      groupMax ((t2.candidate_votes.map Prod.snd).filter (fun cd => includable ctx cd)) g := by
    intro g
    unfold groupMax
    apply max?_eq_of_mem_iff
    intro a
    rw [filter_map_sel_eq g, filter_map_sel_eq g]
    exact ((hselperm.filter _).map Prod.snd).mem_iff
  have hgroups : ((((t1.candidate_votes.map Prod.snd).filter
      (fun cd => includable ctx cd)).map CandidateData.group_id).dedup).mergeSort
        (fun a b => decide (a ≤ b)) =
      ((((t2.candidate_votes.map Prod.snd).filter
      (fun cd => includable ctx cd)).map CandidateData.group_id).dedup).mergeSort
        (fun a b => decide (a ≤ b)) := by
    apply mergeSort_eq_of_perm_le
    apply List.Perm.dedup
    have h := hselperm.map Prod.fst
    rw [List.map_map, List.map_map] at h
    exact h
  unfold proposedCandidatesSpec
  simp only
  rw [hgroups]
  exact List.filterMap_congr (fun g _ => hgm g)

/-- C7 (amended): importing two permutations of the same statement list into an
empty table yields equal `proposed_candidates` output, provided the list is
non-conflicting (no signer issues validity votes of different kinds, or
candidate statements with different digests), candidates are determined by
their digests, and in both orders every vote follows an authorized candidate
statement bearing its digest. -/
theorem proposed_candidates_order_independent {V D C G S : Type} [DecidableEq V] [DecidableEq D]
    [DecidableEq S] [LinearOrder C] [LinearOrder G]
    (ctx : Context V D C G S) (l1 l2 : List (SignedStatement D C S))
    (hperm : l1.Perm l2)
    (hnc : NonConflicting ctx l1) (hdd : DigestDet ctx l1)
    (hwo1 : WellOrderedFrom ctx [] l1) (hwo2 : WellOrderedFrom ctx [] l2) :
    ∃ t1 t2, importAll ctx create l1 = some t1 ∧ importAll ctx create l2 = some t2 ∧
      t1.proposed_candidates ctx = t2.proposed_candidates ctx := by
  have hvc0 : VotesCovered ctx ([] : List (SignedStatement D C S)) :=
    fun s hs => absurd hs (List.not_mem_nil s)
  have hnc2 : NonConflicting ctx l2 :=
    fun s1 h1 s2 h2 => hnc s1 (hperm.mem_iff.mpr h1) s2 (hperm.mem_iff.mpr h2)
  have hdd2 : DigestDet ctx l2 := by
    intro p hp q hq
    exact hdd p ((hperm.filterMap _).mem_iff.mpr hp) q ((hperm.filterMap _).mem_iff.mpr hq)
  obtain ⟨t1, h1, hm1⟩ := importAll_models l1 [] create (importModels_create ctx) hvc0 hnc hdd hwo1
  obtain ⟨t2, h2, hm2⟩ :=
    importAll_models l2 [] create (importModels_create ctx) hvc0 hnc2 hdd2 hwo2
  refine ⟨t1, t2, h1, h2, ?_⟩
  rw [proposed_candidates_eq_spec, proposed_candidates_eq_spec]
  exact proposedSpec_eq_of_models hperm hdd hm1 hm2

/-- C7 witness: the three statements of the counterexample environment, imported
in two well-ordered orders (candidate first), satisfy all hypotheses, and the
amended theorem applies. -/
theorem proposed_candidates_order_independent_witness :
    ([sC7cand, sC7valid, sC7avail].Perm [sC7cand, sC7avail, sC7valid] ∧
      NonConflicting ctxC7 [sC7cand, sC7valid, sC7avail] ∧
      DigestDet ctxC7 [sC7cand, sC7valid, sC7avail] ∧
      WellOrderedFrom ctxC7 [] [sC7cand, sC7valid, sC7avail] ∧
      WellOrderedFrom ctxC7 [] [sC7cand, sC7avail, sC7valid]) ∧
    (∃ t1 t2, importAll ctxC7 create [sC7cand, sC7valid, sC7avail] = some t1 ∧
      importAll ctxC7 create [sC7cand, sC7avail, sC7valid] = some t2 ∧
      t1.proposed_candidates ctxC7 = t2.proposed_candidates ctxC7) :=
  ⟨⟨by decide, by decide, by decide, by decide, by decide⟩,
   proposed_candidates_order_independent ctxC7 _ _ (by decide) (by decide) (by decide)
     (by decide) (by decide)⟩
